import Mathlib

/-!
Verification development for the wosl write-optimized skip list.

The Go sources are shallowly embedded: machine integers become `Nat` with
explicit `% 2^32` / `% 2^64` where overflow matters, byte slices become
`List Nat` (each element a byte value), in-place mutation becomes explicit
state passing, and loops that Go writes with `goto`/`for` become fuelled
or structurally recursive Lean functions.  Each definition names the Go
function it embeds.
-/

namespace Wosl

/-- 2^32, the modulus of Go uint32 arithmetic. -/
def m32 : Nat := 4294967296

/-- 2^64, the modulus of Go uint64 arithmetic. -/
def m64 : Nat := 18446744073709551616

/-! ## PCG generator (internal/pcg/pcg.go)

`pcg.T` holds `State` and `Inc`, both uint64.  `Uint32` advances the state
by the LCG step and compresses the old state with an xorshift followed by a
left rotate (the source notes it deliberately uses a left rotate). -/

/-- The LCG multiplier `mul` from pcg.go. -/
def pcgMul : Nat := 6364136223846793005

/-- `pcg.T`: state and increment of the generator (both uint64). -/
structure Pcg where
  state : Nat
  inc : Nat
  deriving Repr, DecidableEq

/-- `bits.RotateLeft32(x, k)` for `0 ≤ k < 32` and `x < 2^32`: the two
shifted parts occupy disjoint bit ranges, so the bitwise or is a sum. -/
def rotl32 (x k : Nat) : Nat := (x * 2 ^ k + x / 2 ^ (32 - k)) % m32

/-- `(*pcg.T).Uint32`: returns the drawn uint32 and the advanced generator. -/
def pcgUint32 (p : Pcg) : Nat × Pcg :=
  let oldstate := p.state
  let newstate := (oldstate * pcgMul + p.inc) % m64
  let xorshift := (Nat.xor (oldstate / 2 ^ 18) oldstate / 2 ^ 27) % m32
  (rotl32 xorshift (oldstate / 2 ^ 59), { p with state := newstate })

/-! ## The height function (utils.go)

`height(hash, zero, later)` seeds the generator with the struct literal
`pcg.T{State: hash, Inc: 1}` (not `pcg.New`) and counts how many successive
draws fall strictly below the threshold, the first draw compared against
`zero` and every later draw against `later`.  The Go loop is a `goto`; we
embed it with fuel 32768 (the positive range of the Go `int16` counter,
beyond which the Go counter would overflow anyway). -/

/-- The generator `pcg.T{State: hash, Inc: 1}` that `height` starts from. -/
def pcgOf (hash : Nat) : Pcg := { state := hash % m64, inc := 1 }

/-- The fuelled loop of `height` (utils.go). -/
def heightAux : Nat → Pcg → Nat → Nat → Nat
  | 0, _, _, _ => 0
  | fuel + 1, rng, zero, later =>
    let d := pcgUint32 rng
    if d.1 ≥ zero then 0 else heightAux fuel d.2 later later + 1

/-- `height(hash, zero, later)` from utils.go. -/
def height (hash zero later : Nat) : Nat :=
  heightAux 32768 (pcgOf hash) zero later

/-- The generator state after `i` draws starting from `pcgOf hash`. -/
def pcgIter (hash : Nat) : Nat → Pcg
  | 0 => pcgOf hash
  | i + 1 => (pcgUint32 (pcgIter hash i)).2

/-- The `i`-th uint32 drawn by `height` for the given hash (draw 0 first). -/
def draw (hash : Nat) (i : Nat) : Nat := (pcgUint32 (pcgIter hash i)).1

/-- The threshold the `i`-th draw is compared against: `zero` for draw 0,
`later` for every subsequent draw. -/
def threshold (zero later : Nat) : Nat → Nat
  | 0 => zero
  | _ + 1 => later

/-- Helper: running `heightAux` from the `j`-th generator state counts the
successive below-threshold draws starting at index `j`. -/
theorem heightAux_eq_of_draws (hash later : Nat) :
    ∀ (fuel z h j : Nat),
      h < fuel →
      (∀ i, i < h → draw hash (j + i) < threshold z later i) →
      threshold z later h ≤ draw hash (j + h) →
      heightAux fuel (pcgIter hash j) z later = h := by
  intro fuel
  induction fuel with
  | zero => intro z h j hfuel _ _; omega
  | succ fuel ih =>
    intro z h j hfuel hbelow hfail
    rw [heightAux]
    have hdraw : (pcgUint32 (pcgIter hash j)).1 = draw hash j := rfl
    cases h with
    | zero =>
      have hz : z ≤ draw hash j := by simpa [threshold] using hfail
      simp only [hdraw]
      rw [if_pos (by exact hz)]
    | succ h =>
      have hlt : draw hash j < z := by
        simpa [threshold] using hbelow 0 (Nat.succ_pos h)
      simp only [hdraw]
      rw [if_neg (by omega)]
      have hstep : (pcgUint32 (pcgIter hash j)).2 = pcgIter hash (j + 1) := rfl
      rw [hstep]
      have hb : ∀ i, i < h → draw hash ((j + 1) + i) < threshold later later i := by
        intro i hi
        have hth := hbelow (i + 1) (by omega)
        have harr : j + (i + 1) = (j + 1) + i := by omega
        rw [harr] at hth
        cases i with
        | zero => simpa [threshold] using hth
        | succ i => simpa [threshold] using hth
      have hf : threshold later later h ≤ draw hash ((j + 1) + h) := by
        have harr : j + (h + 1) = (j + 1) + h := by omega
        rw [harr] at hfail
        cases h with
        | zero => simpa [threshold] using hfail
        | succ h => simpa [threshold] using hfail
      rw [ih later h (j + 1) (by omega) hb hf]

/-- C7: for every 64-bit hash and thresholds `(rBneps, rBeps)` passed as
`(zero, later)`, the height function is the deterministic pure function of
the hash and the thresholds that seeds a PCG generator with
`(state = hash, inc = 1)`, draws successive uint32 values, and returns the
largest `h` such that draws `0..h-1` all fall strictly below their
thresholds — draw 0 compared against `zero` and every later draw against
`later`.  The hypotheses name the first failing draw (index `h`); the
conclusion states that `height` returns exactly `h` and that `h` is the
largest prefix of successful draws. -/
theorem height_is_largest_success_prefix (hash zero later h : Nat)
    (hfuel : h < 32768)
    (hbelow : ∀ i, i < h → draw hash i < threshold zero later i)
    (hfail : threshold zero later h ≤ draw hash h) :
    height hash zero later = h ∧
      ∀ k, (∀ i, i < k → draw hash i < threshold zero later i) → k ≤ h := by
  constructor
  · have := heightAux_eq_of_draws hash later 32768 zero h 0 hfuel
      (by intro i hi; simpa using hbelow i hi) (by simpa using hfail)
    simpa [height, pcgIter, threshold] using this
  · intro k hk
    by_contra hgt
    have : draw hash h < threshold zero later h := hk h (by omega)
    omega

/-- Witness for C7 at a concrete input: with threshold `zero = 0` the very
first draw already fails, so the height of any hash is 0. -/
theorem height_is_largest_success_prefix_witness :
    height 5 0 7 = 0 :=
  ( height_is_largest_success_prefix 5 0 7 0 (by omega)
    (by intro i hi; omega) (Nat.zero_le _)).1

/-! ## The exported entry package (internal/node/entry)

`entry.T` is a 16-byte descriptor: a 4-byte key prefix, a uint32 `kvt`
bit-packing `key_len:15 | value_len:15 | tombstone:1`, a uint32 pivot and a
uint32 offset into a backing arena.  Shifted fields occupy disjoint bit
ranges, so the Go `|` of the shifted masked fields is a sum here. -/

namespace EntryP

/-- `entry.KeyMask = entry.ValueMask = 2^15 - 1`. -/
def keyValMask : Nat := 32767

/-- `entry.T`.  The Go field `Prefix` is named `pfx` here (`prefix` is a
Lean keyword). -/
structure T where
  pfx : List Nat
  kvt : Nat
  pivot : Nat
  offset : Nat
  deriving Repr, DecidableEq

/-- `copy(prefix[:], key)` into a zeroed 4-byte array: the first four bytes
of the key, zero-padded on the right. -/
def pad4 (key : List Nat) : List Nat :=
  (key ++ List.replicate 4 0).take 4

/-- `entry.New(key, value, tombstone, offset)`. -/
def New (key value : List Nat) (tombstone : Bool) (offset : Nat) : T :=
  { pfx := pad4 key
    kvt := key.length % 32768 + value.length % 32768 * 32768 +
      (if tombstone then 1 else 0) * 1073741824
    pivot := 0
    offset := offset }

/-- `entry.T.Key`: the stored key length. -/
def Key (e : T) : Nat := e.kvt % 32768

/-- `entry.T.Value`: the stored value length. -/
def Value (e : T) : Nat := e.kvt / 32768 % 32768

/-- `entry.T.Tombstone`. -/
def Tombstone (e : T) : Bool := e.kvt / 1073741824 % 2 > 0

/-- `entry.T.Offset`. -/
def Offset (e : T) : Nat := e.offset

/-- `entry.T.Pivot`. -/
def Pivot (e : T) : Nat := e.pivot

/-- `entry.T.SetPivot`. -/
def SetPivot (e : T) (pivot : Nat) : T := { e with pivot := pivot }

/-- `entry.T.SetOffset`. -/
def SetOffset (e : T) (offset : Nat) : T := { e with offset := offset }

instance : Inhabited T := ⟨{ pfx := [0, 0, 0, 0], kvt := 0, pivot := 0, offset := 0 }⟩

/-- `entry.T.ReadKey(buf)`: `buf[offset : offset+Key]`. -/
def ReadKey (e : T) (buf : List Nat) : List Nat :=
  (buf.drop e.offset).take (Key e)

/-- `entry.T.ReadValue(buf)`: `buf[offset+Key : offset+Key+Value]`. -/
def ReadValue (e : T) (buf : List Nat) : List Nat :=
  (buf.drop (e.offset + Key e)).take (Value e)

end EntryP

/-- C9: the entry constructor stores key and value lengths masked to 15
bits.  For every key, value, tombstone flag and offset, the accessors of
`entry.New` return exactly the masked key length (`len(key) mod 2^15`), the
masked value length, the tombstone flag, the offset, pivot 0, and the
zero-padded 4-byte prefix; when the lengths are at most 32767 the stored
lengths equal the true lengths, and for longer inputs the stored length is
silently `len mod 2^15` — no error is signalled (the constructor is total). -/
theorem entry_new_bitpacked (key value : List Nat) (tomb : Bool) (off : Nat) :
    EntryP.Key (EntryP.New key value tomb off) = key.length % 32768 ∧
    EntryP.Value (EntryP.New key value tomb off) = value.length % 32768 ∧
    EntryP.Tombstone (EntryP.New key value tomb off) = tomb ∧
    EntryP.Offset (EntryP.New key value tomb off) = off ∧
    EntryP.Pivot (EntryP.New key value tomb off) = 0 ∧
    (EntryP.New key value tomb off).pfx = EntryP.pad4 key ∧
    (key.length ≤ 32767 → EntryP.Key (EntryP.New key value tomb off) = key.length) ∧
    (value.length ≤ 32767 → EntryP.Value (EntryP.New key value tomb off) = value.length) := by
  have hk := Nat.mod_lt key.length (show 0 < 32768 by omega)
  have hv := Nat.mod_lt value.length (show 0 < 32768 by omega)
  refine ⟨?_, ?_, ?_, rfl, rfl, rfl, ?_, ?_⟩
  · show (key.length % 32768 + value.length % 32768 * 32768 +
      (if tomb then 1 else 0) * 1073741824) % 32768 = key.length % 32768
    cases tomb <;> simp <;> omega
  · show (key.length % 32768 + value.length % 32768 * 32768 +
      (if tomb then 1 else 0) * 1073741824) / 32768 % 32768 = value.length % 32768
    cases tomb <;> simp <;> omega
  · show decide ((key.length % 32768 + value.length % 32768 * 32768 +
      (if tomb then 1 else 0) * 1073741824) / 1073741824 % 2 > 0) = tomb
    cases tomb <;> simp <;> omega
  · intro hle
    show (key.length % 32768 + value.length % 32768 * 32768 +
      (if tomb then 1 else 0) * 1073741824) % 32768 = key.length
    cases tomb <;> simp <;> omega
  · intro hle
    show (key.length % 32768 + value.length % 32768 * 32768 +
      (if tomb then 1 else 0) * 1073741824) / 32768 % 32768 = value.length
    cases tomb <;> simp <;> omega

/-! ## Byte-order helpers (encoding/binary)

Big- and little-endian uint32 encoding over byte lists.  Reads past the
end of a buffer yield 0 bytes here; the Go code only performs them on
buffers it has bounds-checked (or panics, which no verified run reaches). -/

/-- `binary.BigEndian.PutUint32`. -/
def putBE32 (n : Nat) : List Nat :=
  [n / 16777216 % 256, n / 65536 % 256, n / 256 % 256, n % 256]

/-- `binary.BigEndian.Uint32`. -/
def getBE32 (l : List Nat) : Nat :=
  16777216 * l.getD 0 0 + 65536 * l.getD 1 0 + 256 * l.getD 2 0 + l.getD 3 0

/-- `binary.LittleEndian.PutUint32`. -/
def putLE32 (n : Nat) : List Nat :=
  [n % 256, n / 256 % 256, n / 65536 % 256, n / 16777216 % 256]

/-- `binary.LittleEndian.Uint32`. -/
def getLE32 (l : List Nat) : Nat :=
  l.getD 0 0 + 256 * l.getD 1 0 + 65536 * l.getD 2 0 + 16777216 * l.getD 3 0

/-- `bytes.Compare`: lexicographic byte comparison returning -1, 0 or 1. -/
def bytesCmp : List Nat → List Nat → Int
  | [], [] => 0
  | [], _ :: _ => -1
  | _ :: _, [] => 1
  | a :: as, b :: bs =>
    if a < b then -1 else if b < a then 1 else bytesCmp as bs

/-! ## The node package entry (internal/node/entry.go, part_017 era)

The entry used by the part_017 node: `kvk` bit-packs
`key_len:15 | value_len:15 | kind:2` (kindInsert = 0, kindTombstone = 1),
plus a pivot, a 4-byte prefix and an offset.  `newEntry`, `header`, `size`
and the accessors are from internal/node/entry.go.  The node stores
`offset = len(buf)` and then appends the 12-byte header, the key and the
value, so the key bytes live `entryHeaderSize` past the offset. -/

namespace EntryN

/-- `entryHeaderSize` = kvk(4) + pivot(4) + prefix(4). -/
def entryHeaderSize : Nat := 12

/-- `kindInsert`. -/
def kindInsert : Nat := 0

/-- `kindTombstone`. -/
def kindTombstone : Nat := 1

/-- The node package entry struct (fields `kvk`, `pivot`, `prefix`,
`offset`; the prefix field is named `pfx` because `prefix` is a Lean
keyword). -/
structure T where
  kvk : Nat
  pivot : Nat
  pfx : List Nat
  offset : Nat
  deriving Repr, DecidableEq

instance : Inhabited T := ⟨{ kvk := 0, pivot := 0, pfx := [0, 0, 0, 0], offset := 0 }⟩

/-- `newEntry(key, value, kind, offset)` from internal/node/entry.go. -/
def newEntry (key value : List Nat) (kind : Nat) (offset : Nat) : T :=
  { kvk := key.length % 32768 + value.length % 32768 * 32768 + kind % 4 * 1073741824
    pivot := 0
    pfx := EntryP.pad4 key
    offset := offset }

/-- `entry.key()`: the stored key length. -/
def keyLen (e : T) : Nat := e.kvk % 32768

/-- `entry.value()`: the stored value length. -/
def valueLen (e : T) : Nat := e.kvk / 32768 % 32768

/-- `entry.kind()`. -/
def kind (e : T) : Nat := e.kvk / 1073741824 % 4

/-- `entry.size()`. -/
def size (e : T) : Nat := entryHeaderSize + keyLen e + valueLen e

/-- `entry.header()`: kvk and pivot little-endian, then the prefix. -/
def header (e : T) : List Nat :=
  putLE32 (e.kvk % m32) ++ putLE32 (e.pivot % m32) ++
    (e.pfx ++ List.replicate 4 0).take 4

/-- Modelled from the spec: the part_017-era `entry.readKey` is not among
the source files (the entry.go in the tree is from the snapshot whose arena
holds bare `key || value` bytes, while the part_017 node appends a 12-byte
entry header, then the key, then the value, at `offset`).  Following the
spec's description of the arena — key and value bytes contiguous behind the
entry descriptor — and the in-repository pattern of part_015
(`start := entryHeaderSize + e.offset()`), the key starts `entryHeaderSize`
past the entry's offset. -/
def readKey (e : T) (buf : List Nat) : List Nat :=
  (buf.drop (e.offset + entryHeaderSize)).take (keyLen e)

/-- Modelled from the spec: `entry.readValue` for the part_017 node, see
`readKey` — the value follows the key bytes. -/
def readValue (e : T) (buf : List Nat) : List Nat :=
  (buf.drop (e.offset + entryHeaderSize + keyLen e)).take (valueLen e)

/-- Modelled from the spec: the free function `readEntry(offset, buf)`
called by the part_017 node's `iter` is not among the source files.
Following part_015's readEntry — bounds check, parse the header fields at
`offset`, keep `offset` as the entry's offset — it parses the 12-byte
header exactly as `header` writes it (kvk and pivot little-endian, then
the 4-byte prefix). -/
def readEntry (offset : Nat) (buf : List Nat) : Option T :=
  if buf.length < entryHeaderSize + offset then none
  else
    let b := buf.drop offset
    some { kvk := getLE32 b
           pivot := getLE32 (b.drop 4)
           pfx := (b.drop 8).take 4
           offset := offset }

end EntryN

/-! ## The in-node btree (internal/node/btree.go, payload 31)

A slab of fixed-size nodes addressed by uint32 index, `invalidNode =
2^32-1`.  The payload array is modelled by the list of its `count` used
entries (the Go code never reads a slot at or beyond `count`).  Loops that
Go writes over pointers become fuelled recursions; the fuel is sized from
the slab and never runs out on trees the verified operations build. -/

namespace BtreeN

/-- `invalidNode = math.MaxUint32`. -/
def invalidNode : Nat := 4294967295

/-- `payloadEntries` (31 in internal/node/btree.go). -/
def payloadEntries : Nat := 31

/-- `payloadSplit = payloadEntries / 2`. -/
def payloadSplit : Nat := 15

/-- `compare(a, b)` for uint32s from internal/node/btree.go. -/
def compare (a b : Nat) : Int :=
  if a = b then 0 else if a < b then -1 else 1

/-- `btreeNode`: sibling, parent and count bookkeeping plus the used
prefix of the payload array. -/
structure BNode where
  next : Nat
  prev : Nat
  parent : Nat
  count : Nat
  leaf : Bool
  payload : List EntryN.T
  deriving Repr, DecidableEq

instance : Inhabited BNode :=
  ⟨{ next := invalidNode, prev := invalidNode, parent := invalidNode
     count := 0, leaf := true, payload := [] }⟩

/-- `btree`: the root id (`none` when the Go root pointer is nil), the
entry count `len`, and the slab. -/
structure T where
  rootId : Option Nat
  len : Nat
  nodes : List BNode
  deriving Repr, DecidableEq

/-- The zero / `reset` btree. -/
def empty : T := { rootId := none, len := 0, nodes := [] }

/-- Fetch a slab node (the Go code indexes only with valid ids). -/
def getNode (b : T) (nid : Nat) : BNode := b.nodes.getD nid default

/-- Replace a slab node. -/
def setNode (b : T) (nid : Nat) (n : BNode) : T :=
  { b with nodes := b.nodes.set nid n }

/-- `btree.alloc(leaf)`: append a fresh node to the slab. -/
def alloc (b : T) (leaf : Bool) : T × Nat :=
  ({ b with nodes := b.nodes ++
      [{ next := invalidNode, prev := invalidNode, parent := invalidNode
         count := 0, leaf := leaf, payload := [] }] },
   b.nodes.length)

/-- The binary search of `btreeNode.insertEntry`: probe prefix first, the
full key only on equal prefixes; `.inr h` is an exact key match at slot
`h`, `.inl i` the insertion position.  The interval shrinks every
iteration, so `gas = j - i` steps always suffice (the callers pass the
node's count); the recursion is on `gas` so that the kernel can evaluate
it. -/
def insFind (payload : List EntryN.T) (pfxv : Nat) (key buf : List Nat) :
    Nat → Nat → Nat → Nat ⊕ Nat
  | 0, i, _ => Sum.inl i
  | gas + 1, i, j =>
    if i < j then
      let h := (i + j) / 2
      let enth := payload.getD h default
      let pfxh := getBE32 enth.pfx
      if pfxv > pfxh then insFind payload pfxv key buf gas (h + 1) j
      else if pfxv < pfxh then insFind payload pfxv key buf gas i h
      else
        let c := bytesCmp key (EntryN.readKey enth buf)
        if c = 1 then insFind payload pfxv key buf gas (h + 1) j
        else if c = 0 then Sum.inr h
        else insFind payload pfxv key buf gas i h
    else Sum.inl i

/-- `btreeNode.insertEntry(key, ent, buf)` (internal/node/btree.go): on an
exact match overwrite the slot (this snapshot does not preserve the old
pivot), otherwise insert at the found position; returns whether the count
increased. -/
def insertEntry (n : BNode) (key : List Nat) (ent : EntryN.T)
    (buf : List Nat) : BNode × Bool :=
  match insFind n.payload (getBE32 ent.pfx) key buf n.count 0 n.count with
  | Sum.inr h => ({ n with payload := n.payload.set h ent }, false)
  | Sum.inl i =>
    ({ n with payload := n.payload.insertIdx i ent, count := n.count + 1 }, true)

/-- `btreeNode.appendEntry(ent)`. -/
def appendEntry (n : BNode) (ent : EntryN.T) : BNode :=
  { n with payload := n.payload ++ [ent], count := n.count + 1 }

/-- The binary search of `btree.search`: like `insFind` but on an equal
key it keeps moving right (`>= 0`), returning only a position; fuelled
like `insFind`. -/
def searchFind (payload : List EntryN.T) (pfxv : Nat) (key buf : List Nat) :
    Nat → Nat → Nat → Nat
  | 0, i, _ => i
  | gas + 1, i, j =>
    if i < j then
      let h := (i + j) / 2
      let enth := payload.getD h default
      let pfxh := getBE32 enth.pfx
      if pfxv > pfxh then searchFind payload pfxv key buf gas (h + 1) j
      else if pfxv < pfxh then searchFind payload pfxv key buf gas i h
      else if bytesCmp key (EntryN.readKey enth buf) ≥ 0 then
        searchFind payload pfxv key buf gas (h + 1) j
      else searchFind payload pfxv key buf gas i h
    else i

/-- The descent loop of `btree.search`, fuelled by the slab size. -/
def searchAux (b : T) (pfxv : Nat) (key buf : List Nat) :
    Nat → Nat → Nat
  | 0, nid => nid
  | fuel + 1, nid =>
    let n := getNode b nid
    if n.leaf then nid
    else
      let i := searchFind n.payload pfxv key buf n.count 0 n.count
      let cid := if i = n.count then n.next else (n.payload.getD i default).pivot
      searchAux b pfxv key buf fuel cid

/-- `btree.search(key, buf)`: the leaf id that should contain the key. -/
def search (b : T) (key buf : List Nat) (rid : Nat) : Nat :=
  searchAux b (getBE32 (EntryP.pad4 key)) key buf (b.nodes.length + 1) rid

/-- `btree.split(n, nid)`: allocate a left sibling `s` holding the lower
`payloadSplit` entries, patch the sibling/parent links, and shrink `n`.
Executed step by step in the Go statement order. -/
def split (b : T) (nid : Nat) : T × Nat :=
  let n0 := getNode b nid
  let (b1, sid) := alloc b n0.leaf
  let s0 := { getNode b1 sid with parent := n0.parent }
  let lower := n0.payload.take payloadSplit
  let s1 := { s0 with payload := lower, count := lower.length }
  if n0.leaf then
    -- leaf: chain s in before n
    let s2 := { s1 with next := nid }
    let b2 := setNode b1 sid s2
    let b3 :=
      if n0.prev ≠ invalidNode then
        let s3 := { s2 with prev := n0.prev }
        let b2a := setNode b2 sid s3
        let pn := getNode b2a n0.prev
        setNode b2a n0.prev { pn with next := sid }
      else b2
    let n1 := getNode b3 nid
    let kept := n0.payload.drop payloadSplit
    let b4 := setNode b3 nid
      { n1 with prev := sid, payload := kept, count := kept.length }
    (b4, sid)
  else
    -- interior: drop the split entry, take over the children's parents
    let s2 := { s1 with next := (n0.payload.getD payloadSplit default).pivot }
    let b2 := setNode b1 sid s2
    let b3 :=
      let cn := getNode b2 s2.next
      setNode b2 s2.next { cn with parent := sid }
    let b4 := s2.payload.foldl
      (fun acc e =>
        let cn := getNode acc e.pivot
        setNode acc e.pivot { cn with parent := sid })
      b3
    let n1 := getNode b4 nid
    let kept := n0.payload.drop (payloadSplit + 1)
    let b5 := setNode b4 nid
      { n1 with payload := kept, count := kept.length }
    (b5, sid)

/-- The ascent loop of `btree.Insert`/`append`: insert (or append) the
entry at node `nid`, splitting and promoting into the parent while the
node is full.  `byAppend` selects `appendEntry` (the bulk path) over
`insertEntry`. -/
def insertLoop (key buf : List Nat) (byAppend : Bool) :
    Nat → T → EntryN.T → Nat → T
  | 0, b, _, _ => b
  | fuel + 1, b, ent, nid =>
    let n := getNode b nid
    let (n1, added) :=
      if byAppend then (appendEntry n ent, true)
      else insertEntry n key ent buf
    let b1 := setNode b nid n1
    -- Insert counts new leaf keys (`added && n.leaf`); the bulk append
    -- increments `len` unconditionally each loop iteration, as in the Go.
    let b2 :=
      if byAppend then { b1 with len := b1.len + 1 }
      else if added && n1.leaf then { b1 with len := b1.len + 1 } else b1
    if n1.count < payloadEntries then b2
    else
      let ent1 := n1.payload.getD payloadSplit default
      let (b3, sid) := split b2 nid
      let n2 := getNode b3 nid
      let (b4, pid) :=
        if n2.parent ≠ invalidNode then (b3, n2.parent)
        else
          let (ba, pid) := alloc b3 false
          let p := getNode ba pid
          let ba2 := setNode ba pid { p with next := nid }
          let n3 := getNode ba2 nid
          let ba3 := setNode ba2 nid { n3 with parent := pid }
          let s := getNode ba3 sid
          let ba4 := setNode ba3 sid { s with parent := pid }
          ({ ba4 with rootId := some pid }, pid)
      insertLoop key buf byAppend fuel b4 { ent1 with pivot := sid } pid

/-- `btree.Insert(ent, buf)` (internal/node/btree.go; this snapshot returns
nothing, `len` tracks the distinct leaf keys). -/
def Insert (b : T) (ent : EntryN.T) (buf : List Nat) : T :=
  let key := EntryN.readKey ent buf
  match b.rootId with
  | none =>
    let (b1, rid) := alloc b true
    let n := getNode b1 rid
    let (n1, _) := insertEntry n key ent buf
    let b2 := setNode b1 rid n1
    { b2 with rootId := some rid, len := b2.len + 1 }
  | some rid =>
    let nid := search b key buf rid
    insertLoop key buf false (b.nodes.length + 2) b ent nid

/-- `btree.append(n, nid, ent)`: the bulk-load path. -/
def appendAt (b : T) (nid : Nat) (ent : EntryN.T) : T :=
  insertLoop [] [] true (b.nodes.length + 2) b ent nid

/-- The leftmost-leaf descent shared by `btree.Iter`. -/
def leftmostAux (b : T) : Nat → Nat → Nat
  | 0, nid => nid
  | fuel + 1, nid =>
    let n := getNode b nid
    if n.leaf then nid
    else
      let cid := if n.count = 0 then n.next else (n.payload.getD 0 default).pivot
      leftmostAux b fuel cid

/-- One leaf's portion of `btree.Iter`: run the callback over the used
payload, stopping when it demands. -/
def iterEntries {σ : Type} (cb : EntryN.T → σ → Option (σ × Bool)) :
    List EntryN.T → σ → Option (σ × Bool)
  | [], s => some (s, true)
  | e :: es, s =>
    match cb e s with
    | none => none
    | some (s1, false) => some (s1, false)
    | some (s1, true) => iterEntries cb es s1

/-- The leaf-chain walk of `btree.Iter`, fuelled by the slab size. -/
def iterChain {σ : Type} (b : T) (cb : EntryN.T → σ → Option (σ × Bool)) :
    Nat → Nat → σ → Option σ
  | 0, _, _ => none
  | fuel + 1, nid, s =>
    let n := getNode b nid
    match iterEntries cb n.payload s with
    | none => none
    | some (s1, false) => some s1
    | some (s1, true) =>
      if n.next = invalidNode then some s1
      else iterChain b cb fuel n.next s1

/-- `btree.Iter(cb)`: in-order iteration over the entries.  The callback
may carry state and stop the walk; a `none` from the callback (or fuel
exhaustion on a slab whose links the verified operations never produce)
models a Go run that does not terminate. -/
def iterRun {σ : Type} (b : T) (cb : EntryN.T → σ → Option (σ × Bool))
    (s : σ) : Option σ :=
  match b.rootId with
  | none => some s
  | some rid =>
    let leaf := leftmostAux b (b.nodes.length + 1) rid
    iterChain b cb (b.nodes.length + 1) leaf s

/-- The plain list of entries `btree.Iter` yields. -/
def iterList (b : T) : List EntryN.T :=
  (iterRun b (fun e s => some (s ++ [e], true)) []).getD []

end BtreeN

/-! ### btreeBulk (the part_017-era bulk loader) -/

/-- `btreeBulk`: a btree under construction plus the current rightmost
leaf (`none` while no node exists). -/
structure BtreeBulk where
  b : BtreeN.T
  nid : Option Nat
  deriving Repr, DecidableEq

instance : Inhabited BtreeBulk := ⟨{ b := BtreeN.empty, nid := none }⟩

/-- `btreeBulk.append(ent)`. -/
def BtreeBulk.append (bu : BtreeBulk) (ent : EntryN.T) : BtreeBulk :=
  match bu.nid with
  | none =>
    let (b1, nid) := BtreeN.alloc bu.b true
    let b2 := { b1 with rootId := some nid }
    { b := BtreeN.appendAt b2 nid ent, nid := some nid }
  | some nid => { bu with b := BtreeN.appendAt bu.b nid ent }

/-- `btreeBulk.done()`. -/
def BtreeBulk.done (bu : BtreeBulk) : BtreeN.T := bu.b

/-! ## The buffer node (part_017, package node)

A disk-block-sized buffer: a 16-byte header (`next`, `height`, `pivot`,
`count`, big-endian), a table of offsets to serialized entries when the
node came from `Load`, and an arena `buf` of header+key+value records for
entries inserted in memory, indexed by the in-node btree.

The outcome of an operation whose Go original can fail or loop is a
`Res`: `.diverge` models a Go run that never terminates (the fuelled
recursion gives up at every fuel), `.err` a returned error. -/

/-- Outcome of a fallible / possibly non-terminating embedded operation. -/
inductive Res (α : Type) where
  | diverge : Res α
  | err : Res α
  | ok : α → Res α
  deriving Repr, DecidableEq

namespace NodeP17

/-- `nodeHeaderSize` = next(4) + height(4) + pivot(4) + count(4). -/
def nodeHeaderSize : Nat := 16

/-- `node.T` (part_017). -/
structure T where
  buf : List Nat
  next : Nat
  height : Nat
  pivot : Nat
  entries : BtreeN.T
  dirty : Bool
  count : Nat
  cbuf : List Nat
  deriving Repr, DecidableEq

/-- `node.New(next, height)`: an empty node whose arena is the zeroed
header. -/
def New (next height : Nat) : T :=
  { buf := List.replicate nodeHeaderSize 0
    next := next, height := height, pivot := 0
    entries := BtreeN.empty, dirty := false, count := 0, cbuf := [] }

/-- `node.Load(buf)`: parse the header; the buffer becomes `cbuf` and the
in-memory btree starts empty. -/
def Load (buf : List Nat) : Option T :=
  if buf.length < nodeHeaderSize then none
  else some
    { buf := []
      next := getBE32 buf
      height := getBE32 (buf.drop 4)
      pivot := getBE32 (buf.drop 8)
      entries := BtreeN.empty
      dirty := false
      count := getBE32 (buf.drop 12)
      cbuf := buf }

/-- `node.T.Length()`. -/
def Length (t : T) : Nat := t.buf.length + t.cbuf.length + 4 * t.entries.len

/-- `node.T.Count()`. -/
def Count (t : T) : Nat := t.entries.len + t.count

/-- `node.T.Height()`. -/
def Height (t : T) : Nat := t.height

/-- `node.T.SetPivot`. -/
def SetPivot (t : T) (pivot : Nat) : T := { t with pivot := pivot }

/-- `node.T.SetNext`. -/
def SetNext (t : T) (next : Nat) : T := { t with next := next }

/-- `node.T.Fits(key, value, size)` (part_017): bit-field limits, the
encoded entry strictly below `size`, and room in the uint32 count. -/
def Fits (t : T) (key value : List Nat) (size : Nat) : Bool :=
  key.length ≤ 32767 && value.length ≤ 32767 &&
    EntryN.entryHeaderSize + key.length + value.length + 4 < size &&
    Count t < 4294967295

/-- `node.T.Insert(key, value)`: append the entry record to the arena and
insert it into the btree; `false` when it cannot fit. -/
def Insert (t : T) (key value : List Nat) : T × Bool :=
  if !Fits t key value (m32 - 1) then (t, false)
  else
    let ent := EntryN.newEntry key value EntryN.kindInsert t.buf.length
    let buf1 := t.buf ++ EntryN.header ent ++ key ++ value
    ({ t with
        buf := buf1
        entries := BtreeN.Insert t.entries ent buf1
        dirty := true }, true)

/-- `node.T.Delete(key)`: as `Insert` with a tombstone and no value. -/
def Delete (t : T) (key : List Nat) : T × Bool :=
  if !Fits t key [] (m32 - 1) then (t, false)
  else
    let ent := EntryN.newEntry key [] EntryN.kindTombstone t.buf.length
    let buf1 := t.buf ++ EntryN.header ent ++ key
    ({ t with
        buf := buf1
        entries := BtreeN.Insert t.entries ent buf1
        dirty := true }, true)

/-- The state the merge closure of `node.T.iter` threads: position in the
loaded table, the pending loaded entry with its cached key, the captured
error flag, and the caller's state. -/
structure MSt (σ : Type) where
  offset : Nat
  i : Nat
  pending : Option (EntryN.T × List Nat)
  errFlag : Bool
  user : σ

/-- The inner `for` of the merge closure in `node.T.iter`.  On `-1` it
sends the loaded entry and advances the table; on `0` it sends the
in-memory entry and moves to the next btree entry; on `1` the Go code
sends the in-memory entry and loops without advancing anything — for a
callback that keeps going this never terminates, which the fuel models. -/
def iterInner {σ : Type} (t : T) (cb : EntryN.T → List Nat → σ → σ × Bool) :
    Nat → EntryN.T → MSt σ → Option (MSt σ × Bool)
  | 0, _, _ => none
  | fuel + 1, ent, ms =>
    match ms.pending with
    | none =>
      let eoff := getBE32 (t.cbuf.drop ms.offset)
      match EntryN.readEntry eoff t.cbuf with
      | none => some ({ ms with errFlag := true }, false)
      | some cent =>
        iterInner t cb fuel ent
          { ms with pending := some (cent, EntryN.readKey cent t.cbuf) }
    | some (cent, ckey) =>
      let c := bytesCmp ckey (EntryN.readKey ent t.buf)
      if c = -1 then
        match cb cent t.cbuf ms.user with
        | (u, false) => some ({ ms with user := u }, false)
        | (u, true) =>
          iterInner t cb fuel ent
            { ms with
                pending := none
                i := ms.i + 1
                offset := ms.offset + 4
                user := u }
      else if c = 0 then
        match cb ent t.buf ms.user with
        | (u, false) => some ({ ms with user := u }, false)
        | (u, true) => some ({ ms with user := u }, true)
      else
        match cb ent t.buf ms.user with
        | (u, false) => some ({ ms with user := u }, false)
        | (u, true) => iterInner t cb fuel ent { ms with user := u }

/-- The merge closure `node.T.iter` passes to `btree.Iter`. -/
def iterStep {σ : Type} (t : T) (cb : EntryN.T → List Nat → σ → σ × Bool)
    (fuel : Nat) (ent : EntryN.T) (ms : MSt σ) : Option (MSt σ × Bool) :=
  if ms.i ≥ t.count then
    match cb ent t.buf ms.user with
    | (u, c) => some ({ ms with user := u }, c)
  else iterInner t cb fuel ent ms

/-- The trailing `for ; i < t.count` of `node.T.iter`, draining the rest
of the loaded table (`k` entries remain). -/
def iterTail {σ : Type} (t : T) (cb : EntryN.T → List Nat → σ → σ × Bool) :
    Nat → Nat → σ → Res σ
  | 0, _, s => Res.ok s
  | k + 1, offset, s =>
    let eoff := getBE32 (t.cbuf.drop offset)
    match EntryN.readEntry eoff t.cbuf with
    | none => Res.err
    | some ent =>
      match cb ent t.cbuf s with
      | (u, false) => Res.ok u
      | (u, true) => iterTail t cb k (offset + 4) u

/-- `node.T.iter(cb)`: the merged iteration over the loaded table and the
in-memory btree, exactly in the Go order — btree walk with the merge
closure, error check, the pending loaded entry, then the tail drain. -/
def iter {σ : Type} (t : T) (cb : EntryN.T → List Nat → σ → σ × Bool)
    (fuel : Nat) (s0 : σ) : Res σ :=
  let ms0 : MSt σ :=
    { offset := nodeHeaderSize, i := 0, pending := none, errFlag := false
      user := s0 }
  match BtreeN.iterRun t.entries (iterStep t cb fuel) ms0 with
  | none => Res.diverge
  | some ms =>
    if ms.errFlag then Res.err
    else
      match ms.pending with
      | some (cent, _) =>
        match cb cent t.cbuf ms.user with
        | (u, false) => Res.ok u
        | (u, true) => iterTail t cb (t.count - (ms.i + 1)) (ms.offset + 4) u
      | none => iterTail t cb (t.count - ms.i) ms.offset ms.user

/-- Overwrite `len` bytes of `l` at position `pos`. -/
def listWriteAt (l : List Nat) (pos : Nat) (bytes : List Nat) : List Nat :=
  l.take pos ++ bytes ++ l.drop (pos + bytes.length)

/-- `node.T.Write(buf)`: the 16-byte header, a table of big-endian offsets
to each serialized entry, then header+key+value per entry in iteration
order; clears the dirty flag. -/
def Write (t : T) (fuel : Nat) : Res (List Nat × T) :=
  let count := Count t
  let cb : EntryN.T → List Nat → List Nat × Nat × List Nat →
      (List Nat × Nat × List Nat) × Bool := fun ent ebuf st =>
    match st with
    | (table, pos, body) =>
      let start := nodeHeaderSize + 4 * count + body.length
      let table1 := listWriteAt table pos (putBE32 start)
      let body1 := body ++ EntryN.header ent ++ EntryN.readKey ent ebuf ++
        EntryN.readValue ent ebuf
      ((table1, pos + 4, body1), true)
  match iter t cb fuel (List.replicate (4 * count) 0, 0, []) with
  | Res.diverge => Res.diverge
  | Res.err => Res.err
  | Res.ok (table, _, body) =>
    Res.ok (putBE32 t.next ++ putBE32 t.height ++ putBE32 t.pivot ++
        putBE32 count ++ table ++ body,
      { t with dirty := false })

/-- `node.T.Reset()`. -/
def Reset (t : T) : T :=
  { t with
      buf := t.buf.take nodeHeaderSize
      entries := BtreeN.empty
      dirty := false
      count := 0
      cbuf := [] }

/-- `node.T.Flush(cb)` (part_017): iterate, ask the callback for each
entry's new pivot, stop as soon as the callback errors or returns pivot 0,
and rebuild the node from the bulk loader with the entries accepted so
far.  When the callback errored the Go code wraps the (nil) iteration
error, so the error is swallowed and the node is returned unchanged. -/
def Flush (t : T) (cb : List Nat → Nat → Nat × Option Unit) (fuel : Nat) :
    Res T :=
  let icb : EntryN.T → List Nat → BtreeBulk × List Nat × Option Unit →
      (BtreeBulk × List Nat × Option Unit) × Bool := fun ent ebuf st =>
    match st with
    | (bu, nbuf, _) =>
      let key := EntryN.readKey ent ebuf
      let r := cb key ent.pivot
      if r.2.isSome || r.1 = 0 then ((bu, nbuf, r.2), false)
      else
        let value := EntryN.readValue ent ebuf
        let ent1 := { ent with pivot := r.1, offset := nbuf.length }
        let nbuf1 := nbuf ++ EntryN.header ent1 ++ key ++ value
        ((bu.append ent1, nbuf1, r.2), true)
  match iter t icb fuel (default, List.replicate nodeHeaderSize 0, none) with
  | Res.diverge => Res.diverge
  | Res.err => Res.err
  | Res.ok (bu, nbuf, uerr) =>
    if uerr.isSome then Res.ok t
    else Res.ok { t with
      buf := nbuf
      entries := bu.done
      dirty := true
      count := 0
      cbuf := [] }

/-- The entries of the node's in-memory btree, in iteration order. -/
def entryList (t : T) : List EntryN.T := BtreeN.iterList t.entries

end NodeP17

/-! ## C3: the write/load round trip (part_017)

The merged iteration `node.T.iter` underlying both sides of the round
trip does not terminate on a node that was loaded from a written buffer
and then had a smaller key inserted: in the merge's `case 1` (the
in-memory entry sorts before the pending loaded entry) the Go code sends
the in-memory entry to the callback and loops without advancing either
cursor, so the same entry is emitted forever.  The concrete node below —
write a node holding key `"b"` (byte 98), load the buffer, insert key
`"a"` (byte 97) — exhibits it: `Write`, which the round trip needs on
both sides, diverges at every fuel. -/

/-- A node holding the single key `[98]` with value `[118]`. -/
def c3Base : NodeP17.T := (NodeP17.Insert (NodeP17.New 0 0) [98] [118]).1

/-- The buffer `c3Base.Write` produces. -/
def c3Buf : List Nat :=
  match NodeP17.Write c3Base 50 with
  | Res.ok (b, _) => b
  | _ => []

/-- `Load(c3Buf)` followed by `Insert([97], [117])`: the loaded table
holds `[98]` while the in-memory btree holds the smaller `[97]`. -/
def c3Node : NodeP17.T :=
  (NodeP17.Insert ((NodeP17.Load c3Buf).getD (NodeP17.New 0 0)) [97] [117]).1

/-- The in-memory entry of `c3Node` (key `[97]`). -/
def c3EntA : EntryN.T :=
  ((c3Node.entries.nodes.getD 0 default).payload.getD 0 default)

/-- The pending loaded entry of `c3Node` and its cached key. -/
def c3Pending : EntryN.T × List Nat :=
  match EntryN.readEntry (getBE32 (c3Node.cbuf.drop 16)) c3Node.cbuf with
  | some cent => (cent, EntryN.readKey cent c3Node.cbuf)
  | none => (default, [])

/-- `Res.getD`: the payload of an `ok`, or the default. -/
def Res.getD {α : Type} : Res α → α → α
  | Res.ok a, _ => a
  | _, d => d

/-- The merge's inner loop never terminates on `c3Node` once the loaded
entry is pending: its key `[98]` compares greater than the in-memory key
`[97]`, so every step takes the non-advancing `case 1` branch. -/
theorem c3_iterInner_none {σ : Type}
    (cb : EntryN.T → List Nat → σ → σ × Bool)
    (hcb : ∀ e b s, (cb e b s).2 = true) :
    ∀ (fuel : Nat) (ms : NodeP17.MSt σ),
      ms.offset = 16 → ms.i = 0 →
      (ms.pending = none ∨ ms.pending = some c3Pending) →
      NodeP17.iterInner c3Node cb fuel c3EntA ms = none := by
  intro fuel
  induction fuel with
  | zero => intro ms _ _ _; rfl
  | succ fuel ih =>
    rintro ⟨moff, mi, mpend, merr, muser⟩ hoff hi hp
    simp only at hoff hi
    subst hoff hi
    rcases hp with hp | hp <;> simp only at hp <;> subst hp
    · simp only [NodeP17.iterInner]
      have hread : EntryN.readEntry (getBE32 (c3Node.cbuf.drop 16))
          c3Node.cbuf = some c3Pending.1 := by decide
      rw [hread]
      have hkey : EntryN.readKey c3Pending.1 c3Node.cbuf = c3Pending.2 := by
        decide
      exact ih _ rfl rfl (Or.inr (by rw [hkey]))
    · have hc : c3Pending = (c3Pending.1, c3Pending.2) := rfl
      rw [hc]
      simp only [NodeP17.iterInner]
      have hcmp : bytesCmp c3Pending.2 (EntryN.readKey c3EntA c3Node.buf)
          = 1 := by decide
      rw [hcmp]
      norm_num
      rcases hr : cb c3EntA c3Node.buf muser with ⟨u, flag⟩
      have hres := hcb c3EntA c3Node.buf muser
      rw [hr] at hres
      simp only at hres
      subst hres
      exact ih _ rfl rfl (Or.inr rfl)

/-- The full merged iteration of `c3Node` diverges for every fuel, for
any callback that keeps iterating. -/
theorem c3_iter_diverges {σ : Type}
    (cb : EntryN.T → List Nat → σ → σ × Bool)
    (hcb : ∀ e b s, (cb e b s).2 = true) (fuel : Nat) (s0 : σ) :
    NodeP17.iter c3Node cb fuel s0 = Res.diverge := by
  have hstep : NodeP17.iterStep c3Node cb fuel c3EntA
      { offset := 16, i := 0, pending := none, errFlag := false
        user := s0 } = none := by
    simp only [NodeP17.iterStep]
    rw [if_neg (by decide)]
    exact c3_iterInner_none cb hcb fuel _ rfl rfl (Or.inl rfl)
  have hrun : BtreeN.iterRun c3Node.entries
      (NodeP17.iterStep c3Node cb fuel)
      { offset := 16, i := 0, pending := none, errFlag := false
        user := s0 } = none := by
    have h1 : BtreeN.iterRun c3Node.entries
        (NodeP17.iterStep c3Node cb fuel)
        { offset := 16, i := 0, pending := none, errFlag := false
          user := s0 } =
        BtreeN.iterChain c3Node.entries (NodeP17.iterStep c3Node cb fuel)
          2 0
          { offset := 16, i := 0, pending := none, errFlag := false
            user := s0 } := rfl
    rw [h1]
    simp only [BtreeN.iterChain]
    have hpay : (BtreeN.getNode c3Node.entries 0).payload = [c3EntA] := by
      decide
    rw [hpay]
    simp only [BtreeN.iterEntries]
    rw [hstep]
  simp only [NodeP17.iter]
  rw [show (NodeP17.nodeHeaderSize : Nat) = 16 from rfl]
  rw [hrun]

/-- C3 (code bug): `Write` — needed both to produce the buffer the claim
loads and to state the round trip — never returns on `c3Node`, a node
whose entries are well within the key/value size limits, because the
merged iteration re-emits the in-memory entry forever.  Both sides of the
claimed round-trip equality are therefore undefined for such nodes.  The
remaining conjuncts pin the failing input down: the node holds exactly two
one-byte keys, `[97]` in memory and `[98]` pending from the loaded
buffer. -/
theorem c3_write_load_roundtrip_diverges (fuel : Nat) :
    NodeP17.Write c3Node fuel = Res.diverge ∧
      NodeP17.Count c3Node = 2 ∧
      NodeP17.entryList c3Node = [c3EntA] ∧
      EntryN.readKey c3EntA c3Node.buf = [97] ∧
      c3Pending.2 = [98] := by
  refine ⟨?_, by decide, by decide, by decide, by decide⟩
  simp only [NodeP17.Write]
  rw [c3_iter_diverges _ (fun e b s => by rcases s with ⟨a, b, c⟩; rfl) fuel _]

/-- Witness for C3 at a concrete fuel. -/
theorem c3_write_load_roundtrip_diverges_witness :
    NodeP17.Write c3Node 37 = Res.diverge :=
  (c3_write_load_roundtrip_diverges 37).1

/-! ## C4: `node.T.Flush` (part_017)

`Flush`'s documentation says it iterates over all of the entries and
drops an entry when the callback returns pivot zero for it.  The code
instead stops the whole iteration at the first zero: the callback is
never invoked on the remaining entries and they are all dropped from the
rebuilt node, whatever pivot the callback would have assigned them. -/

/-- A fresh height-1 node holding keys `[97]` and `[98]`. -/
def c4Node : NodeP17.T :=
  (NodeP17.Insert (NodeP17.Insert (NodeP17.New 0 1) [97] [117]).1
    [98] [118]).1

/-- The callback of the C4 run: drop key `[97]` (pivot 0), keep every
other key with pivot 5, never error. -/
def c4cb (key : List Nat) (_pivot : Nat) : Nat × Option Unit :=
  (if key = [97] then 0 else 5, none)

/-- C4 (code bug): flushing `c4Node` with a callback that assigns pivot 0
to the first key and pivot 5 to the second rebuilds the node with NO
entries — the second entry is dropped even though its assigned pivot is
non-zero (and the callback is never consulted for it), where the claim
(and the function's own doc comment) require the rebuilt node to retain
exactly the non-zero-pivot entries. -/
theorem c4_flush_drops_tail :
    NodeP17.Flush c4Node c4cb 30 =
      Res.ok { NodeP17.New 0 1 with dirty := true } ∧
    NodeP17.entryList
        ((NodeP17.Flush c4Node c4cb 30).getD (NodeP17.New 0 0)) = [] ∧
    (NodeP17.entryList c4Node).map (fun e => EntryN.readKey e c4Node.buf) =
      [[97], [98]] ∧
    c4cb [98] 0 = (5, none) := by
  refine ⟨by decide, by decide, by decide, by decide⟩

/-! ## Leases (part_018, package lease)

`lease.T` couples a node pointer, a block number and a release callback.
`Close` invokes the callback when one is set and always resets the lease
to the zero value.  The callback is modelled as an optional function
returning an optional error; the boolean in `Close`'s result records
whether the callback was invoked. -/

namespace LeaseM

/-- `lease.T`: node (nil-able), block, callback (nil-able). -/
structure T where
  n : Option NodeP17.T
  block : Nat
  cb : Option (Option NodeP17.T → Nat → Option Unit)

/-- The zero-value lease. -/
def zeroT : T := { n := none, block := 0, cb := none }

/-- `lease.New(n, block, cb)`. -/
def New (n : Option NodeP17.T) (block : Nat)
    (cb : Option NodeP17.T → Nat → Option Unit) : T :=
  { n := n, block := block, cb := some cb }

/-- `lease.T.Zero()`: whether the lease is the zero value (`cb == nil`). -/
def Zero (t : T) : Bool := t.cb.isNone

/-- `lease.T.Node()`. -/
def NodeOf (t : T) : Option NodeP17.T := t.n

/-- `lease.T.Block()`. -/
def Block (t : T) : Nat := t.block

/-- `lease.T.Close()`: invoke the callback if one is set, then clear the
lease to the zero value regardless.  Returns the cleared lease, whether
the callback ran, and the callback's error. -/
def Close (t : T) : T × Bool × Option Unit :=
  match t.cb with
  | none => (zeroT, false, none)
  | some f => (zeroT, true, f t.n t.block)

end LeaseM

/-- C10: `Close` invokes the release callback at most once.  Closing the
zero-value lease is a no-op returning nil; every `Close` resets the lease
to the zero value (making it observably zero), so a second `Close` of the
same lease never re-invokes the callback — which is what the WOSL flush
loop relies on when it unconditionally closes the possibly-zero current
child lease. -/
theorem lease_close_at_most_once :
    LeaseM.Close LeaseM.zeroT = (LeaseM.zeroT, false, none) ∧
    (∀ t : LeaseM.T, (LeaseM.Close t).1 = LeaseM.zeroT) ∧
    (∀ t : LeaseM.T, LeaseM.Zero (LeaseM.Close t).1 = true) ∧
    (∀ t : LeaseM.T, (LeaseM.Close (LeaseM.Close t).1).2.1 = false) := by
  refine ⟨rfl, ?_, ?_, ?_⟩
  · intro t; cases h : t.cb <;> simp [LeaseM.Close, h]
  · intro t; cases h : t.cb <;> simp [LeaseM.Close, h] <;> rfl
  · intro t; cases h : t.cb <;> simp [LeaseM.Close, h] <;> rfl

/-! ## C6: the `Fits` predicates

The claim ascribes the bulk builder's formula
(`Length() + 10·btreeNodeSize < size`, node_bulk.go `Bulk.Fits`) to the
node-level `Fits`.  The part_017 node's `Fits` instead checks that one
fully-encoded entry plus a table slot fits (`entryHeaderSize + len(key) +
len(value) + 4 < size`) and that the count has room in a uint32. -/

/-- `btreeNodeSize` = `unsafe.Sizeof(btreeNode{})`: 16 bytes of header
(next, prev, parent, count, leaf, padding) plus 31 payload entries of 16
bytes each. -/
def btreeNodeSize : Nat := 512

/-- The claim's reading of the node-level fits predicate, stated from the
spec's words for comparison with the code's `NodeP17.Fits`:
`len(key) ≤ keyMask ∧ len(value) ≤ valueMask ∧
length() + 10·btreeNodeSize < size`. -/
def fitsClaimed (t : NodeP17.T) (key value : List Nat) (size : Nat) : Prop :=
  key.length ≤ 32767 ∧ value.length ≤ 32767 ∧
    NodeP17.Length t + 10 * btreeNodeSize < size

/-- C6 counterexample: on a fresh node with empty key and value and
`size = 20`, the node-level `Fits` returns true (an empty entry and its
table slot need only 16 bytes) while the claimed formula is false (the
10-node slack alone exceeds 20 bytes), so the claimed equivalence fails. -/
theorem fits_claim_counterexample :
    ¬ (NodeP17.Fits (NodeP17.New 0 1) [] [] 20 = true ↔
        fitsClaimed (NodeP17.New 0 1) [] [] 20) := by
  intro h
  have : fitsClaimed (NodeP17.New 0 1) [] [] 20 := h.mp (by decide)
  rcases this with ⟨-, -, hlt⟩
  rw [show btreeNodeSize = 512 from rfl,
    show NodeP17.Length (NodeP17.New 0 1) = 16 from by decide] at hlt
  omega

/-- C6 as amended: for every node state, key, value and size, the
node-level `Fits(key, value, size)` returns true iff
`len(key) ≤ 32767`, `len(value) ≤ 32767`,
`entryHeaderSize + len(key) + len(value) + 4 < size` (one encoded entry
plus its 4-byte table slot fit strictly below `size`), and
`Count() < 2^32 - 1`.  (The claimed `length() + 10·btreeNodeSize < size`
form is the bulk builder's `Fits`, not the node's.) -/
theorem fits_characterization (t : NodeP17.T) (key value : List Nat)
    (size : Nat) :
    NodeP17.Fits t key value size = true ↔
      (key.length ≤ 32767 ∧ value.length ≤ 32767 ∧
        12 + key.length + value.length + 4 < size ∧
        NodeP17.Count t < 4294967295) := by
  simp only [NodeP17.Fits, EntryN.entryHeaderSize, Bool.and_eq_true,
    decide_eq_true_eq]
  omega

/-! ## The WOSL operator (wosl.go)

The operator's collaborators are external: the disk and the cache are
modelled as an event trace, the 64-bit key hash (xxhash, out of scope per
the spec) as a function parameter, and the effect of `t.flush` on the
operator state as a function parameter (wosl.go's `flush` mutates the
root only through `node.T.Flush` and `SetPivot`, both height-preserving —
see `flush_ok_height` / `setPivot_height` below — and bumps `maxBlock`).
`rootBlock = 1`. -/

namespace WoslM

/-- An externally visible action of `Insert`. -/
inductive Event where
  | diskWrite : Nat → Event
  | cacheAdd : Nat → Event
  | cacheFlush : Event
  | flushRoot : Nat → List Nat → Event
  deriving Repr, DecidableEq

/-- The result of `T.Insert`. -/
inductive IRes where
  | ok : IRes
  | tooLarge : IRes
  | writeFail : IRes
  | cacheFlushFail : IRes
  | flushFail : IRes
  deriving Repr, DecidableEq

/-- The operator state `wosl.T` (the cache and disk live in the trace). -/
structure St where
  root : NodeP17.T
  maxBlock : Nat
  b : Nat
  rBeps : Nat
  rBneps : Nat
  deriving Repr, DecidableEq

/-- `T.height(key)`: the height of the key's 64-bit hash under the
precomputed thresholds, `height(hash(key), rBneps, rBeps)`. -/
def heightOf (hashFn : List Nat → Nat) (s : St) (key : List Nat) : Nat :=
  height (hashFn key) s.rBneps s.rBeps

/-- `T.newRoot`: write the current root to a fresh block, hand it to the
cache under that block, and replace it by an empty root one level higher
whose pivot is the old root's new block. -/
def newRoot (wfuel : Nat) (s : St) : St × List Event × Bool :=
  match NodeP17.Write s.root wfuel with
  | Res.ok _ =>
    let block := s.maxBlock + 1
    ({ s with
        root := NodeP17.SetPivot (NodeP17.New 0 (s.root.height + 1)) block
        maxBlock := block },
     [Event.diskWrite block, Event.cacheAdd block], true)
  | _ => (s, [], false)

/-- The root-growth loop of `T.Insert`: `for h >= t.root.Height()` grow.
Each growth raises the height by one, so fuel `h + 2` always suffices. -/
def grow (wfuel : Nat) : Nat → Nat → St → St × List Event × Bool
  | 0, _, s => (s, [], true)
  | fuel + 1, h, s =>
    if h ≥ s.root.height then
      let nr := newRoot wfuel s
      if nr.2.2 then
        let g := grow wfuel fuel h nr.1
        (g.1, nr.2.1 ++ g.2.1, g.2.2)
      else nr
    else (s, [], true)

/-- `T.Insert(key, value)` (wosl.go): grow the root while the key's
height reaches it; insert into the root (an error when the entry cannot
fit); if the root is still below the block size, done; otherwise flush
the cache and call `flush(root, rootBlock, parents = nil)`.  `flushFn`
abstracts `t.flush`'s effect on the state (with its success flag),
`cfOk` whether `cache.Flush` succeeds. -/
def Insert (hashFn : List Nat → Nat) (wfuel : Nat) (cfOk : Bool)
    (flushFn : St → St × Bool) (s : St) (key value : List Nat) :
    St × List Event × IRes :=
  let h := heightOf hashFn s key
  let g := grow wfuel (h + 2) h s
  if g.2.2 = false then (g.1, g.2.1, IRes.writeFail)
  else
    let r := NodeP17.Insert g.1.root key value
    let s2 := { g.1 with root := r.1 }
    if r.2 = false then (s2, g.2.1, IRes.tooLarge)
    else if NodeP17.Length s2.root < s2.b then (s2, g.2.1, IRes.ok)
    else if cfOk = false then
      (s2, g.2.1 ++ [Event.cacheFlush], IRes.cacheFlushFail)
    else
      let f := flushFn s2
      (f.1, g.2.1 ++ [Event.cacheFlush, Event.flushRoot 1 []],
        if f.2 then IRes.ok else IRes.flushFail)

/-- Folding `Insert` over a sequence of operations (the state part). -/
def insertAll (hashFn : List Nat → Nat) (wfuel : Nat) (cfOk : Bool)
    (flushFn : St → St × Bool) : St → List (List Nat × List Nat) → St
  | s, [] => s
  | s, (k, v) :: ops =>
    insertAll hashFn wfuel cfOk flushFn
      (Insert hashFn wfuel cfOk flushFn s k v).1 ops

end WoslM

/-- `node.T.SetPivot` does not change the height. -/
theorem setPivot_height (t : NodeP17.T) (p : Nat) :
    (NodeP17.SetPivot t p).height = t.height := rfl

/-- `node.T.Insert` does not change the height. -/
theorem nodeInsert_height (t : NodeP17.T) (k v : List Nat) :
    (NodeP17.Insert t k v).1.height = t.height := by
  rw [NodeP17.Insert]
  by_cases hf : NodeP17.Fits t k v (m32 - 1) <;> simp [hf]

/-- A successful `node.T.Flush` does not change the height: the
justification for requiring the abstracted `t.flush` to preserve the
root's height. -/
theorem flush_ok_height (t : NodeP17.T) (cb : List Nat → Nat → Nat × Option Unit)
    (fuel : Nat) (t2 : NodeP17.T)
    (h : NodeP17.Flush t cb fuel = Res.ok t2) : t2.height = t.height := by
  rw [NodeP17.Flush] at h
  rcases hit : NodeP17.iter t _ fuel
      ((default : BtreeBulk), List.replicate NodeP17.nodeHeaderSize 0,
        (none : Option Unit)) with _ | _ | st
  · rw [hit] at h; cases h
  · rw [hit] at h; cases h
  · rw [hit] at h
    rcases st with ⟨bu, nbuf, uerr⟩
    by_cases hu : uerr.isSome <;> simp [hu] at h <;> rw [← h]

/-- `newRoot` raises the root height by exactly one when it succeeds and
leaves the state alone when it fails; it never emits a cache-flush
event. -/
theorem newRoot_spec (wfuel : Nat) (s : WoslM.St) :
    ((WoslM.newRoot wfuel s).2.2 = true →
      (WoslM.newRoot wfuel s).1.root.height = s.root.height + 1) ∧
    ((WoslM.newRoot wfuel s).2.2 = false → (WoslM.newRoot wfuel s).1 = s) ∧
    WoslM.Event.cacheFlush ∉ (WoslM.newRoot wfuel s).2.1 ∧
    (WoslM.newRoot wfuel s).1.b = s.b := by
  rw [WoslM.newRoot]
  rcases hw : NodeP17.Write s.root wfuel with _ | _ | p <;>
    simp [NodeP17.SetPivot, NodeP17.New]

/-- The growth loop: the root height never decreases, the block size is
kept, no cache-flush event is emitted, and on success with enough fuel
the final root height strictly exceeds `h`. -/
theorem grow_spec (wfuel : Nat) :
    ∀ (fuel h : Nat) (s : WoslM.St),
      s.root.height ≤ (WoslM.grow wfuel fuel h s).1.root.height ∧
      (WoslM.grow wfuel fuel h s).1.b = s.b ∧
      WoslM.Event.cacheFlush ∉ (WoslM.grow wfuel fuel h s).2.1 ∧
      (h + 1 ≤ fuel + s.root.height →
        (WoslM.grow wfuel fuel h s).2.2 = true →
        h < (WoslM.grow wfuel fuel h s).1.root.height) := by
  intro fuel
  induction fuel with
  | zero =>
    intro h s
    refine ⟨Nat.le_refl _, rfl, List.not_mem_nil _, ?_⟩
    intro hf _
    simp only [WoslM.grow]
    omega
  | succ fuel ih =>
    intro h s
    rw [WoslM.grow]
    by_cases hcond : h ≥ s.root.height
    · rw [if_pos hcond]
      have hspec := newRoot_spec wfuel s
      by_cases hok : (WoslM.newRoot wfuel s).2.2
      · rw [if_pos hok]
        have hrec := ih h (WoslM.newRoot wfuel s).1
        have hh1 : (WoslM.newRoot wfuel s).1.root.height = s.root.height + 1 :=
          hspec.1 hok
        refine ⟨by simp only; omega,
          by simp only; rw [hrec.2.1, hspec.2.2.2], ?_, ?_⟩
        · intro hmem
          rcases List.mem_append.mp hmem with hmem | hmem
          · exact hspec.2.2.1 hmem
          · exact hrec.2.2.1 hmem
        · intro hfuel hokg
          exact hrec.2.2.2 (by omega) hokg
      · rw [if_neg hok]
        have hse : (WoslM.newRoot wfuel s).1 = s :=
          hspec.2.1 (by simpa using hok)
        refine ⟨by rw [hse], by rw [hse], hspec.2.2.1, ?_⟩
        intro _ hfalse
        exact absurd hfalse (by simpa using hok)
    · rw [if_neg hcond]
      refine ⟨Nat.le_refl _, rfl, List.not_mem_nil _, ?_⟩
      intro _ _
      simp only
      omega


/-- Single-call root-height facts for `Insert`, assuming the abstracted
`t.flush` preserves the root's height (which wosl.go's flush does: it
touches the root only through `node.T.Flush` and `SetPivot`). -/
theorem insert_height_single (hashFn : List Nat → Nat) (wfuel : Nat)
    (cfOk : Bool) (flushFn : WoslM.St → WoslM.St × Bool)
    (hFlush : ∀ st : WoslM.St, ((flushFn st).1).root.height = st.root.height)
    (s : WoslM.St) (key value : List Nat) :
    s.root.height ≤
      (WoslM.Insert hashFn wfuel cfOk flushFn s key value).1.root.height ∧
    ((WoslM.Insert hashFn wfuel cfOk flushFn s key value).2.2 ≠
        WoslM.IRes.writeFail →
      WoslM.heightOf hashFn s key <
        (WoslM.Insert hashFn wfuel cfOk flushFn s key value).1.root.height) := by
  have hg := grow_spec wfuel (WoslM.heightOf hashFn s key + 2)
    (WoslM.heightOf hashFn s key) s
  simp only [WoslM.Insert]
  by_cases h1 : (WoslM.grow wfuel (WoslM.heightOf hashFn s key + 2)
      (WoslM.heightOf hashFn s key) s).2.2 = false
  · rw [if_pos (by simp [h1])]
    exact ⟨hg.1, fun hne => absurd rfl hne⟩
  · rw [if_neg (by simp [h1])]
    have hok : (WoslM.grow wfuel (WoslM.heightOf hashFn s key + 2)
        (WoslM.heightOf hashFn s key) s).2.2 = true := by
      revert h1
      cases (WoslM.grow wfuel (WoslM.heightOf hashFn s key + 2)
        (WoslM.heightOf hashFn s key) s).2.2 <;> simp
    have hlt : WoslM.heightOf hashFn s key <
        (WoslM.grow wfuel (WoslM.heightOf hashFn s key + 2)
          (WoslM.heightOf hashFn s key) s).1.root.height :=
      hg.2.2.2 (by omega) hok
    have hins := nodeInsert_height
      (WoslM.grow wfuel (WoslM.heightOf hashFn s key + 2)
        (WoslM.heightOf hashFn s key) s).1.root key value
    by_cases h2 : (NodeP17.Insert (WoslM.grow wfuel
        (WoslM.heightOf hashFn s key + 2)
        (WoslM.heightOf hashFn s key) s).1.root key value).2 = false
    · rw [if_pos (by simp [h2])]
      constructor
      · simp only
        omega
      · intro _
        simp only
        omega
    · rw [if_neg (by simp [h2])]
      by_cases h3 : NodeP17.Length (NodeP17.Insert (WoslM.grow wfuel
          (WoslM.heightOf hashFn s key + 2)
          (WoslM.heightOf hashFn s key) s).1.root key value).1 <
          (WoslM.grow wfuel (WoslM.heightOf hashFn s key + 2)
            (WoslM.heightOf hashFn s key) s).1.b
      · rw [if_pos (by simpa using h3)]
        constructor
        · simp only; omega
        · intro _; simp only; omega
      · rw [if_neg (by simpa using h3)]
        by_cases h4 : cfOk = false
        · rw [if_pos (by simp [h4])]
          constructor
          · simp only; omega
          · intro _; simp only; omega
        · rw [if_neg (by simp [h4])]
          have hfl := hFlush { (WoslM.grow wfuel
              (WoslM.heightOf hashFn s key + 2)
              (WoslM.heightOf hashFn s key) s).1 with
            root := (NodeP17.Insert (WoslM.grow wfuel
              (WoslM.heightOf hashFn s key + 2)
              (WoslM.heightOf hashFn s key) s).1.root key value).1 }
          constructor
          · simp only
            rw [hfl]
            simp only
            omega
          · intro _
            simp only
            rw [hfl]
            simp only
            omega

/-- C8: after `Insert(key, value)` returns (on every path except a failed
root write during growth), the root's height is strictly greater than
`height(key)`; the root's height never decreases, on any single call and
across every sequence of operations.  The abstracted `t.flush` is assumed
height-preserving on the root, as wosl.go's flush is. -/
theorem insert_root_growth_monotone (hashFn : List Nat → Nat) (wfuel : Nat)
    (cfOk : Bool) (flushFn : WoslM.St → WoslM.St × Bool)
    (hFlush : ∀ st : WoslM.St, ((flushFn st).1).root.height = st.root.height)
    (s : WoslM.St) (key value : List Nat) :
    s.root.height ≤
      (WoslM.Insert hashFn wfuel cfOk flushFn s key value).1.root.height ∧
    ((WoslM.Insert hashFn wfuel cfOk flushFn s key value).2.2 ≠
        WoslM.IRes.writeFail →
      WoslM.heightOf hashFn s key <
        (WoslM.Insert hashFn wfuel cfOk flushFn s key value).1.root.height) ∧
    (∀ ops : List (List Nat × List Nat),
      s.root.height ≤
        (WoslM.insertAll hashFn wfuel cfOk flushFn s ops).root.height) := by
  refine ⟨(insert_height_single hashFn wfuel cfOk flushFn hFlush s key value).1,
    (insert_height_single hashFn wfuel cfOk flushFn hFlush s key value).2, ?_⟩
  intro ops
  induction ops generalizing s with
  | nil => exact Nat.le_refl _
  | cons op ops ih =>
    rcases op with ⟨k, v⟩
    calc s.root.height
        ≤ (WoslM.Insert hashFn wfuel cfOk flushFn s k v).1.root.height :=
          (insert_height_single hashFn wfuel cfOk flushFn hFlush s k v).1
      _ ≤ _ := ih _

/-- The starting state of a fresh skip list (`NewEps` with an empty
disk): an empty height-1 root whose pivot is the invalid block. -/
def freshSt (b rBeps rBneps : Nat) : WoslM.St :=
  { root := NodeP17.SetPivot (NodeP17.New 0 1) 4294967295
    maxBlock := 1, b := b, rBeps := rBeps, rBneps := rBneps }

/-- Witness for C8 at a concrete input. -/
theorem insert_root_growth_monotone_witness :
    WoslM.heightOf (fun _ => 0) (freshSt 1048576 0 0) [97] <
      (WoslM.Insert (fun _ => 0) 10 true (fun st => (st, true))
        (freshSt 1048576 0 0) [97] [117]).1.root.height :=
  (insert_root_growth_monotone (fun _ => 0) 10 true (fun st => (st, true))
    (fun _ => rfl) (freshSt 1048576 0 0) [97] [117]).2.1 (by decide)

/-! ## C1: the `Insert` protocol

The claim says a fitting entry is inserted and `Insert` returns (no
flushing), and that otherwise the operator flushes the cache, calls
`flush(root, rootBlock, ∅)` and retries the insert.  The code instead
always inserts first: a non-fitting entry produces an error with no
flushing and no retry, and the flush happens after a successful insert
whenever the root has grown to the block size. -/

/-- The claim's protocol (spec §4.6 steps 2-3), stated from its words for
comparison with the code: if the (grown) root accepts the entry, `Insert`
returns success without flushing; otherwise the cache flush and the root
flush both happen. -/
def insertClaimed (hashFn : List Nat → Nat) (wfuel : Nat) (cfOk : Bool)
    (flushFn : WoslM.St → WoslM.St × Bool) (s : WoslM.St)
    (key value : List Nat) : Prop :=
  ((NodeP17.Insert (WoslM.grow wfuel (WoslM.heightOf hashFn s key + 2)
      (WoslM.heightOf hashFn s key) s).1.root key value).2 = true →
    (WoslM.Insert hashFn wfuel cfOk flushFn s key value).2.2 = WoslM.IRes.ok ∧
    WoslM.Event.cacheFlush ∉
      (WoslM.Insert hashFn wfuel cfOk flushFn s key value).2.1) ∧
  ((NodeP17.Insert (WoslM.grow wfuel (WoslM.heightOf hashFn s key + 2)
      (WoslM.heightOf hashFn s key) s).1.root key value).2 = false →
    WoslM.Event.cacheFlush ∈
      (WoslM.Insert hashFn wfuel cfOk flushFn s key value).2.1 ∧
    WoslM.Event.flushRoot 1 [] ∈
      (WoslM.Insert hashFn wfuel cfOk flushFn s key value).2.1)

/-- C1 counterexample: with block size 20, inserting key `[97]` with
value `[117]` into a fresh skip list succeeds at the root (the entry
fits) yet the encoded root reaches 30 bytes, so the code flushes the
cache — the claimed protocol (success implies no cache flush) is false
here. -/
theorem insert_claim_counterexample :
    ¬ insertClaimed (fun _ => 0) 10 true (fun st => (st, true))
      (freshSt 20 0 0) [97] [117] := by
  intro hcl
  exact (hcl.1 (by decide)).2 (by decide)

/-- C1 as amended: `Insert` first grows the root while `height(key) ≥
root.height` (the growth events `g.2.1` carry no flushing), then attempts
the root insert exactly once: if the entry cannot fit, it returns the
too-large error with no cache flush and no root flush and no retry; if it
fits and the root stays below the block size it returns success with no
flushing; if it fits and the root has reached the block size it flushes
the cache and then calls `flush(root, rootBlock, parents = ∅)` once —
after the insert, never retrying it.  `g`, `r`, `out` abbreviate the
growth result, the root-insert result and the full call's result. -/
theorem insert_control_flow (hashFn : List Nat → Nat) (wfuel : Nat)
    (cfOk : Bool) (flushFn : WoslM.St → WoslM.St × Bool) (s : WoslM.St)
    (key value : List Nat)
    (g : WoslM.St × List WoslM.Event × Bool)
    (r : NodeP17.T × Bool) (out : WoslM.St × List WoslM.Event × WoslM.IRes)
    (hgd : g = WoslM.grow wfuel (WoslM.heightOf hashFn s key + 2)
      (WoslM.heightOf hashFn s key) s)
    (hrd : r = NodeP17.Insert g.1.root key value)
    (hout : out = WoslM.Insert hashFn wfuel cfOk flushFn s key value) :
    (WoslM.Event.cacheFlush ∈ out.2.1 ↔
      g.2.2 = true ∧ r.2 = true ∧ s.b ≤ NodeP17.Length r.1) ∧
    (out.2.2 = WoslM.IRes.tooLarge ↔ g.2.2 = true ∧ r.2 = false) ∧
    (out.2.2 = WoslM.IRes.tooLarge → out.2.1 = g.2.1) ∧
    (g.2.2 = true → r.2 = true → NodeP17.Length r.1 < s.b →
      out.2.2 = WoslM.IRes.ok ∧ out.2.1 = g.2.1) ∧
    (g.2.2 = true → r.2 = true → s.b ≤ NodeP17.Length r.1 → cfOk = true →
      out.2.1 = g.2.1 ++
        [WoslM.Event.cacheFlush, WoslM.Event.flushRoot 1 []]) := by
  have hg := grow_spec wfuel (WoslM.heightOf hashFn s key + 2)
    (WoslM.heightOf hashFn s key) s
  rw [← hgd] at hg
  have hb : g.1.b = s.b := hg.2.1
  have hnoflush : WoslM.Event.cacheFlush ∉ g.2.1 := hg.2.2.1
  subst hout
  simp only [WoslM.Insert, ← hgd, ← hrd]
  by_cases h1 : g.2.2 = false
  · rw [if_pos (by simp [h1])]
    simp only
    refine ⟨?_, ?_, ?_, ?_, ?_⟩
    · constructor
      · intro hmem; exact absurd hmem hnoflush
      · rintro ⟨hgt, -, -⟩; rw [h1] at hgt; cases hgt
    · constructor
      · intro hres; cases hres
      · rintro ⟨hgt, -⟩; rw [h1] at hgt; cases hgt
    · intro hres; cases hres
    · intro hgt; rw [h1] at hgt; cases hgt
    · intro hgt; rw [h1] at hgt; cases hgt
  · have hgt : g.2.2 = true := by revert h1; cases g.2.2 <;> simp
    rw [if_neg (by simp [h1])]
    by_cases h2 : r.2 = false
    · rw [if_pos (by simp [h2])]
      simp only
      refine ⟨?_, ?_, ?_, ?_, ?_⟩
      · constructor
        · intro hmem; exact absurd hmem hnoflush
        · rintro ⟨-, hrt, -⟩; rw [h2] at hrt; cases hrt
      · exact ⟨fun _ => ⟨hgt, h2⟩, fun _ => trivial⟩
      · intro _; trivial
      · intro _ hrt; rw [h2] at hrt; cases hrt
      · intro _ hrt _; rw [h2] at hrt; cases hrt
    · have hrt : r.2 = true := by revert h2; cases r.2 <;> simp
      rw [if_neg (by simp [h2])]
      by_cases h3 : NodeP17.Length r.1 < g.1.b
      · rw [if_pos (by simpa using h3)]
        simp only
        rw [hb] at h3
        refine ⟨?_, ?_, ?_, ?_, ?_⟩
        · constructor
          · intro hmem; exact absurd hmem hnoflush
          · rintro ⟨-, -, hle⟩; omega
        · constructor
          · intro hres; cases hres
          · rintro ⟨-, hrf⟩; rw [hrt] at hrf; cases hrf
        · intro hres; cases hres
        · intro _ _ _; exact ⟨trivial, trivial⟩
        · intro _ _ hle; omega
      · rw [if_neg (by simpa using h3)]
        rw [hb] at h3
        by_cases h4 : cfOk = false
        · rw [if_pos (by simp [h4])]
          simp only
          refine ⟨?_, ?_, ?_, ?_, ?_⟩
          · constructor
            · intro _; exact ⟨hgt, hrt, by omega⟩
            · intro _; simp
          · constructor
            · intro hres; cases hres
            · rintro ⟨-, hrf⟩; rw [hrt] at hrf; cases hrf
          · intro hres; cases hres
          · intro _ _ hlt; omega
          · intro _ _ _ hcf
            rw [hcf] at h4
            cases h4
        · rw [if_neg (by simp [h4])]
          simp only
          refine ⟨?_, ?_, ?_, ?_, ?_⟩
          · constructor
            · intro _; exact ⟨hgt, hrt, by omega⟩
            · intro _; simp
          · constructor
            · intro hres
              revert hres
              by_cases hf : (flushFn { g.1 with root := r.1 }).2 <;>
                simp [hf]
            · rintro ⟨-, hrf⟩; rw [hrt] at hrf; cases hrf
          · intro hres
            revert hres
            by_cases hf : (flushFn { g.1 with root := r.1 }).2 <;>
              simp [hf]
          · intro _ _ hlt; omega
          · intro _ _ _ _; trivial

/-- Witness for C1's amended control flow at a concrete input: with
block size 20 the successful insert of `([97], [117])` drives the root to
30 bytes, so the cache flush happens after the insert. -/
theorem insert_control_flow_witness :
    WoslM.Event.cacheFlush ∈
      (WoslM.Insert (fun _ => 0) 10 true (fun st => (st, true))
        (freshSt 20 0 0) [97] [117]).2.1 :=
  ((insert_control_flow (fun _ => 0) 10 true (fun st => (st, true))
    (freshSt 20 0 0) [97] [117] _ _ _ rfl rfl rfl).1).mpr (by decide)

/-! ## Byte comparison order theory

`bytesCmp` is a strict total order on byte lists; these lemmas support
the binary-search and sortedness proofs. -/

theorem bytesCmp_self (a : List Nat) : bytesCmp a a = 0 := by
  induction a with
  | nil => rfl
  | cons x xs ih => simp [bytesCmp, ih]

theorem bytesCmp_eq_zero_iff (a b : List Nat) : bytesCmp a b = 0 ↔ a = b := by
  induction a generalizing b with
  | nil => cases b <;> simp [bytesCmp]
  | cons x xs ih =>
    cases b with
    | nil => simp [bytesCmp]
    | cons y ys =>
      by_cases h1 : x < y
      · simp [bytesCmp, h1]
        omega
      · by_cases h2 : y < x
        · simp [bytesCmp, h1, h2]
          omega
        · have hxy : x = y := by omega
          subst hxy
          simp [bytesCmp, ih]

theorem bytesCmp_mem : ∀ (a b : List Nat),
    bytesCmp a b = -1 ∨ bytesCmp a b = 0 ∨ bytesCmp a b = 1 := by
  intro a
  induction a with
  | nil => intro b; cases b <;> simp [bytesCmp]
  | cons x xs ih =>
    intro b
    cases b with
    | nil => simp [bytesCmp]
    | cons y ys =>
      by_cases h1 : x < y
      · simp [bytesCmp, h1]
      · by_cases h2 : y < x
        · simp [bytesCmp, h1, h2]
        · simpa [bytesCmp, h1, h2] using ih ys

theorem bytesCmp_swap : ∀ (a b : List Nat), bytesCmp b a = -bytesCmp a b := by
  intro a
  induction a with
  | nil => intro b; cases b <;> simp [bytesCmp]
  | cons x xs ih =>
    intro b
    cases b with
    | nil => simp [bytesCmp]
    | cons y ys =>
      by_cases h1 : x < y
      · have h2 : ¬ y < x := by omega
        simp [bytesCmp, h1, h2]
      · by_cases h2 : y < x
        · simp [bytesCmp, h1, h2]
        · simp [bytesCmp, h1, h2, ih ys]

theorem bytesCmp_trans_lt : ∀ (a b c : List Nat),
    bytesCmp a b = -1 → bytesCmp b c = -1 → bytesCmp a c = -1 := by
  intro a
  induction a with
  | nil =>
    intro b c hab hbc
    cases b with
    | nil => exact hbc
    | cons y ys =>
      cases c with
      | nil => simp [bytesCmp] at hbc
      | cons z zs => simp [bytesCmp]
  | cons x xs ih =>
    intro b c hab hbc
    cases b with
    | nil => simp [bytesCmp] at hab
    | cons y ys =>
      cases c with
      | nil => simp [bytesCmp] at hbc
      | cons z zs =>
        by_cases hxy : x < y
        · by_cases hyz : y < z
          · simp [bytesCmp, show x < z by omega]
          · by_cases hzy : z < y
            · simp [bytesCmp, hyz, hzy] at hbc
            · have : y = z := by omega
              subst this
              simp [bytesCmp, hxy]
        · by_cases hyx : y < x
          · simp [bytesCmp, hxy, hyx] at hab
          · have hxy2 : x = y := by omega
            subst hxy2
            simp only [bytesCmp, if_neg (by omega : ¬ x < x),
              if_neg (by omega : ¬ x < x)] at hab
            by_cases hyz : x < z
            · simp [bytesCmp, hyz]
            · by_cases hzy : z < x
              · simp [bytesCmp, hyz, hzy] at hbc
              · have : x = z := by omega
                subst this
                simp only [bytesCmp, if_neg (by omega : ¬ x < x)] at hbc ⊢
                exact ih ys zs hab hbc

/-- `bytesCmp a b = 1` exactly when `bytesCmp b a = -1`. -/
theorem bytesCmp_gt_iff (a b : List Nat) :
    bytesCmp a b = 1 ↔ bytesCmp b a = -1 := by
  rw [bytesCmp_swap a b]
  omega

/-- Big-endian comparison of two 4-byte sequences agrees with their
lexicographic comparison. -/
theorem getBE32_lt_iff (a0 a1 a2 a3 b0 b1 b2 b3 : Nat)
    (ha0 : a0 < 256) (ha1 : a1 < 256) (ha2 : a2 < 256) (ha3 : a3 < 256)
    (hb0 : b0 < 256) (hb1 : b1 < 256) (hb2 : b2 < 256) (hb3 : b3 < 256) :
    getBE32 [a0, a1, a2, a3] < getBE32 [b0, b1, b2, b3] ↔
      bytesCmp [a0, a1, a2, a3] [b0, b1, b2, b3] = -1 := by
  simp only [getBE32, bytesCmp, List.getD, List.get?]
  split_ifs <;> simp <;> omega

/-- The right-zero-padded prefix of length `n`. -/
def padN (n : Nat) (k : List Nat) : List Nat :=
  (k ++ List.replicate n 0).take n

/-- Padding one more position exposes the head. -/
theorem padN_cons (n a : Nat) (as : List Nat) :
    padN (n + 1) (a :: as) = a :: padN n as := by
  simp only [padN, List.cons_append, List.take_succ_cons, List.cons.injEq,
    true_and]
  rw [List.take_append_eq_append_take, List.take_append_eq_append_take,
    List.take_replicate, List.take_replicate]
  congr 1
  have h1 : min (n - as.length) (n + 1) = n - as.length := by omega
  have h2 : min (n - as.length) n = n - as.length := by omega
  rw [h1, h2]

/-- A list of non-negative bytes never compares below an all-zero list
of the padding shape. -/
theorem bytesCmp_padN_zero (n : Nat) :
    ∀ x : List Nat, bytesCmp (padN n x) (List.replicate n 0) ≠ -1 := by
  induction n with
  | zero => intro x; simp [padN, bytesCmp]
  | succ n ih =>
    intro x
    cases x with
    | nil =>
      have : padN (n + 1) ([] : List Nat) = List.replicate (n + 1) 0 := by
        simp [padN]
      rw [this, bytesCmp_self]
      omega
    | cons a as =>
      rw [padN_cons, List.replicate_succ]
      simp only [bytesCmp]
      rw [if_neg (by omega)]
      by_cases ha0 : 0 < a
      · simp [ha0]
      · rw [if_neg (by omega)]
        exact ih as

/-- If the zero-padded prefixes compare strictly, the keys compare the
same way. -/
theorem bytesCmp_of_padN (n : Nat) :
    ∀ k k2 : List Nat,
      bytesCmp (padN n k) (padN n k2) = -1 → bytesCmp k k2 = -1 := by
  induction n with
  | zero => intro k k2 h; simp [padN, bytesCmp] at h
  | succ n ih =>
    intro k k2 h
    cases k with
    | nil =>
      cases k2 with
      | nil => rw [bytesCmp_self] at h; omega
      | cons b bs => simp [bytesCmp]
    | cons a as =>
      cases k2 with
      | nil =>
        have hz : padN (n + 1) ([] : List Nat) = List.replicate (n + 1) 0 := by
          simp [padN]
        rw [hz] at h
        exact absurd h (bytesCmp_padN_zero (n + 1) (a :: as))
      | cons b bs =>
        rw [padN_cons, padN_cons] at h
        simp only [bytesCmp] at h ⊢
        by_cases hab : a < b
        · simp [hab]
        · rw [if_neg hab] at h ⊢
          by_cases hba : b < a
          · simp [hba] at h
          · rw [if_neg hba] at h ⊢
            exact ih as bs h

/-! ## The exported btree (internal/node/btree, payload 127)

The snapshot the spec's Btree section and tests describe: `entry.T`
entries whose arena holds bare `key || value` bytes, 127-entry nodes,
`Insert` returning whether a new key was added, and `insertEntry`
preserving the overwritten entry's pivot on an exact match. -/

namespace Btree127

/-- `invalidNode = math.MaxUint32`. -/
def invalidNode : Nat := 4294967295

/-- `payloadEntries` (127). -/
def payloadEntries : Nat := 127

/-- `payloadSplit = payloadEntries / 2`. -/
def payloadSplit : Nat := 63

/-- `node` (part_010): bookkeeping plus the used prefix of the payload
array. -/
structure BNode where
  next : Nat
  prev : Nat
  parent : Nat
  count : Nat
  leaf : Bool
  payload : List EntryP.T
  deriving Repr, DecidableEq

instance : Inhabited BNode :=
  ⟨{ next := invalidNode, prev := invalidNode, parent := invalidNode
     count := 0, leaf := true, payload := [] }⟩

/-- `btree.T`: root id (`none` for a nil root), entry count, slab. -/
structure T where
  rootId : Option Nat
  count : Nat
  nodes : List BNode
  deriving Repr, DecidableEq

/-- The zero / `Reset` btree. -/
def empty : T := { rootId := none, count := 0, nodes := [] }

/-- Fetch a slab node. -/
def getNode (b : T) (nid : Nat) : BNode := b.nodes.getD nid default

/-- Replace a slab node. -/
def setNode (b : T) (nid : Nat) (n : BNode) : T :=
  { b with nodes := b.nodes.set nid n }

/-- `btree.alloc(leaf)`. -/
def alloc (b : T) (leaf : Bool) : T × Nat :=
  ({ b with nodes := b.nodes ++
      [{ next := invalidNode, prev := invalidNode, parent := invalidNode
         count := 0, leaf := leaf, payload := [] }] },
   b.nodes.length)

/-- The binary search of `node.insertEntry` (part_010): prefix first,
full key on equal prefixes; `.inr h` an exact match at `h`, `.inl i` the
insertion position.  Fuelled like `BtreeN.insFind`. -/
def insFind (payload : List EntryP.T) (pfxv : Nat) (key buf : List Nat) :
    Nat → Nat → Nat → Nat ⊕ Nat
  | 0, i, _ => Sum.inl i
  | gas + 1, i, j =>
    if i < j then
      let h := (i + j) / 2
      let enth := payload.getD h default
      let pfxh := getBE32 enth.pfx
      if pfxv > pfxh then insFind payload pfxv key buf gas (h + 1) j
      else if pfxv < pfxh then insFind payload pfxv key buf gas i h
      else
        let c := bytesCmp key (EntryP.ReadKey enth buf)
        if c = 1 then insFind payload pfxv key buf gas (h + 1) j
        else if c = 0 then Sum.inr h
        else insFind payload pfxv key buf gas i h
    else Sum.inl i

/-- `node.insertEntry(key, ent, buf)` (part_010): on an exact match
overwrite the slot but keep the old entry's pivot; otherwise insert at
the found position; returns whether the count increased. -/
def insertEntry (n : BNode) (key : List Nat) (ent : EntryP.T)
    (buf : List Nat) : BNode × Bool :=
  match insFind n.payload (getBE32 ent.pfx) key buf n.count 0 n.count with
  | Sum.inr h =>
    let old := n.payload.getD h default
    ({ n with payload := n.payload.set h (EntryP.SetPivot ent old.pivot) },
     false)
  | Sum.inl i =>
    ({ n with payload := n.payload.insertIdx i ent, count := n.count + 1 },
     true)

/-- `node.appendEntry(ent)`. -/
def appendEntry (n : BNode) (ent : EntryP.T) : BNode :=
  { n with payload := n.payload ++ [ent], count := n.count + 1 }

/-- The binary search of `T.search` (part_008): on an equal key it keeps
moving right (`>= 0`). -/
def searchFind (payload : List EntryP.T) (pfxv : Nat) (key buf : List Nat) :
    Nat → Nat → Nat → Nat
  | 0, i, _ => i
  | gas + 1, i, j =>
    if i < j then
      let h := (i + j) / 2
      let enth := payload.getD h default
      let pfxh := getBE32 enth.pfx
      if pfxv > pfxh then searchFind payload pfxv key buf gas (h + 1) j
      else if pfxv < pfxh then searchFind payload pfxv key buf gas i h
      else if bytesCmp key (EntryP.ReadKey enth buf) ≥ 0 then
        searchFind payload pfxv key buf gas (h + 1) j
      else searchFind payload pfxv key buf gas i h
    else i

/-- The descent loop of `T.search`, fuelled by the slab size. -/
def searchAux (b : T) (pfxv : Nat) (key buf : List Nat) :
    Nat → Nat → Nat
  | 0, nid => nid
  | fuel + 1, nid =>
    let n := getNode b nid
    if n.leaf then nid
    else
      let i := searchFind n.payload pfxv key buf n.count 0 n.count
      let cid :=
        if i = n.count then n.next
        else (n.payload.getD i default).pivot
      searchAux b pfxv key buf fuel cid

/-- `T.search(key, buf)`. -/
def search (b : T) (key buf : List Nat) (rid : Nat) : Nat :=
  searchAux b (getBE32 (EntryP.pad4 key)) key buf (b.nodes.length + 1) rid

/-- `T.split(n, nid)` (part_008), in the Go statement order. -/
def split (b : T) (nid : Nat) : T × Nat :=
  let n0 := getNode b nid
  let (b1, sid) := alloc b n0.leaf
  let s0 := { getNode b1 sid with parent := n0.parent }
  let lower := n0.payload.take payloadSplit
  let s1 := { s0 with payload := lower, count := lower.length }
  if n0.leaf then
    let s2 := { s1 with next := nid }
    let b2 := setNode b1 sid s2
    let b3 :=
      if n0.prev ≠ invalidNode then
        let s3 := { s2 with prev := n0.prev }
        let b2a := setNode b2 sid s3
        let pn := getNode b2a n0.prev
        setNode b2a n0.prev { pn with next := sid }
      else b2
    let n1 := getNode b3 nid
    let kept := n0.payload.drop payloadSplit
    let b4 := setNode b3 nid
      { n1 with prev := sid, payload := kept, count := kept.length }
    (b4, sid)
  else
    let s2 := { s1 with next := (n0.payload.getD payloadSplit default).pivot }
    let b2 := setNode b1 sid s2
    let b3 :=
      let cn := getNode b2 s2.next
      setNode b2 s2.next { cn with parent := sid }
    let b4 := s2.payload.foldl
      (fun acc e =>
        let cn := getNode acc e.pivot
        setNode acc e.pivot { cn with parent := sid })
      b3
    let n1 := getNode b4 nid
    let kept := n0.payload.drop (payloadSplit + 1)
    let b5 := setNode b4 nid
      { n1 with payload := kept, count := kept.length }
    (b5, sid)

/-- The ascent loop of `T.Insert`/`append` (part_008).  `byAppend`
selects the bulk path; the `added` flag of the final iteration is what
`Insert` returns. -/
def insertLoop (key buf : List Nat) (byAppend : Bool) :
    Nat → T → EntryP.T → Nat → T × Bool
  | 0, b, _, _ => (b, false)
  | fuel + 1, b, ent, nid =>
    let n := getNode b nid
    let (n1, added) :=
      if byAppend then (appendEntry n ent, true)
      else insertEntry n key ent buf
    let b1 := setNode b nid n1
    let b2 :=
      if byAppend then { b1 with count := b1.count + 1 }
      else if added && n1.leaf then { b1 with count := b1.count + 1 } else b1
    if n1.count < payloadEntries then (b2, added)
    else
      let ent1 := n1.payload.getD payloadSplit default
      let (b3, sid) := split b2 nid
      let n2 := getNode b3 nid
      let (b4, pid) :=
        if n2.parent ≠ invalidNode then (b3, n2.parent)
        else
          let (ba, pid) := alloc b3 false
          let p := getNode ba pid
          let ba2 := setNode ba pid { p with next := nid }
          let n3 := getNode ba2 nid
          let ba3 := setNode ba2 nid { n3 with parent := pid }
          let s := getNode ba3 sid
          let ba4 := setNode ba3 sid { s with parent := pid }
          ({ ba4 with rootId := some pid }, pid)
      insertLoop key buf byAppend fuel b4 (EntryP.SetPivot ent1 sid) pid

/-- `T.Insert(ent, buf)` (part_008): returns true if the insert created
a new entry. -/
def Insert (b : T) (ent : EntryP.T) (buf : List Nat) : T × Bool :=
  let key := EntryP.ReadKey ent buf
  match b.rootId with
  | none =>
    let (b1, rid) := alloc b true
    let n := getNode b1 rid
    let (n1, _) := insertEntry n key ent buf
    let b2 := setNode b1 rid n1
    ({ b2 with rootId := some rid, count := b2.count + 1 }, true)
  | some rid =>
    let nid := search b key buf rid
    insertLoop key buf false (b.nodes.length + 2) b ent nid

/-- The leftmost-leaf descent of `T.Iter`. -/
def leftmostAux (b : T) : Nat → Nat → Nat
  | 0, nid => nid
  | fuel + 1, nid =>
    let n := getNode b nid
    if n.leaf then nid
    else
      let cid := if n.count = 0 then n.next else (n.payload.getD 0 default).pivot
      leftmostAux b fuel cid

/-- The leaf-chain walk of `T.Iter`, collecting every entry. -/
def iterChain (b : T) : Nat → Nat → List EntryP.T → List EntryP.T
  | 0, _, acc => acc
  | fuel + 1, nid, acc =>
    let n := getNode b nid
    let acc1 := acc ++ n.payload
    if n.next = invalidNode then acc1
    else iterChain b fuel n.next acc1

/-- `T.Iter(cb)` with a callback that never stops: the in-order entry
list. -/
def iterList (b : T) : List EntryP.T :=
  match b.rootId with
  | none => []
  | some rid =>
    iterChain b (b.nodes.length + 1) (leftmostAux b (b.nodes.length + 1) rid) []

/-- `T.Count()`. -/
def Count (b : T) : Nat := b.count

end Btree127

/-! ## Prefix-assisted comparison agrees with key comparison -/

/-- `entry.pad4` is the length-4 right-zero padding. -/
theorem pad4_eq_padN (k : List Nat) : EntryP.pad4 k = padN 4 k := rfl

/-- The 4-byte padded prefix as an explicit 4-list of bytes. -/
theorem pad4_explicit (k : List Nat) (hk : ∀ x ∈ k, x < 256) :
    ∃ a0 a1 a2 a3, EntryP.pad4 k = [a0, a1, a2, a3] ∧
      a0 < 256 ∧ a1 < 256 ∧ a2 < 256 ∧ a3 < 256 := by
  rcases k with _ | ⟨a0, _ | ⟨a1, _ | ⟨a2, _ | ⟨a3, rest⟩⟩⟩⟩
  · exact ⟨0, 0, 0, 0, by simp [EntryP.pad4], by omega, by omega, by omega, by omega⟩
  · exact ⟨a0, 0, 0, 0, by simp [EntryP.pad4, List.replicate], by simpa using hk a0 (by simp), by omega, by omega, by omega⟩
  · exact ⟨a0, a1, 0, 0, by simp [EntryP.pad4, List.replicate],
      by simpa using hk a0 (by simp), by simpa using hk a1 (by simp), by omega, by omega⟩
  · exact ⟨a0, a1, a2, 0, by simp [EntryP.pad4, List.replicate],
      by simpa using hk a0 (by simp), by simpa using hk a1 (by simp),
      by simpa using hk a2 (by simp), by omega⟩
  · exact ⟨a0, a1, a2, a3, by simp [EntryP.pad4],
      by simpa using hk a0 (by simp), by simpa using hk a1 (by simp),
      by simpa using hk a2 (by simp), by simpa using hk a3 (by simp)⟩

/-- The big-endian prefix comparison, when it is strict, decides the full
key comparison: part_008's "prefix short-circuit" is sound. -/
theorem prefix_cmp_bridge (key k2 : List Nat)
    (hkb : ∀ x ∈ key, x < 256) (hk2b : ∀ x ∈ k2, x < 256) :
    (getBE32 (EntryP.pad4 k2) < getBE32 (EntryP.pad4 key) →
      bytesCmp key k2 = 1) ∧
    (getBE32 (EntryP.pad4 key) < getBE32 (EntryP.pad4 k2) →
      bytesCmp key k2 = -1) := by
  obtain ⟨a0, a1, a2, a3, hpa, ha0, ha1, ha2, ha3⟩ := pad4_explicit key hkb
  obtain ⟨b0, b1, b2, b3, hpb, hb0, hb1, hb2, hb3⟩ := pad4_explicit k2 hk2b
  constructor
  · intro hlt
    rw [hpa, hpb] at hlt
    have hcmp : bytesCmp [b0, b1, b2, b3] [a0, a1, a2, a3] = -1 :=
      (getBE32_lt_iff b0 b1 b2 b3 a0 a1 a2 a3
        hb0 hb1 hb2 hb3 ha0 ha1 ha2 ha3).mp hlt
    have : bytesCmp (padN 4 k2) (padN 4 key) = -1 := by
      rw [← pad4_eq_padN, ← pad4_eq_padN, hpa, hpb]; exact hcmp
    exact (bytesCmp_gt_iff key k2).mpr (bytesCmp_of_padN 4 k2 key this)
  · intro hlt
    rw [hpa, hpb] at hlt
    have hcmp : bytesCmp [a0, a1, a2, a3] [b0, b1, b2, b3] = -1 :=
      (getBE32_lt_iff a0 a1 a2 a3 b0 b1 b2 b3
        ha0 ha1 ha2 ha3 hb0 hb1 hb2 hb3).mp hlt
    have : bytesCmp (padN 4 key) (padN 4 k2) = -1 := by
      rw [← pad4_eq_padN, ← pad4_eq_padN, hpa, hpb]; exact hcmp
    exact bytesCmp_of_padN 4 key k2 this

/-- The key stored at slot `p` of a payload. -/
def keyAt (payload : List EntryP.T) (buf : List Nat) (p : Nat) : List Nat :=
  EntryP.ReadKey (payload.getD p default) buf

/-- Correctness of `Btree127.insFind` over a strictly sorted payload:
an `inr h` result is an exact match, and an `inl idx` result separates
the payload into strictly-smaller and strictly-greater keys. -/
theorem insFind_spec (payload : List EntryP.T) (key buf : List Nat)
    (hkb : ∀ x ∈ key, x < 256)
    (hpb : ∀ e ∈ payload, ∀ x ∈ EntryP.ReadKey e buf, x < 256)
    (hpfx : ∀ e ∈ payload, e.pfx = EntryP.pad4 (EntryP.ReadKey e buf))
    (hsorted : ∀ p q, p < q → q < payload.length →
      bytesCmp (keyAt payload buf p) (keyAt payload buf q) = -1) :
    ∀ gas i j, i ≤ j → j ≤ payload.length → j - i ≤ gas →
      (∀ p, p < i → bytesCmp key (keyAt payload buf p) = 1) →
      (∀ p, j ≤ p → p < payload.length →
        bytesCmp key (keyAt payload buf p) = -1) →
      (match Btree127.insFind payload (getBE32 (EntryP.pad4 key)) key buf
          gas i j with
       | Sum.inr h => h < payload.length ∧ keyAt payload buf h = key
       | Sum.inl idx =>
         idx ≤ payload.length ∧
         (∀ p, p < idx → bytesCmp key (keyAt payload buf p) = 1) ∧
         (∀ p, idx ≤ p → p < payload.length →
           bytesCmp key (keyAt payload buf p) = -1)) := by
  intro gas
  induction gas with
  | zero =>
    intro i j hij hjlen hgas hleft hright
    have hieqj : i = j := by omega
    subst hieqj
    simp only [Btree127.insFind]
    exact ⟨by omega, hleft, hright⟩
  | succ gas ih =>
    intro i j hij hjlen hgas hleft hright
    rw [Btree127.insFind]
    by_cases hlt : i < j
    · rw [if_pos hlt]
      have hhlt : (i + j) / 2 < j := by omega
      have hhge : i ≤ (i + j) / 2 := by omega
      have hhlen : (i + j) / 2 < payload.length := by omega
      have hmem : payload.getD ((i + j) / 2) default ∈ payload := by
        rw [List.getD_eq_getElem payload default hhlen]
        exact List.getElem_mem hhlen
      have hpfxh : (payload.getD ((i + j) / 2) default).pfx =
          EntryP.pad4 (keyAt payload buf ((i + j) / 2)) := hpfx _ hmem
      have hkh : ∀ x ∈ keyAt payload buf ((i + j) / 2), x < 256 :=
        hpb _ hmem
      have hbridge := prefix_cmp_bridge key (keyAt payload buf ((i + j) / 2))
        hkb hkh
      -- the candidate facts for each comparison outcome
      have hgrow_left : bytesCmp key (keyAt payload buf ((i + j) / 2)) = 1 →
          ∀ p, p < (i + j) / 2 + 1 → bytesCmp key (keyAt payload buf p) = 1 := by
        intro hcmp p hp
        by_cases hpi : p < i
        · exact hleft p hpi
        · by_cases hph : p = (i + j) / 2
          · rw [hph]; exact hcmp
          · have hplt : p < (i + j) / 2 := by omega
            have hs := hsorted p ((i + j) / 2) hplt hhlen
            have h1 : bytesCmp (keyAt payload buf ((i + j) / 2)) key = -1 :=
              (bytesCmp_gt_iff _ _).mp hcmp
            exact (bytesCmp_gt_iff _ _).mpr
              (bytesCmp_trans_lt _ _ _ hs h1)
      have hgrow_right : bytesCmp key (keyAt payload buf ((i + j) / 2)) = -1 →
          ∀ p, (i + j) / 2 ≤ p → p < payload.length →
            bytesCmp key (keyAt payload buf p) = -1 := by
        intro hcmp p hp hplen
        by_cases hph : p = (i + j) / 2
        · rw [hph]; exact hcmp
        · have hplt : (i + j) / 2 < p := by omega
          exact bytesCmp_trans_lt _ _ _ hcmp (hsorted _ p hplt hplen)
      by_cases hc1 : getBE32 (EntryP.pad4 key) >
          getBE32 (payload.getD ((i + j) / 2) default).pfx
      · rw [if_pos hc1]
        have hcmp : bytesCmp key (keyAt payload buf ((i + j) / 2)) = 1 := by
          apply hbridge.1
          rw [hpfxh] at hc1
          exact hc1
        exact ih ((i + j) / 2 + 1) j (by omega) hjlen (by omega)
          (hgrow_left hcmp) hright
      · rw [if_neg hc1]
        by_cases hc2 : getBE32 (EntryP.pad4 key) <
            getBE32 (payload.getD ((i + j) / 2) default).pfx
        · rw [if_pos hc2]
          have hcmp : bytesCmp key (keyAt payload buf ((i + j) / 2)) = -1 := by
            apply hbridge.2
            rw [hpfxh] at hc2
            exact hc2
          exact ih i ((i + j) / 2) (by omega) (by omega) (by omega)
            hleft (hgrow_right hcmp)
        · rw [if_neg hc2]
          have hkeq : EntryP.ReadKey (payload.getD ((i + j) / 2) default) buf =
              keyAt payload buf ((i + j) / 2) := rfl
          rw [hkeq]
          by_cases hc3 : bytesCmp key (keyAt payload buf ((i + j) / 2)) = 1
          · rw [if_pos hc3]
            exact ih ((i + j) / 2 + 1) j (by omega) hjlen (by omega)
              (hgrow_left hc3) hright
          · rw [if_neg hc3]
            by_cases hc4 : bytesCmp key (keyAt payload buf ((i + j) / 2)) = 0
            · rw [if_pos hc4]
              refine ⟨hhlen, ?_⟩
              have := (bytesCmp_eq_zero_iff _ _).mp hc4
              rw [← this]
            · rw [if_neg hc4]
              have hcmp : bytesCmp key (keyAt payload buf ((i + j) / 2)) = -1 := by
                rcases bytesCmp_mem key (keyAt payload buf ((i + j) / 2)) with
                  h | h | h
                · exact h
                · exact absurd h hc4
                · exact absurd h hc3
              exact ih i ((i + j) / 2) (by omega) (by omega) (by omega)
                hleft (hgrow_right hcmp)
    · rw [if_neg hlt]
      have hieqj : i = j := by omega
      subst hieqj
      exact ⟨by omega, hleft, hright⟩

/-- C5: on a sorted btree node, inserting an entry whose key exactly
matches an existing entry's key overwrites that entry in place while
preserving the stored entry's pivot field, reports that no new key was
added (count unchanged, returns false); and the insert returns true
exactly when the key was not yet present, in which case the count grows
by one and the entry is placed at its sorted position.  Hypotheses: the
payload length matches the count, keys are byte strings, every stored
prefix is the zero-padded first-4-bytes of its key (as `entry.New`
builds them), the probe's prefix likewise, and the stored keys are
strictly ascending (the btree's invariant). -/
theorem insertEntry_overwrite_preserves_pivot (n : Btree127.BNode)
    (ent : EntryP.T) (buf key : List Nat)
    (hlen : n.payload.length = n.count)
    (hkb : ∀ x ∈ key, x < 256)
    (hpb : ∀ e ∈ n.payload, ∀ x ∈ EntryP.ReadKey e buf, x < 256)
    (hpfx : ∀ e ∈ n.payload, e.pfx = EntryP.pad4 (EntryP.ReadKey e buf))
    (hent : ent.pfx = EntryP.pad4 key)
    (hsorted : ∀ p q, p < q → q < n.payload.length →
      bytesCmp (keyAt n.payload buf p) (keyAt n.payload buf q) = -1) :
    ((Btree127.insertEntry n key ent buf).2 = true ↔
      ∀ p, p < n.payload.length → keyAt n.payload buf p ≠ key) ∧
    ((Btree127.insertEntry n key ent buf).2 = false →
      (Btree127.insertEntry n key ent buf).1.count = n.count ∧
      ∃ h, h < n.payload.length ∧ keyAt n.payload buf h = key ∧
        (Btree127.insertEntry n key ent buf).1.payload =
          n.payload.set h
            (EntryP.SetPivot ent (n.payload.getD h default).pivot)) ∧
    ((Btree127.insertEntry n key ent buf).2 = true →
      (Btree127.insertEntry n key ent buf).1.count = n.count + 1 ∧
      ∃ idx, idx ≤ n.payload.length ∧
        (Btree127.insertEntry n key ent buf).1.payload =
          n.payload.insertIdx idx ent) := by
  have hspec := insFind_spec n.payload key buf hkb hpb hpfx hsorted
    n.count 0 n.count (by omega) (by omega) (by omega)
    (by intro p hp; omega) (by intro p hp hplen; omega)
  rw [← hent] at hspec
  rcases hfind : Btree127.insFind n.payload (getBE32 ent.pfx) key buf
      n.count 0 n.count with idx | h
  · rw [hfind] at hspec
    obtain ⟨hidx, hsmall, hbig⟩ := hspec
    have hnotin : ∀ p, p < n.payload.length → keyAt n.payload buf p ≠ key := by
      intro p hplen hkeq
      by_cases hpid : p < idx
      · have := hsmall p hpid
        rw [hkeq, bytesCmp_self] at this
        omega
      · have := hbig p (by omega) hplen
        rw [hkeq, bytesCmp_self] at this
        omega
    have hres : Btree127.insertEntry n key ent buf =
        ({ n with payload := n.payload.insertIdx idx ent,
                  count := n.count + 1 }, true) := by
      rw [Btree127.insertEntry, hfind]
    rw [hres]
    refine ⟨by simpa using hnotin, by simp, ?_⟩
    intro _
    exact ⟨rfl, idx, hidx, rfl⟩
  · rw [hfind] at hspec
    obtain ⟨hhlen, hkey⟩ := hspec
    have hres : Btree127.insertEntry n key ent buf =
        ({ n with payload := n.payload.set h (EntryP.SetPivot ent (n.payload.getD h default).pivot) }, false) := by
      rw [Btree127.insertEntry, hfind]
    rw [hres]
    refine ⟨?_, ?_, ?_⟩
    · simp only [Bool.false_eq_true, false_iff]
      intro hall
      exact hall h hhlen hkey
    · intro _
      exact ⟨rfl, h, hhlen, hkey, rfl⟩
    · intro hfalse
      cases hfalse

/-- Witness for C5 at a concrete input: a node holding the single key
`[97]` with pivot 7; inserting a fresh entry (pivot 0) with the same key
overwrites in place, keeps pivot 7, and reports no new key. -/
theorem insertEntry_overwrite_preserves_pivot_witness :
    (Btree127.insertEntry
      { next := 4294967295, prev := 4294967295, parent := 4294967295,
        count := 1, leaf := true,
        payload := [EntryP.SetPivot (EntryP.New [97] [] false 0) 7] }
      [97] (EntryP.New [97] [] false 1) [97, 97]).2 = false ∧
    ((Btree127.insertEntry
      { next := 4294967295, prev := 4294967295, parent := 4294967295,
        count := 1, leaf := true,
        payload := [EntryP.SetPivot (EntryP.New [97] [] false 0) 7] }
      [97] (EntryP.New [97] [] false 1) [97, 97]).1.payload.getD 0
        default).pivot = 7 := by
  have h := insertEntry_overwrite_preserves_pivot
    { next := 4294967295, prev := 4294967295, parent := 4294967295,
      count := 1, leaf := true,
      payload := [EntryP.SetPivot (EntryP.New [97] [] false 0) 7] }
    (EntryP.New [97] [] false 1) [97, 97] [97]
    (by decide) (by decide) (by decide) (by decide) (by decide)
    (by intro p q hpq hq; simp at hq; omega)
  refine ⟨?_, by decide⟩
  cases hb : (Btree127.insertEntry
      { next := 4294967295, prev := 4294967295, parent := 4294967295,
        count := 1, leaf := true,
        payload := [EntryP.SetPivot (EntryP.New [97] [] false 0) 7] }
      [97] (EntryP.New [97] [] false 1) [97, 97]).2 with
  | false => rfl
  | true => exact absurd (by decide) (h.1.mp hb 0 (by decide))

/-! ## C2: the part_008 btree invariant

A representation predicate for the in-memory B+-tree of part_008.  `Rep`
relates a slab, a node id and key bounds to the subtree's node-id list,
leaf-id list and in-order entry list; `chainOk` states the leaf chain;
frames and spines describe the search path for the insert ascent. -/

namespace BT

/-- The key a payload entry denotes: `ent.ReadKey(buf)`. -/
def ekey (buf : List Nat) (e : EntryP.T) : List Nat := EntryP.ReadKey e buf

/-- A well-formed entry: its saved prefix is the padded key (as `entry.New`
builds it) and the key is made of bytes. -/
def WfE (buf : List Nat) (e : EntryP.T) : Prop :=
  e.pfx = EntryP.pad4 (EntryP.ReadKey e buf) ∧
  ∀ x ∈ EntryP.ReadKey e buf, x < 256

/-- Strict byte-string order. -/
def kLt (a b : List Nat) : Prop := bytesCmp a b = -1

/-- Lower bound (inclusive; `none` is unbounded). -/
def loOk (lo : Option (List Nat)) (k : List Nat) : Prop :=
  ∀ l, lo = some l → bytesCmp l k ≤ 0

/-- Strict lower bound. -/
def loLt (lo : Option (List Nat)) (k : List Nat) : Prop :=
  ∀ l, lo = some l → bytesCmp l k = -1

/-- Upper bound (exclusive; `none` is unbounded). -/
def hiOk (hi : Option (List Nat)) (k : List Nat) : Prop :=
  ∀ h, hi = some h → bytesCmp k h = -1

/-- Node equality up to the fields the subtree predicate ignores: a node's
own parent pointer and, for leaves, the chain pointers. -/
def peq (a b : Btree127.BNode) : Prop :=
  a.count = b.count ∧ a.leaf = b.leaf ∧ a.payload = b.payload ∧
  (a.leaf = false → a.next = b.next)

/-- One child slot of an inner node: child id, slot bounds, and the
child subtree's id, leaf and entry lists. -/
structure Kid where
  cid : Nat
  lo : Option (List Nat)
  hi : Option (List Nat)
  ids : List Nat
  lvs : List Nat
  es : List EntryP.T

instance : Inhabited Kid := ⟨⟨0, none, none, [], [], []⟩⟩

/-- The shape of a child slot: id and bounds. -/
def kidShape (k : Kid) : Nat × Option (List Nat) × Option (List Nat) :=
  (k.cid, k.lo, k.hi)

/-- The child slots an inner node's payload and rightmost pointer induce:
entry `i` owns the child left of it, the `next` pointer the rightmost
child, and each separator key bounds its neighbours. -/
def canonKids (buf : List Nat) :
    List EntryP.T → Nat → Option (List Nat) → Option (List Nat) →
    List (Nat × Option (List Nat) × Option (List Nat))
  | [], rm, lo, hi => [(rm, lo, hi)]
  | ent :: rest, rm, lo, hi =>
    (ent.pivot, lo, some (ekey buf ent)) ::
      canonKids buf rest rm (some (ekey buf ent)) hi

/-- A kid list matches an inner node's slots when its shapes are exactly
the canonical ones. -/
def KidsShape (buf : List Nat) (payload : List EntryP.T) (rm : Nat)
    (lo hi : Option (List Nat)) (ks : List Kid) : Prop :=
  ks.map kidShape = canonKids buf payload rm lo hi

/-- `Rep buf ns h nid lo hi ids lvs es`: node `nid` of slab `ns` roots a
height-`h` B+-subtree whose keys lie in `[lo, hi)`, with preorder node ids
`ids`, in-order leaf ids `lvs` and in-order entries `es`.  A `some` lower
bound is attained by the subtree's first key (part_008 pushes the first
key of the right half up as the separator).  Children's parent pointers
point at `nid`, and the id list is duplicate-free. -/
def Rep (buf : List Nat) (ns : List Btree127.BNode) :
    Nat → Nat → Option (List Nat) → Option (List Nat) →
    List Nat → List Nat → List EntryP.T → Prop
  | 0, nid, lo, hi, ids, lvs, es =>
    let n := ns.getD nid default
    nid < ns.length ∧ n.leaf = true ∧ n.count = n.payload.length ∧
    n.payload ≠ [] ∧ n.payload.length ≤ 126 ∧
    (∀ e ∈ n.payload, WfE buf e) ∧
    List.Pairwise kLt (n.payload.map (ekey buf)) ∧
    (∀ e ∈ n.payload, loOk lo (ekey buf e) ∧ hiOk hi (ekey buf e)) ∧
    (∀ l, lo = some l → (n.payload.map (ekey buf)).head? = some l) ∧
    ids = [nid] ∧ lvs = [nid] ∧ es = n.payload
  | h + 1, nid, lo, hi, ids, lvs, es =>
    let n := ns.getD nid default
    nid < ns.length ∧ n.leaf = false ∧ n.count = n.payload.length ∧
    1 ≤ n.payload.length ∧ n.payload.length ≤ 126 ∧
    (∀ e ∈ n.payload, WfE buf e) ∧
    ∃ ks : List Kid,
      KidsShape buf n.payload n.next lo hi ks ∧
      (∀ k ∈ ks, Rep buf ns h k.cid k.lo k.hi k.ids k.lvs k.es) ∧
      (∀ k ∈ ks, (ns.getD k.cid default).parent = nid) ∧
      ids = nid :: (ks.map Kid.ids).flatten ∧
      lvs = (ks.map Kid.lvs).flatten ∧
      es = (ks.map Kid.es).flatten ∧
      ids.Nodup

/-- The leaf chain: consecutive leaves are linked by `next`/`prev`, the
first leaf has no predecessor and the last no successor. -/
def chainOk (ns : List Btree127.BNode) (lvs : List Nat) : Prop :=
  (∀ i, i + 1 < lvs.length →
    (ns.getD (lvs.getD i 0) default).next = lvs.getD (i + 1) 0 ∧
    (ns.getD (lvs.getD (i + 1) 0) default).prev = lvs.getD i 0) ∧
  (∀ a, lvs.head? = some a →
    (ns.getD a default).prev = Btree127.invalidNode) ∧
  (∀ a, lvs.getLast? = some a →
    (ns.getD a default).next = Btree127.invalidNode)

/-- A frame of the search path: parent node, its bounds, and the child
slots to the left and right of the slot the path descends through. -/
structure Frm where
  pid : Nat
  loP : Option (List Nat)
  hiP : Option (List Nat)
  preK : List Kid
  postK : List Kid
  holeLo : Option (List Nat)
  holeHi : Option (List Nat)

/-- Frame validity: `pid` is an inner node whose slots are `preK`, the
hole occupied by `cur`, then `postK`; off-path slots carry height-`h`
subtrees and every child points back at `pid`. -/
def FrmOK (buf : List Nat) (ns : List Btree127.BNode) (f : Frm)
    (cur : Nat) (h : Nat) : Prop :=
  let n := ns.getD f.pid default
  f.pid < ns.length ∧ n.leaf = false ∧ n.count = n.payload.length ∧
  1 ≤ n.payload.length ∧ n.payload.length ≤ 126 ∧
  (∀ e ∈ n.payload, WfE buf e) ∧
  (f.preK.map kidShape ++ (cur, f.holeLo, f.holeHi) :: f.postK.map kidShape =
    canonKids buf n.payload n.next f.loP f.hiP) ∧
  (∀ k ∈ f.preK ++ f.postK,
    Rep buf ns h k.cid k.lo k.hi k.ids k.lvs k.es) ∧
  (∀ k ∈ f.preK ++ f.postK, (ns.getD k.cid default).parent = f.pid) ∧
  (ns.getD cur default).parent = f.pid

/-- The stacked frames from the current node up to the root: the current
bounds are the innermost hole's, and the topmost node is parentless. -/
def SpineOK (buf : List Nat) (ns : List Btree127.BNode) :
    List Frm → Nat → Nat → Option (List Nat) → Option (List Nat) → Prop
  | [], cur, _, lo, hi =>
    lo = none ∧ hi = none ∧
    (ns.getD cur default).parent = Btree127.invalidNode
  | f :: rest, cur, h, lo, hi =>
    lo = f.holeLo ∧ hi = f.holeHi ∧ FrmOK buf ns f cur h ∧
    SpineOK buf ns rest f.pid (h + 1) f.loP f.hiP

/-- Reassemble a frame's id list around a hole filling. -/
def frmIds (f : Frm) (i : List Nat) : List Nat :=
  f.pid :: ((f.preK.map Kid.ids).flatten ++ i ++ (f.postK.map Kid.ids).flatten)

/-- Reassemble a frame's leaf list around a hole filling. -/
def frmLvs (f : Frm) (l : List Nat) : List Nat :=
  (f.preK.map Kid.lvs).flatten ++ l ++ (f.postK.map Kid.lvs).flatten

/-- Reassemble a frame's entry list around a hole filling. -/
def frmEs (f : Frm) (e : List EntryP.T) : List EntryP.T :=
  (f.preK.map Kid.es).flatten ++ e ++ (f.postK.map Kid.es).flatten

/-- The whole tree's id list, given the hole's. -/
def graftIds : List Frm → List Nat → List Nat
  | [], i => i
  | f :: rest, i => graftIds rest (frmIds f i)

/-- The whole tree's leaf list, given the hole's. -/
def graftLvs : List Frm → List Nat → List Nat
  | [], l => l
  | f :: rest, l => graftLvs rest (frmLvs f l)

/-- The whole tree's entry list, given the hole's. -/
def graftEs : List Frm → List EntryP.T → List EntryP.T
  | [], e => e
  | f :: rest, e => graftEs rest (frmEs f e)

/-- The root the spine climbs to. -/
def spineRoot : List Frm → Nat → Nat
  | [], cur => cur
  | f :: rest, _ => spineRoot rest f.pid

theorem kLt_trans {a b c : List Nat} (h1 : kLt a b) (h2 : kLt b c) :
    kLt a c :=
  bytesCmp_trans_lt a b c h1 h2

theorem kLt_irrefl (a : List Nat) : ¬ kLt a a := by
  simp [kLt, bytesCmp_self]

theorem cmp_le_lt {a b c : List Nat} (h1 : bytesCmp a b ≤ 0)
    (h2 : bytesCmp b c = -1) : bytesCmp a c = -1 := by
  rcases bytesCmp_mem a b with h | h | h
  · exact bytesCmp_trans_lt a b c h h2
  · rw [(bytesCmp_eq_zero_iff a b).mp h]; exact h2
  · omega

theorem cmp_lt_le {a b c : List Nat} (h1 : bytesCmp a b = -1)
    (h2 : bytesCmp b c ≤ 0) : bytesCmp a c = -1 := by
  rcases bytesCmp_mem b c with h | h | h
  · exact bytesCmp_trans_lt a b c h1 h
  · rw [← (bytesCmp_eq_zero_iff b c).mp h]; exact h1
  · omega

/-- A strictly smaller key has a no-larger big-endian prefix. -/
theorem pfx_mono {a b : List Nat} (ha : ∀ x ∈ a, x < 256)
    (hb : ∀ x ∈ b, x < 256) (h : bytesCmp a b = -1) :
    getBE32 (EntryP.pad4 a) ≤ getBE32 (EntryP.pad4 b) := by
  by_contra hlt
  push_neg at hlt
  have := (prefix_cmp_bridge a b ha hb).1 hlt
  omega

theorem canonKids_length (buf : List Nat) :
    ∀ (payload : List EntryP.T) (rm : Nat) (lo hi : Option (List Nat)),
      (canonKids buf payload rm lo hi).length = payload.length + 1 := by
  intro payload
  induction payload with
  | nil => intro rm lo hi; rfl
  | cons e rest ih => intro rm lo hi; simp [canonKids, ih]

/-- Only the head slot of the canonical shape list mentions the node's
own lower bound. -/
theorem canonKids_relo (buf : List Nat) (payload : List EntryP.T)
    (rm : Nat) (lo lo' hi : Option (List Nat)) :
    canonKids buf payload rm lo' hi =
      (((canonKids buf payload rm lo hi).headD default).1, lo',
        ((canonKids buf payload rm lo hi).headD default).2.2) ::
      (canonKids buf payload rm lo hi).tail := by
  cases payload <;> rfl

/-- The fields of the `j`-th canonical slot. -/
theorem canonKids_getD (buf : List Nat) :
    ∀ (payload : List EntryP.T) (rm : Nat) (lo hi : Option (List Nat))
      (j : Nat), j ≤ payload.length →
      (canonKids buf payload rm lo hi).getD j default =
        ((if j = payload.length then rm
          else (payload.getD j default).pivot),
         (if j = 0 then lo
          else some (ekey buf (payload.getD (j - 1) default))),
         (if j = payload.length then hi
          else some (ekey buf (payload.getD j default)))) := by
  intro payload
  induction payload with
  | nil =>
    intro rm lo hi j hj
    have hj0 : j = 0 := by simpa using hj
    subst hj0
    rfl
  | cons e rest ih =>
    intro rm lo hi j hj
    cases j with
    | zero => simp [canonKids]
    | succ j =>
      have hj' : j ≤ rest.length := by simpa using hj
      show (canonKids buf rest rm (some (ekey buf e)) hi).getD j default = _
      rw [ih rm (some (ekey buf e)) hi j hj']
      rcases Nat.eq_zero_or_pos j with hj0 | hjpos
      · subst hj0
        rcases rest with _ | ⟨r, rest⟩
        · simp
        · simp
      · have h1 : ¬ (j = 0) := by omega
        have h2 : ¬ (j + 1 = 0) := by omega
        have h3 : (j = rest.length) ↔ (j + 1 = rest.length + 1) := by omega
        have h4 : (e :: rest).getD (j + 1) default = rest.getD j default := rfl
        have h5 : (e :: rest).getD (j + 1 - 1) default =
            rest.getD (j - 1) default := by
          have : j + 1 - 1 = (j - 1) + 1 := by omega
          rw [this]
          rfl
        rw [if_neg h1, if_neg h2, h4, h5]
        simp only [List.length_cons]
        by_cases hjl : j = rest.length
        · rw [if_pos hjl, if_pos (h3.mp hjl), if_pos hjl, if_pos (h3.mp hjl)]
        · rw [if_neg hjl, if_neg (fun hc => hjl (h3.mpr hc)),
            if_neg hjl, if_neg (fun hc => hjl (h3.mpr hc))]

/-- Inserting an entry at slot `j` splits the `j`-th canonical slot in
two around the new separator. -/
theorem canonKids_insert (buf : List Nat) :
    ∀ (payload : List EntryP.T) (rm : Nat) (lo hi : Option (List Nat))
      (j : Nat) (ent : EntryP.T), j ≤ payload.length →
      canonKids buf (payload.insertIdx j ent) rm lo hi =
        (canonKids buf payload rm lo hi).take j ++
        (ent.pivot,
          ((canonKids buf payload rm lo hi).getD j default).2.1,
          some (ekey buf ent)) ::
        (((canonKids buf payload rm lo hi).getD j default).1,
          some (ekey buf ent),
          ((canonKids buf payload rm lo hi).getD j default).2.2) ::
        (canonKids buf payload rm lo hi).drop (j + 1) := by
  intro payload
  induction payload with
  | nil =>
    intro rm lo hi j ent hj
    have hj0 : j = 0 := by simpa using hj
    subst hj0
    simp [canonKids]
  | cons e rest ih =>
    intro rm lo hi j ent hj
    cases j with
    | zero =>
      show canonKids buf (ent :: e :: rest) rm lo hi = _
      show (ent.pivot, lo, some (ekey buf ent)) ::
        canonKids buf (e :: rest) rm (some (ekey buf ent)) hi = _
      rw [canonKids_relo buf (e :: rest) rm (some (ekey buf ent)) lo hi]
      simp [canonKids]
    | succ j =>
      have hj' : j ≤ rest.length := by simpa using hj
      show (e.pivot, lo, some (ekey buf e)) ::
        canonKids buf (rest.insertIdx j ent) rm (some (ekey buf e)) hi = _
      rw [ih rm (some (ekey buf e)) hi j ent hj']
      show _ = ((e.pivot, lo, some (ekey buf e)) ::
        canonKids buf rest rm (some (ekey buf e)) hi).take (j + 1) ++ _
      rw [List.take_succ_cons]
      rfl

/-- The canonical slots of the left half of an inner split: entries below
`j`, rightmost pointer the `j`-th entry's pivot. -/
theorem canonKids_take (buf : List Nat) :
    ∀ (payload : List EntryP.T) (rm : Nat) (lo hi : Option (List Nat))
      (j : Nat), j < payload.length →
      canonKids buf (payload.take j) ((payload.getD j default).pivot) lo
          (some (ekey buf (payload.getD j default))) =
        (canonKids buf payload rm lo hi).take (j + 1) := by
  intro payload
  induction payload with
  | nil => intro rm lo hi j hj; simp at hj
  | cons e rest ih =>
    intro rm lo hi j hj
    cases j with
    | zero => simp [canonKids]
    | succ j =>
      have hj' : j < rest.length := by simpa using hj
      show (e.pivot, lo, some (ekey buf e)) ::
        canonKids buf (rest.take j) ((rest.getD j default).pivot)
          (some (ekey buf e)) (some (ekey buf (rest.getD j default))) = _
      rw [ih rm (some (ekey buf e)) hi j hj']
      rfl

/-- The canonical slots of the right half of an inner split: entries
above `j`, lower bound the `j`-th entry's key. -/
theorem canonKids_drop (buf : List Nat) :
    ∀ (payload : List EntryP.T) (rm : Nat) (lo hi : Option (List Nat))
      (j : Nat), j < payload.length →
      canonKids buf (payload.drop (j + 1)) rm
          (some (ekey buf (payload.getD j default))) hi =
        (canonKids buf payload rm lo hi).drop (j + 1) := by
  intro payload
  induction payload with
  | nil => intro rm lo hi j hj; simp at hj
  | cons e rest ih =>
    intro rm lo hi j hj
    cases j with
    | zero => rfl
    | succ j =>
      have hj' : j < rest.length := by simpa using hj
      show canonKids buf (rest.drop (j + 1)) rm
        (some (ekey buf (rest.getD j default))) hi = _
      rw [ih rm (some (ekey buf e)) hi j hj']
      rfl

/-- Consecutive slot bounds chain together, inner boundaries are real
separators. -/
def chainedS : List (Nat × Option (List Nat) × Option (List Nat)) →
    Option (List Nat) → Option (List Nat) → Prop
  | [], lo, hi => lo = hi
  | [(_, l, h)], lo, hi => l = lo ∧ h = hi
  | (_, l, h) :: x :: rest, lo, hi =>
    l = lo ∧ (∃ m, h = some m) ∧ chainedS (x :: rest) h hi

theorem canonKids_chainedS (buf : List Nat) :
    ∀ (payload : List EntryP.T) (rm : Nat) (lo hi : Option (List Nat)),
      chainedS (canonKids buf payload rm lo hi) lo hi := by
  intro payload
  induction payload with
  | nil => intro rm lo hi; exact ⟨rfl, rfl⟩
  | cons e rest ih =>
    intro rm lo hi
    have hne : canonKids buf rest rm (some (ekey buf e)) hi ≠ [] := by
      intro hc
      have := canonKids_length buf rest rm (some (ekey buf e)) hi
      rw [hc] at this
      simp at this
    rcases hc : canonKids buf rest rm (some (ekey buf e)) hi with _ | ⟨x, xs⟩
    · exact absurd hc hne
    · rw [show canonKids buf (e :: rest) rm lo hi =
          (e.pivot, lo, some (ekey buf e)) ::
            canonKids buf rest rm (some (ekey buf e)) hi from rfl, hc]
      refine ⟨rfl, ⟨ekey buf e, rfl⟩, ?_⟩
      rw [← hc]
      exact ih rm (some (ekey buf e)) hi

/-- The facts a subtree representation yields about its aggregate lists. -/
structure Agg (buf : List Nat) (ns : List Btree127.BNode)
    (lo hi : Option (List Nat)) (ids lvs : List Nat)
    (es : List EntryP.T) : Prop where
  idsLt : ∀ i ∈ ids, i < ns.length
  lvsSub : ∀ a ∈ lvs, a ∈ ids
  lvsNe : lvs ≠ []
  lvsLeaf : ∀ a ∈ lvs, (ns.getD a default).leaf = true
  esFlat : es = (lvs.map (fun a => (ns.getD a default).payload)).flatten
  esNe : es ≠ []
  esWf : ∀ e ∈ es, WfE buf e
  esSorted : List.Pairwise kLt (es.map (ekey buf))
  esBounds : ∀ e ∈ es, loOk lo (ekey buf e) ∧ hiOk hi (ekey buf e)
  esHead : ∀ l, lo = some l → (es.map (ekey buf)).head? = some l

theorem Agg_append (buf : List Nat) (ns : List Btree127.BNode)
    (lo hi : Option (List Nat)) (m : List Nat)
    (ids1 lvs1 : List Nat) (es1 : List EntryP.T)
    (ids2 lvs2 : List Nat) (es2 : List EntryP.T)
    (h1 : Agg buf ns lo (some m) ids1 lvs1 es1)
    (h2 : Agg buf ns (some m) hi ids2 lvs2 es2) :
    Agg buf ns lo hi (ids1 ++ ids2) (lvs1 ++ lvs2) (es1 ++ es2) := by
  have hm2 : m ∈ es2.map (ekey buf) := by
    rcases hh : (es2.map (ekey buf)).head? with _ | ⟨k⟩
    · rw [List.head?_eq_none_iff] at hh
      simp only [List.map_eq_nil_iff] at hh
      exact absurd hh h2.esNe
    · have := h2.esHead m rfl
      rw [hh] at this
      cases this
      exact List.mem_of_mem_head? hh
  obtain ⟨e2m, he2m, he2mk⟩ := List.mem_map.mp hm2
  have hcross : ∀ x ∈ es1, ∀ y ∈ es2, kLt (ekey buf x) (ekey buf y) := by
    intro x hx y hy
    have hxm : bytesCmp (ekey buf x) m = -1 := (h1.esBounds x hx).2 m rfl
    have hym : bytesCmp m (ekey buf y) ≤ 0 := (h2.esBounds y hy).1 m rfl
    exact cmp_lt_le hxm hym
  refine ⟨?_, ?_, ?_, ?_, ?_, ?_, ?_, ?_, ?_, ?_⟩
  · intro i hi
    rcases List.mem_append.mp hi with h | h
    · exact h1.idsLt i h
    · exact h2.idsLt i h
  · intro a ha
    rcases List.mem_append.mp ha with h | h
    · exact List.mem_append_left _ (h1.lvsSub a h)
    · exact List.mem_append_right _ (h2.lvsSub a h)
  · intro hc
    exact h1.lvsNe (List.append_eq_nil.mp hc).1
  · intro a ha
    rcases List.mem_append.mp ha with h | h
    · exact h1.lvsLeaf a h
    · exact h2.lvsLeaf a h
  · rw [List.map_append, List.flatten_append, ← h1.esFlat, ← h2.esFlat]
  · intro hc
    exact h1.esNe (List.append_eq_nil.mp hc).1
  · intro e he
    rcases List.mem_append.mp he with h | h
    · exact h1.esWf e h
    · exact h2.esWf e h
  · rw [List.map_append, List.pairwise_append]
    refine ⟨h1.esSorted, h2.esSorted, ?_⟩
    intro a ha b hb
    obtain ⟨x, hx, hxa⟩ := List.mem_map.mp ha
    obtain ⟨y, hy, hyb⟩ := List.mem_map.mp hb
    rw [← hxa, ← hyb]
    exact hcross x hx y hy
  · intro e he
    rcases List.mem_append.mp he with h | h
    · refine ⟨(h1.esBounds e h).1, ?_⟩
      intro h0 hh0
      have hem : bytesCmp (ekey buf e) m = -1 := (h1.esBounds e h).2 m rfl
      have hmh : bytesCmp m h0 = -1 := by
        rw [← he2mk]
        exact (h2.esBounds e2m he2m).2 h0 hh0
      exact bytesCmp_trans_lt _ _ _ hem hmh
    · refine ⟨?_, (h2.esBounds e h).2⟩
      intro l hl
      have hlm : bytesCmp l m = -1 := by
        rcases hh : (es1.map (ekey buf)).head? with _ | ⟨k⟩
        · rw [List.head?_eq_none_iff] at hh
          simp only [List.map_eq_nil_iff] at hh
          exact absurd hh h1.esNe
        · have := h1.esHead l hl
          rw [hh] at this
          cases this
          obtain ⟨e1h, he1h, he1hk⟩ :=
            List.mem_map.mp (List.mem_of_mem_head? hh)
          rw [← he1hk]
          exact (h1.esBounds e1h he1h).2 m rfl
      have hmy : bytesCmp m (ekey buf e) ≤ 0 := (h2.esBounds e h).1 m rfl
      have := cmp_lt_le hlm hmy
      omega
  · intro l hl
    rw [List.map_append]
    rcases hh : (es1.map (ekey buf)).head? with _ | ⟨k⟩
    · rw [List.head?_eq_none_iff] at hh
      simp only [List.map_eq_nil_iff] at hh
      exact absurd hh h1.esNe
    · rw [List.head?_append_of_ne_nil]
      · rw [hh]
        have := h1.esHead l hl
        rw [hh] at this
        exact this
      · intro hc
        rw [List.map_eq_nil_iff] at hc
        exact h1.esNe hc

theorem kidsAgg (buf : List Nat) (ns : List Btree127.BNode) :
    ∀ (ks : List Kid) (lo hi : Option (List Nat)),
      chainedS (ks.map kidShape) lo hi →
      (∀ k ∈ ks, Agg buf ns k.lo k.hi k.ids k.lvs k.es) →
      ks ≠ [] →
      Agg buf ns lo hi ((ks.map Kid.ids).flatten)
        ((ks.map Kid.lvs).flatten) ((ks.map Kid.es).flatten) := by
  intro ks
  induction ks with
  | nil => intro lo hi _ _ hne; exact absurd rfl hne
  | cons k ks ih =>
    intro lo hi hch hall _
    rcases ks with _ | ⟨k2, ks'⟩
    · obtain ⟨hl, hh⟩ : k.lo = lo ∧ k.hi = hi := hch
      have := hall k (by simp)
      rw [hl, hh] at this
      simpa using this
    · obtain ⟨hl, ⟨m, hm⟩, hrest⟩ :
          k.lo = lo ∧ (∃ m, k.hi = some m) ∧
          chainedS ((k2 :: ks').map kidShape) k.hi hi := hch
      rw [hm] at hrest
      have hAggRest := ih (some m) hi hrest
        (fun k hk => hall k (List.mem_cons_of_mem _ hk)) (by simp)
      have hAggK := hall k (by simp)
      rw [hl, hm] at hAggK
      have := Agg_append buf ns lo hi m _ _ _ _ _ _ hAggK hAggRest
      simpa using this

theorem Rep_agg (buf : List Nat) :
    ∀ (h : Nat) (ns : List Btree127.BNode) (nid : Nat)
      (lo hi : Option (List Nat)) (ids lvs : List Nat)
      (es : List EntryP.T),
      Rep buf ns h nid lo hi ids lvs es → Agg buf ns lo hi ids lvs es := by
  intro h
  induction h with
  | zero =>
    intro ns nid lo hi ids lvs es hr
    obtain ⟨hlt, hleaf, hcnt, hne, hle, hwf, hsort, hbnd, hatt, hids, hlvs,
      hes⟩ := hr
    subst hids hlvs hes
    refine ⟨?_, ?_, ?_, ?_, ?_, ?_, hwf, hsort, hbnd, hatt⟩
    · intro i hi
      rw [List.mem_singleton] at hi
      subst hi
      exact hlt
    · intro a ha
      exact ha
    · simp
    · intro a ha
      rw [List.mem_singleton] at ha
      subst ha
      exact hleaf
    · simp
    · exact hne
  | succ h ih =>
    intro ns nid lo hi ids lvs es hr
    obtain ⟨hlt, hleaf, hcnt, h1le, hle, hwf, ks, hshape, hreps, hpar, hids,
      hlvs, hes, hnd⟩ := hr
    have hkne : ks ≠ [] := by
      intro hc
      subst hc
      have := canonKids_length buf (ns.getD nid default).payload
        (ns.getD nid default).next lo hi
      rw [← hshape] at this
      simp at this
    have hch : chainedS (ks.map kidShape) lo hi := by
      rw [hshape]
      exact canonKids_chainedS buf _ _ lo hi
    have hA := kidsAgg buf ns ks lo hi hch
      (fun k hk => ih ns k.cid k.lo k.hi k.ids k.lvs k.es (hreps k hk)) hkne
    subst hids hlvs hes
    refine ⟨?_, ?_, hA.lvsNe, hA.lvsLeaf, hA.esFlat, hA.esNe, hA.esWf,
      hA.esSorted, hA.esBounds, hA.esHead⟩
    · intro i hi
      rcases List.mem_cons.mp hi with h | h
      · subst h; exact hlt
      · exact hA.idsLt i h
    · intro a ha
      exact List.mem_cons_of_mem _ (hA.lvsSub a ha)

theorem Rep_nodup (buf : List Nat) (h : Nat) (ns : List Btree127.BNode)
    (nid : Nat) (lo hi : Option (List Nat)) (ids lvs : List Nat)
    (es : List EntryP.T) (hr : Rep buf ns h nid lo hi ids lvs es) :
    ids.Nodup := by
  cases h with
  | zero =>
    obtain ⟨-, -, -, -, -, -, -, -, -, hids, -, -⟩ := hr
    subst hids
    simp
  | succ h =>
    obtain ⟨-, -, -, -, -, -, ks, -, -, -, -, -, -, hnd⟩ := hr
    exact hnd

theorem Rep_nid_lt (buf : List Nat) (h : Nat) (ns : List Btree127.BNode)
    (nid : Nat) (lo hi : Option (List Nat)) (ids lvs : List Nat)
    (es : List EntryP.T) (hr : Rep buf ns h nid lo hi ids lvs es) :
    nid < ns.length := by
  cases h with
  | zero => exact hr.1
  | succ h => exact hr.1

theorem Rep_nid_mem (buf : List Nat) (h : Nat) (ns : List Btree127.BNode)
    (nid : Nat) (lo hi : Option (List Nat)) (ids lvs : List Nat)
    (es : List EntryP.T) (hr : Rep buf ns h nid lo hi ids lvs es) :
    nid ∈ ids := by
  cases h with
  | zero =>
    obtain ⟨-, -, -, -, -, -, -, -, -, hids, -, -⟩ := hr
    subst hids
    simp
  | succ h =>
    obtain ⟨-, -, -, -, -, -, ks, -, -, -, hids, -, -, -⟩ := hr
    subst hids
    simp

theorem Rep_height (buf : List Nat) :
    ∀ (h : Nat) (ns : List Btree127.BNode) (nid : Nat)
      (lo hi : Option (List Nat)) (ids lvs : List Nat)
      (es : List EntryP.T),
      Rep buf ns h nid lo hi ids lvs es → h + 1 ≤ ids.length := by
  intro h
  induction h with
  | zero =>
    intro ns nid lo hi ids lvs es hr
    obtain ⟨-, -, -, -, -, -, -, -, -, hids, -, -⟩ := hr
    subst hids
    simp
  | succ h ih =>
    intro ns nid lo hi ids lvs es hr
    obtain ⟨-, -, -, -, -, -, ks, hshape, hreps, -, hids, -, -, -⟩ := hr
    subst hids
    rcases ks with _ | ⟨k0, ks'⟩
    · have := canonKids_length buf (ns.getD nid default).payload
        (ns.getD nid default).next lo hi
      rw [← hshape] at this
      simp at this
    · have hk0 := ih ns k0.cid k0.lo k0.hi k0.ids k0.lvs k0.es
        (hreps k0 (by simp))
      simp only [List.map_cons, List.flatten_cons, List.length_cons,
        List.length_append]
      omega

theorem kidsBound :
    ∀ (ks : List Kid),
      (∀ k ∈ ks, k.ids.length ≤ 2 * k.es.length - 1 ∧ 1 ≤ k.es.length) →
      (ks.map Kid.ids).flatten.length + ks.length ≤
        2 * (ks.map Kid.es).flatten.length ∧
      ks.length ≤ (ks.map Kid.es).flatten.length := by
  intro ks
  induction ks with
  | nil => intro _; simp
  | cons k ks ih =>
    intro hall
    have hk := hall k (by simp)
    have hih := ih (fun k hk => hall k (List.mem_cons_of_mem _ hk))
    simp only [List.map_cons, List.flatten_cons, List.length_cons,
      List.length_append] at *
    omega

theorem Rep_size (buf : List Nat) :
    ∀ (h : Nat) (ns : List Btree127.BNode) (nid : Nat)
      (lo hi : Option (List Nat)) (ids lvs : List Nat)
      (es : List EntryP.T),
      Rep buf ns h nid lo hi ids lvs es →
      ids.length ≤ 2 * es.length - 1 ∧ 1 ≤ es.length := by
  intro h
  induction h with
  | zero =>
    intro ns nid lo hi ids lvs es hr
    obtain ⟨-, -, -, hne, -, -, -, -, -, hids, -, hes⟩ := hr
    subst hids hes
    have h1 : 1 ≤ (ns.getD nid default).payload.length :=
      List.length_pos.mpr hne
    refine ⟨?_, h1⟩
    simp only [List.length_singleton]
    omega
  | succ h ih =>
    intro ns nid lo hi ids lvs es hr
    obtain ⟨-, -, hcnt, h1le, -, -, ks, hshape, hreps, -, hids, -, hes,
      -⟩ := hr
    subst hids hes
    have hkb := kidsBound ks
      (fun k hk => ih ns k.cid k.lo k.hi k.ids k.lvs k.es (hreps k hk))
    have hklen : ks.length = (ns.getD nid default).payload.length + 1 := by
      have h2 := canonKids_length buf (ns.getD nid default).payload
        (ns.getD nid default).next lo hi
      rw [← hshape] at h2
      simpa using h2
    simp only [List.length_cons]
    omega

theorem getD_mem_of_lt {l : List Nat} {i : Nat} (hi : i < l.length) :
    l.getD i 0 ∈ l := by
  rw [List.getD_eq_getElem l 0 hi]
  exact List.getElem_mem hi

/-- A subtree representation survives slab changes that keep its nodes
equal up to leaf chain pointers, and parent pointers of all non-root
nodes. -/
theorem Rep_frame (buf : List Nat) :
    ∀ (h : Nat) (ns ns' : List Btree127.BNode) (nid : Nat)
      (lo hi : Option (List Nat)) (ids lvs : List Nat)
      (es : List EntryP.T),
      Rep buf ns h nid lo hi ids lvs es →
      ns.length ≤ ns'.length →
      (∀ i ∈ ids, peq (ns'.getD i default) (ns.getD i default)) →
      (∀ i ∈ ids, i ≠ nid →
        (ns'.getD i default).parent = (ns.getD i default).parent) →
      Rep buf ns' h nid lo hi ids lvs es := by
  intro h
  induction h with
  | zero =>
    intro ns ns' nid lo hi ids lvs es hr hlen hpeq hpar
    obtain ⟨hlt, hleaf, hcnt, hne, hle, hwf, hsort, hbnd, hatt, hids, hlvs,
      hes⟩ := hr
    obtain ⟨hc, hl, hpay, -⟩ := hpeq nid (by rw [hids]; simp)
    exact ⟨by omega, by rw [hl]; exact hleaf, by rw [hc, hpay]; exact hcnt,
      by rw [hpay]; exact hne, by rw [hpay]; exact hle,
      by rw [hpay]; exact hwf, by rw [hpay]; exact hsort,
      by rw [hpay]; exact hbnd, by rw [hpay]; exact hatt, hids, hlvs,
      by rw [hpay]; exact hes⟩
  | succ h ih =>
    intro ns ns' nid lo hi ids lvs es hr hlen hpeq hpar
    obtain ⟨hlt, hleaf, hcnt, h1le, hle, hwf, ks, hshape, hreps, hpark,
      hids, hlvs, hes, hnd⟩ := hr
    obtain ⟨hc, hl, hpay, hnx⟩ := hpeq nid (by rw [hids]; simp)
    have hnx' : (ns'.getD nid default).next = (ns.getD nid default).next :=
      hnx (by rw [hl]; exact hleaf)
    have hnidni : nid ∉ (ks.map Kid.ids).flatten := by
      have := hnd
      rw [hids] at this
      exact (List.nodup_cons.mp this).1
    refine ⟨by omega, by rw [hl]; exact hleaf, by rw [hc, hpay]; exact hcnt,
      by rw [hpay]; exact h1le, by rw [hpay]; exact hle,
      by rw [hpay]; exact hwf, ks, by rw [hpay, hnx']; exact hshape,
      ?_, ?_, hids, hlvs, hes, hnd⟩
    · intro k hk
      have hsub : ∀ i ∈ k.ids, i ∈ ids := by
        intro i hi
        rw [hids]
        refine List.mem_cons_of_mem _ ?_
        rw [List.mem_flatten]
        exact ⟨k.ids, List.mem_map_of_mem Kid.ids hk, hi⟩
      refine ih ns ns' k.cid k.lo k.hi k.ids k.lvs k.es (hreps k hk) hlen
        (fun i hi => hpeq i (hsub i hi)) ?_
      intro i hi _
      refine hpar i (hsub i hi) ?_
      intro hc2
      subst hc2
      refine hnidni ?_
      rw [List.mem_flatten]
      exact ⟨k.ids, List.mem_map_of_mem Kid.ids hk, hi⟩
    · intro k hk
      have hcidmem : k.cid ∈ k.ids :=
        Rep_nid_mem buf h ns k.cid k.lo k.hi k.ids k.lvs k.es (hreps k hk)
      have hcidf : k.cid ∈ (ks.map Kid.ids).flatten := by
        rw [List.mem_flatten]
        exact ⟨k.ids, List.mem_map_of_mem Kid.ids hk, hcidmem⟩
      have hne2 : k.cid ≠ nid := by
        intro hc2
        subst hc2
        exact hnidni hcidf
      rw [hpar k.cid (by rw [hids]; exact List.mem_cons_of_mem _ hcidf) hne2]
      exact hpark k hk

/-- The leaf chain survives slab changes preserving the chain fields of
its leaves. -/
theorem chainOk_frame (ns ns' : List Btree127.BNode) (lvs : List Nat)
    (hc : chainOk ns lvs)
    (hpres : ∀ a ∈ lvs,
      (ns'.getD a default).next = (ns.getD a default).next ∧
      (ns'.getD a default).prev = (ns.getD a default).prev) :
    chainOk ns' lvs := by
  obtain ⟨hadj, hhead, hlast⟩ := hc
  refine ⟨?_, ?_, ?_⟩
  · intro i hi
    have h1 := (hpres _ (getD_mem_of_lt (show i < lvs.length by omega))).1
    have h2 := (hpres _ (getD_mem_of_lt (show i + 1 < lvs.length from hi))).2
    rw [h1, h2]
    exact hadj i hi
  · intro a ha
    rw [(hpres a (List.mem_of_mem_head? ha)).2]
    exact hhead a ha
  · intro a ha
    have ham : a ∈ lvs := by
      rcases lvs with _ | ⟨x, xs⟩
      · simp at ha
      · exact List.mem_of_mem_getLast? ha
    rw [(hpres a ham).1]
    exact hlast a ha

/-- The slab nodes a frame mentions. -/
def frmNodes (f : Frm) : List Nat :=
  f.pid :: ((f.preK ++ f.postK).map Kid.ids).flatten

/-- The slab nodes a spine's frames mention (the current node apart). -/
def spineNodes : List Frm → List Nat
  | [] => []
  | f :: rest => frmNodes f ++ spineNodes rest

theorem FrmOK_frame (buf : List Nat) (ns ns' : List Btree127.BNode)
    (f : Frm) (cur h : Nat) (hf : FrmOK buf ns f cur h)
    (hlen : ns.length ≤ ns'.length)
    (hpeq : ∀ i ∈ frmNodes f, peq (ns'.getD i default) (ns.getD i default))
    (hpar : ∀ i ∈ frmNodes f,
      (ns'.getD i default).parent = (ns.getD i default).parent)
    (hparcur : (ns'.getD cur default).parent = (ns.getD cur default).parent) :
    FrmOK buf ns' f cur h := by
  obtain ⟨hlt, hleaf, hcnt, h1le, hle, hwf, hshape, hreps, hpark, hcur⟩ := hf
  obtain ⟨hc, hl, hpay, hnx⟩ := hpeq f.pid (by simp [frmNodes])
  have hnx' : (ns'.getD f.pid default).next = (ns.getD f.pid default).next :=
    hnx (by rw [hl]; exact hleaf)
  refine ⟨by omega, by rw [hl]; exact hleaf, by rw [hc, hpay]; exact hcnt,
    by rw [hpay]; exact h1le, by rw [hpay]; exact hle,
    by rw [hpay]; exact hwf, by rw [hpay, hnx']; exact hshape, ?_, ?_, ?_⟩
  · intro k hk
    have hsub : ∀ i ∈ k.ids, i ∈ frmNodes f := by
      intro i hi
      refine List.mem_cons_of_mem _ ?_
      rw [List.mem_flatten]
      exact ⟨k.ids, List.mem_map_of_mem Kid.ids hk, hi⟩
    exact Rep_frame buf h ns ns' k.cid k.lo k.hi k.ids k.lvs k.es
      (hreps k hk) hlen (fun i hi => hpeq i (hsub i hi))
      (fun i hi _ => hpar i (hsub i hi))
  · intro k hk
    have hcidmem : k.cid ∈ k.ids :=
      Rep_nid_mem buf h ns k.cid k.lo k.hi k.ids k.lvs k.es (hreps k hk)
    have : k.cid ∈ frmNodes f := by
      refine List.mem_cons_of_mem _ ?_
      rw [List.mem_flatten]
      exact ⟨k.ids, List.mem_map_of_mem Kid.ids hk, hcidmem⟩
    rw [hpar k.cid this]
    exact hpark k hk
  · rw [hparcur]
    exact hcur

theorem SpineOK_frame (buf : List Nat) :
    ∀ (spine : List Frm) (ns ns' : List Btree127.BNode) (cur h : Nat)
      (lo hi : Option (List Nat)),
      SpineOK buf ns spine cur h lo hi →
      ns.length ≤ ns'.length →
      (∀ i ∈ spineNodes spine,
        peq (ns'.getD i default) (ns.getD i default)) →
      (∀ i ∈ spineNodes spine,
        (ns'.getD i default).parent = (ns.getD i default).parent) →
      (ns'.getD cur default).parent = (ns.getD cur default).parent →
      SpineOK buf ns' spine cur h lo hi := by
  intro spine
  induction spine with
  | nil =>
    intro ns ns' cur h lo hi hs hlen hpeq hpar hparcur
    obtain ⟨hlo, hhi, hroot⟩ := hs
    exact ⟨hlo, hhi, by rw [hparcur]; exact hroot⟩
  | cons f rest ih =>
    intro ns ns' cur h lo hi hs hlen hpeq hpar hparcur
    obtain ⟨hlo, hhi, hf, hrest⟩ := hs
    have hpid : f.pid ∈ spineNodes (f :: rest) := by
      simp [spineNodes, frmNodes]
    refine ⟨hlo, hhi, ?_, ?_⟩
    · refine FrmOK_frame buf ns ns' f cur h hf hlen ?_ ?_ hparcur
      · intro i hi
        exact hpeq i (by simp [spineNodes, hi])
      · intro i hi
        exact hpar i (by simp [spineNodes, hi])
    · refine ih ns ns' f.pid (h + 1) f.loP f.hiP hrest hlen ?_ ?_
        (hpar f.pid hpid)
      · intro i hi
        refine hpeq i ?_
        simp only [spineNodes, List.mem_append]
        right
        exact hi
      · intro i hi
        refine hpar i ?_
        simp only [spineNodes, List.mem_append]
        right
        exact hi

theorem getDMem {α : Type} (l : List α) (d : α) {i : Nat}
    (h : i < l.length) : l.getD i d ∈ l := by
  rw [List.getD_eq_getElem l d h]
  exact List.getElem_mem h

/-- In a strictly sorted key list there is a cut below which the probe
is at least every key and from which it is below every key. -/
theorem sorted_cut (key : List Nat) :
    ∀ (l : List (List Nat)), List.Pairwise kLt l →
      ∃ j, j ≤ l.length ∧
        (∀ p, p < j → 0 ≤ bytesCmp key (l.getD p [])) ∧
        (∀ p, j ≤ p → p < l.length → bytesCmp key (l.getD p []) = -1) := by
  intro l
  induction l with
  | nil =>
    intro _
    exact ⟨0, by omega, fun p hp => by omega, fun p _ hp => by simp at hp⟩
  | cons a l ih =>
    intro hp
    obtain ⟨j, hjle, hjL, hjR⟩ := ih (List.Pairwise.of_cons hp)
    by_cases hka : bytesCmp key a = -1
    · refine ⟨0, by omega, fun p hp2 => by omega, ?_⟩
      intro p _ hplen
      cases p with
      | zero => exact hka
      | succ p =>
        have hmem : l.getD p [] ∈ l :=
          getDMem l [] (by simpa using hplen)
        have : kLt a (l.getD p []) :=
          (List.pairwise_cons.mp hp).1 _ hmem
        exact bytesCmp_trans_lt _ _ _ hka this
    · have hka2 : 0 ≤ bytesCmp key a := by
        rcases bytesCmp_mem key a with h | h | h
        · exact absurd h hka
        · omega
        · omega
      refine ⟨j + 1, by simpa using hjle, ?_, ?_⟩
      · intro p hp2
        cases p with
        | zero => exact hka2
        | succ p => exact hjL p (by omega)
      · intro p hp2 hplen
        cases p with
        | zero => omega
        | succ p => exact hjR p (by omega) (by simpa using hplen)

/-- `search`'s binary probe lands exactly on the cut slot. -/
theorem searchFind_pinned (payload : List EntryP.T) (key buf : List Nat)
    (hkb : ∀ x ∈ key, x < 256)
    (hwf : ∀ e ∈ payload, WfE buf e)
    (idx : Nat) (hidx : idx ≤ payload.length)
    (hL : ∀ p, p < idx → 0 ≤ bytesCmp key (keyAt payload buf p))
    (hR : ∀ p, idx ≤ p → p < payload.length →
      bytesCmp key (keyAt payload buf p) = -1) :
    ∀ gas i j, i ≤ idx → idx ≤ j → j ≤ payload.length → j - i ≤ gas →
      Btree127.searchFind payload (getBE32 (EntryP.pad4 key)) key buf
        gas i j = idx := by
  intro gas
  induction gas with
  | zero =>
    intro i j hi hj hjlen hgas
    have : i = idx := by omega
    subst this
    rfl
  | succ gas ih =>
    intro i j hi hj hjlen hgas
    rw [Btree127.searchFind]
    by_cases hlt : i < j
    · rw [if_pos hlt]
      set h := (i + j) / 2 with hh
      have hhlt : h < j := by omega
      have hhge : i ≤ h := by omega
      have hhlen : h < payload.length := by omega
      have hmem : payload.getD h default ∈ payload := getDMem _ _ hhlen
      obtain ⟨hpfxh, hkh⟩ := hwf _ hmem
      have hbridge := prefix_cmp_bridge key (keyAt payload buf h) hkb hkh
      by_cases hc : h < idx
      · have hge := hL h hc
        have hnotlt : ¬ getBE32 (EntryP.pad4 key) <
            getBE32 (payload.getD h default).pfx := by
          intro hcon
          rw [hpfxh] at hcon
          have := hbridge.2 hcon
          omega
        by_cases hgt : getBE32 (EntryP.pad4 key) >
            getBE32 (payload.getD h default).pfx
        · rw [if_pos hgt]
          exact ih (h + 1) j (by omega) hj hjlen (by omega)
        · rw [if_neg hgt, if_neg (by omega)]
          rw [if_pos (show bytesCmp key
            (EntryP.ReadKey (payload.getD h default) buf) ≥ 0 from hge)]
          exact ih (h + 1) j (by omega) hj hjlen (by omega)
      · have hltk := hR h (by omega) hhlen
        have hnotgt : ¬ getBE32 (EntryP.pad4 key) >
            getBE32 (payload.getD h default).pfx := by
          intro hcon
          rw [hpfxh] at hcon
          have := hbridge.1 hcon
          omega
        rw [if_neg hnotgt]
        by_cases hltp : getBE32 (EntryP.pad4 key) <
            getBE32 (payload.getD h default).pfx
        · rw [if_pos hltp]
          exact ih i h hi (by omega) (by omega) (by omega)
        · rw [if_neg hltp]
          rw [if_neg (show ¬ bytesCmp key
              (EntryP.ReadKey (payload.getD h default) buf) ≥ 0 by
            rw [show EntryP.ReadKey (payload.getD h default) buf =
              keyAt payload buf h from rfl, hltk]
            omega)]
          exact ih i h hi (by omega) (by omega) (by omega)
    · rw [if_neg hlt]
      omega

/-- The insert probe of the split ascent: the saved prefix is the pushed
separator's, the compared key the originally inserted one; when both
order the same way around slot `idx`, the probe lands on `idx`. -/
theorem insFind_pinned (payload : List EntryP.T) (key med buf : List Nat)
    (hkb : ∀ x ∈ key, x < 256) (hmb : ∀ x ∈ med, x < 256)
    (hwf : ∀ e ∈ payload, WfE buf e)
    (idx : Nat) (hidx : idx ≤ payload.length)
    (hL : ∀ p, p < idx → bytesCmp key (keyAt payload buf p) = 1 ∧
      bytesCmp med (keyAt payload buf p) = 1)
    (hR : ∀ p, idx ≤ p → p < payload.length →
      bytesCmp key (keyAt payload buf p) = -1 ∧
      bytesCmp med (keyAt payload buf p) = -1) :
    ∀ gas i j, i ≤ idx → idx ≤ j → j ≤ payload.length → j - i ≤ gas →
      Btree127.insFind payload (getBE32 (EntryP.pad4 med)) key buf
        gas i j = Sum.inl idx := by
  intro gas
  induction gas with
  | zero =>
    intro i j hi hj hjlen hgas
    have : i = idx := by omega
    subst this
    rfl
  | succ gas ih =>
    intro i j hi hj hjlen hgas
    rw [Btree127.insFind]
    by_cases hlt : i < j
    · rw [if_pos hlt]
      set h := (i + j) / 2 with hh
      have hhlt : h < j := by omega
      have hhge : i ≤ h := by omega
      have hhlen : h < payload.length := by omega
      have hmem : payload.getD h default ∈ payload := getDMem _ _ hhlen
      obtain ⟨hpfxh, hkh⟩ := hwf _ hmem
      have hbridge := prefix_cmp_bridge med (keyAt payload buf h) hmb hkh
      by_cases hc : h < idx
      · obtain ⟨hkey1, hmed1⟩ := hL h hc
        have hnotlt : ¬ getBE32 (EntryP.pad4 med) <
            getBE32 (payload.getD h default).pfx := by
          intro hcon
          rw [hpfxh] at hcon
          have := hbridge.2 hcon
          omega
        by_cases hgt : getBE32 (EntryP.pad4 med) >
            getBE32 (payload.getD h default).pfx
        · rw [if_pos hgt]
          exact ih (h + 1) j (by omega) hj hjlen (by omega)
        · rw [if_neg hgt, if_neg (by omega)]
          rw [if_pos (show bytesCmp key
            (EntryP.ReadKey (payload.getD h default) buf) = 1 from hkey1)]
          exact ih (h + 1) j (by omega) hj hjlen (by omega)
      · obtain ⟨hkey1, hmed1⟩ := hR h (by omega) hhlen
        have hnotgt : ¬ getBE32 (EntryP.pad4 med) >
            getBE32 (payload.getD h default).pfx := by
          intro hcon
          rw [hpfxh] at hcon
          have := hbridge.1 hcon
          omega
        rw [if_neg hnotgt]
        by_cases hltp : getBE32 (EntryP.pad4 med) <
            getBE32 (payload.getD h default).pfx
        · rw [if_pos hltp]
          exact ih i h hi (by omega) (by omega) (by omega)
        · rw [if_neg hltp]
          rw [if_neg (show ¬ bytesCmp key
              (EntryP.ReadKey (payload.getD h default) buf) = 1 by
            rw [show EntryP.ReadKey (payload.getD h default) buf =
              keyAt payload buf h from rfl, hkey1]
            omega)]
          rw [if_neg (show ¬ bytesCmp key
              (EntryP.ReadKey (payload.getD h default) buf) = 0 by
            rw [show EntryP.ReadKey (payload.getD h default) buf =
              keyAt payload buf h from rfl, hkey1]
            omega)]
          exact ih i h hi (by omega) (by omega) (by omega)
    · rw [if_neg hlt]
      have : i = idx := by omega
      rw [this]

/-- The leaf insert probe on an exact match returns the matching slot. -/
theorem insFind_exact (payload : List EntryP.T) (key buf : List Nat)
    (hkb : ∀ x ∈ key, x < 256)
    (hwf : ∀ e ∈ payload, WfE buf e)
    (idx : Nat) (hidx : idx < payload.length)
    (hL : ∀ p, p < idx → bytesCmp key (keyAt payload buf p) = 1)
    (hEq : keyAt payload buf idx = key)
    (hR : ∀ p, idx < p → p < payload.length →
      bytesCmp key (keyAt payload buf p) = -1) :
    ∀ gas i j, i ≤ idx → idx < j → j ≤ payload.length → j - i ≤ gas →
      Btree127.insFind payload (getBE32 (EntryP.pad4 key)) key buf
        gas i j = Sum.inr idx := by
  intro gas
  induction gas with
  | zero =>
    intro i j hi hj hjlen hgas
    exact absurd hj (by omega)
  | succ gas ih =>
    intro i j hi hj hjlen hgas
    rw [Btree127.insFind]
    rw [if_pos (show i < j by omega)]
    set h := (i + j) / 2 with hh
    have hhlt : h < j := by omega
    have hhge : i ≤ h := by omega
    have hhlen : h < payload.length := by omega
    have hmem : payload.getD h default ∈ payload := getDMem _ _ hhlen
    obtain ⟨hpfxh, hkh⟩ := hwf _ hmem
    have hbridge := prefix_cmp_bridge key (keyAt payload buf h) hkb hkh
    rcases Nat.lt_trichotomy h idx with hc | hc | hc
    · have hkey1 := hL h hc
      have hnotlt : ¬ getBE32 (EntryP.pad4 key) <
          getBE32 (payload.getD h default).pfx := by
        intro hcon
        rw [hpfxh] at hcon
        have := hbridge.2 hcon
        omega
      by_cases hgt : getBE32 (EntryP.pad4 key) >
          getBE32 (payload.getD h default).pfx
      · rw [if_pos hgt]
        exact ih (h + 1) j (by omega) hj hjlen (by omega)
      · rw [if_neg hgt, if_neg (by omega)]
        rw [if_pos (show bytesCmp key
          (EntryP.ReadKey (payload.getD h default) buf) = 1 from hkey1)]
        exact ih (h + 1) j (by omega) hj hjlen (by omega)
    · subst hc
      have hpeq : (payload.getD h default).pfx = EntryP.pad4 key := by
        rw [hpfxh, show EntryP.ReadKey (payload.getD h default) buf =
          keyAt payload buf h from rfl, hEq]
      rw [if_neg (show ¬ getBE32 (EntryP.pad4 key) >
          getBE32 (payload.getD h default).pfx by rw [hpeq]; omega)]
      rw [if_neg (show ¬ getBE32 (EntryP.pad4 key) <
          getBE32 (payload.getD h default).pfx by rw [hpeq]; omega)]
      rw [if_neg (show ¬ bytesCmp key
          (EntryP.ReadKey (payload.getD h default) buf) = 1 by
        rw [show EntryP.ReadKey (payload.getD h default) buf =
          keyAt payload buf h from rfl, hEq, bytesCmp_self]
        omega)]
      rw [if_pos (show bytesCmp key
          (EntryP.ReadKey (payload.getD h default) buf) = 0 by
        rw [show EntryP.ReadKey (payload.getD h default) buf =
          keyAt payload buf h from rfl, hEq, bytesCmp_self])]
    · have hkey1 := hR h hc hhlen
      have hnotgt : ¬ getBE32 (EntryP.pad4 key) >
          getBE32 (payload.getD h default).pfx := by
        intro hcon
        rw [hpfxh] at hcon
        have := hbridge.1 hcon
        omega
      rw [if_neg hnotgt]
      by_cases hltp : getBE32 (EntryP.pad4 key) <
          getBE32 (payload.getD h default).pfx
      · rw [if_pos hltp]
        exact ih i h hi (by omega) (by omega) (by omega)
      · rw [if_neg hltp]
        rw [if_neg (show ¬ bytesCmp key
            (EntryP.ReadKey (payload.getD h default) buf) = 1 by
          rw [show EntryP.ReadKey (payload.getD h default) buf =
            keyAt payload buf h from rfl, hkey1]
          omega)]
        rw [if_neg (show ¬ bytesCmp key
            (EntryP.ReadKey (payload.getD h default) buf) = 0 by
          rw [show EntryP.ReadKey (payload.getD h default) buf =
            keyAt payload buf h from rfl, hkey1]
          omega)]
        exact ih i h hi (by omega) (by omega) (by omega)

instance : IsTrans (List Nat) kLt := ⟨fun _ _ _ hab hbc => kLt_trans hab hbc⟩

theorem list_hole {α : Type} [Inhabited α] (l : List α) (j : Nat)
    (hj : j < l.length) :
    l = l.take j ++ l.getD j default :: l.drop (j + 1) := by
  conv_lhs => rw [← List.take_append_drop j l]
  rw [List.drop_eq_getElem_cons hj, List.getD_eq_getElem l default hj]

theorem graftIds_append (A B : List Frm) (i : List Nat) :
    graftIds (A ++ B) i = graftIds B (graftIds A i) := by
  induction A generalizing i with
  | nil => rfl
  | cons f A ih => exact ih (frmIds f i)

theorem graftLvs_append (A B : List Frm) (l : List Nat) :
    graftLvs (A ++ B) l = graftLvs B (graftLvs A l) := by
  induction A generalizing l with
  | nil => rfl
  | cons f A ih => exact ih (frmLvs f l)

theorem graftEs_append (A B : List Frm) (e : List EntryP.T) :
    graftEs (A ++ B) e = graftEs B (graftEs A e) := by
  induction A generalizing e with
  | nil => rfl
  | cons f A ih => exact ih (frmEs f e)

theorem spineRoot_append (A B : List Frm) (cur : Nat) :
    spineRoot (A ++ B) cur = spineRoot B (spineRoot A cur) := by
  induction A generalizing cur with
  | nil => rfl
  | cons f A ih => exact ih f.pid

theorem searchAux_leaf (b : Btree127.T) (pfxv : Nat) (key buf : List Nat)
    (fuel nid : Nat) (hl : (Btree127.getNode b nid).leaf = true) :
    Btree127.searchAux b pfxv key buf (fuel + 1) nid = nid := by
  rw [Btree127.searchAux]
  simp [hl]

theorem searchAux_step (b : Btree127.T) (pfxv : Nat) (key buf : List Nat)
    (fuel nid : Nat) (hl : (Btree127.getNode b nid).leaf = false) :
    Btree127.searchAux b pfxv key buf (fuel + 1) nid =
      Btree127.searchAux b pfxv key buf fuel
        (if Btree127.searchFind (Btree127.getNode b nid).payload pfxv key buf
            (Btree127.getNode b nid).count 0 (Btree127.getNode b nid).count =
            (Btree127.getNode b nid).count
         then (Btree127.getNode b nid).next
         else ((Btree127.getNode b nid).payload.getD
            (Btree127.searchFind (Btree127.getNode b nid).payload pfxv key buf
              (Btree127.getNode b nid).count 0 (Btree127.getNode b nid).count)
            default).pivot) := by
  rw [Btree127.searchAux]
  simp [hl]

/-- Read off the fields of the `j`-th child slot. -/
theorem kid_at (buf : List Nat) {payload : List EntryP.T} {rm : Nat}
    {lo hi : Option (List Nat)} {ks : List Kid}
    (hshape : KidsShape buf payload rm lo hi ks)
    (j : Nat) (hj : j ≤ payload.length) :
    ks.length = payload.length + 1 ∧
    (ks.getD j default).cid =
      (if j = payload.length then rm else (payload.getD j default).pivot) ∧
    (ks.getD j default).lo =
      (if j = 0 then lo else some (ekey buf (payload.getD (j - 1) default))) ∧
    (ks.getD j default).hi =
      (if j = payload.length then hi
       else some (ekey buf (payload.getD j default))) := by
  have hlen : ks.length = payload.length + 1 := by
    have := congrArg List.length hshape
    simpa [canonKids_length] using this
  have hjlt : j < ks.length := by omega
  have hjlt2 : j < (canonKids buf payload rm lo hi).length := by
    rw [canonKids_length]
    omega
  have h1 : kidShape (ks.getD j default) =
      (canonKids buf payload rm lo hi).getD j default := by
    rw [List.getD_eq_getElem ks default hjlt,
      List.getD_eq_getElem _ default hjlt2]
    have h2 := List.getElem_of_eq hshape (show j < (ks.map kidShape).length
      by simpa using hjlt)
    rw [List.getElem_map] at h2
    exact h2
  rw [canonKids_getD buf payload rm lo hi j hj] at h1
  refine ⟨hlen, ?_, ?_, ?_⟩
  · exact congrArg (fun x => x.1) h1
  · exact congrArg (fun x => x.2.1) h1
  · exact congrArg (fun x => x.2.2) h1

/-- The lower bound of a represented subtree is one of its keys. -/
theorem Agg_lo_mem (buf : List Nat) (ns : List Btree127.BNode)
    (lo hi : Option (List Nat)) (ids lvs : List Nat) (es : List EntryP.T)
    (hA : Agg buf ns lo hi ids lvs es) (l : List Nat) (hl : lo = some l) :
    ∃ e, e ∈ es ∧ ekey buf e = l := by
  rcases hh : (es.map (ekey buf)).head? with _ | ⟨k⟩
  · rw [List.head?_eq_none_iff] at hh
    simp only [List.map_eq_nil_iff] at hh
    exact absurd hh hA.esNe
  · have := hA.esHead l hl
    rw [hh] at this
    cases this
    obtain ⟨e, he, hek⟩ := List.mem_map.mp (List.mem_of_mem_head? hh)
    exact ⟨e, he, hek⟩

/-- An inner node's separator keys are strictly ascending. -/
theorem Rep_inner_sorted (buf : List Nat) (h : Nat)
    (ns : List Btree127.BNode) (nid : Nat) (lo hi : Option (List Nat))
    (ids lvs : List Nat) (es : List EntryP.T)
    (hr : Rep buf ns (h + 1) nid lo hi ids lvs es) :
    List.Pairwise kLt ((ns.getD nid default).payload.map (ekey buf)) := by
  obtain ⟨hlt, hleaf, hcnt, h1le, hle, hwf, ks, hshape, hreps, hpark, hids,
    hlvs, hes, hnd⟩ := hr
  rw [← List.chain'_iff_pairwise, List.chain'_iff_get]
  intro p hp
  have hplen : p + 1 < (ns.getD nid default).payload.length := by
    simp only [List.length_map] at hp
    omega
  obtain ⟨hkslen, hcid, hklo, hkhi⟩ := kid_at buf hshape (p + 1) (by omega)
  have hkmem : ks.getD (p + 1) default ∈ ks := getDMem ks default (by omega)
  have hagg := Rep_agg buf h ns (ks.getD (p + 1) default).cid
    (ks.getD (p + 1) default).lo (ks.getD (p + 1) default).hi
    (ks.getD (p + 1) default).ids (ks.getD (p + 1) default).lvs
    (ks.getD (p + 1) default).es (hreps _ hkmem)
  rw [if_neg (by omega : ¬ p + 1 = 0)] at hklo
  rw [if_neg (by omega : ¬ p + 1 = (ns.getD nid default).payload.length)]
    at hkhi
  have hp1 : p + 1 - 1 = p := by omega
  rw [hp1] at hklo
  obtain ⟨e, he, hek⟩ := Agg_lo_mem buf ns _ _ _ _ _ hagg
    (ekey buf ((ns.getD nid default).payload.getD p default)) hklo
  have hbound := (hagg.esBounds e he).2
    (ekey buf ((ns.getD nid default).payload.getD (p + 1) default)) hkhi
  rw [hek] at hbound
  have hgoal : kLt
      (ekey buf ((ns.getD nid default).payload.getD p default))
      (ekey buf ((ns.getD nid default).payload.getD (p + 1) default)) :=
    hbound
  rw [List.get_eq_getElem, List.get_eq_getElem, List.getElem_map,
    List.getElem_map]
  rw [List.getD_eq_getElem _ default (by omega : p <
      (ns.getD nid default).payload.length),
    List.getD_eq_getElem _ default hplen] at hgoal
  exact hgoal

/-- The descent of `search`: from a represented subtree the probe
reaches the leaf whose slot contains the key, stacking valid frames
whose graft rebuilds the subtree's lists. -/
theorem descend (buf key : List Nat) (hkb : ∀ x ∈ key, x < 256)
    (b : Btree127.T) :
    ∀ (h fuel : Nat) (spine : List Frm) (cur : Nat)
      (lo hi : Option (List Nat)) (ids lvs : List Nat) (es : List EntryP.T),
      SpineOK buf b.nodes spine cur h lo hi →
      Rep buf b.nodes h cur lo hi ids lvs es →
      loOk lo key → hiOk hi key → h < fuel →
      ∃ (spine2 : List Frm) (lid : Nat) (lo2 hi2 : Option (List Nat))
        (ids2 lvs2 : List Nat) (es2 : List EntryP.T),
        Btree127.searchAux b (getBE32 (EntryP.pad4 key)) key buf fuel cur =
          lid ∧
        SpineOK buf b.nodes (spine2 ++ spine) lid 0 lo2 hi2 ∧
        Rep buf b.nodes 0 lid lo2 hi2 ids2 lvs2 es2 ∧
        loOk lo2 key ∧ hiOk hi2 key ∧
        graftIds spine2 ids2 = ids ∧ graftLvs spine2 lvs2 = lvs ∧
        graftEs spine2 es2 = es ∧ spineRoot spine2 lid = cur := by
  intro h
  induction h with
  | zero =>
    intro fuel spine cur lo hi ids lvs es hsp hr hlo hhi hfuel
    refine ⟨[], cur, lo, hi, ids, lvs, es, ?_, hsp, hr, hlo, hhi, rfl, rfl,
      rfl, rfl⟩
    cases fuel with
    | zero => omega
    | succ f =>
      have hrc := hr
      obtain ⟨-, hleaf, -⟩ := hrc
      exact searchAux_leaf b _ key buf f cur hleaf
  | succ h ih =>
    intro fuel spine cur lo hi ids lvs es hsp hr hlo hhi hfuel
    cases fuel with
    | zero => omega
    | succ f =>
    have hsorted := Rep_inner_sorted buf h b.nodes cur lo hi ids lvs es hr
    obtain ⟨hlt, hleaf, hcnt, h1le, hle, hwf, ks, hshape, hreps, hpark,
      hids, hlvs, hes, hnd⟩ := hr
    set pl := (b.nodes.getD cur default).payload with hpl
    obtain ⟨j, hjle0, hjL, hjR⟩ := sorted_cut key (pl.map (ekey buf)) hsorted
    rw [List.length_map] at hjle0
    have hmapD : ∀ p, p < pl.length →
        (pl.map (ekey buf)).getD p [] = keyAt pl buf p := by
      intro p hp
      rw [List.getD_eq_getElem (pl.map (ekey buf)) []
        (by simpa using hp), List.getElem_map]
      show EntryP.ReadKey pl[p] buf = EntryP.ReadKey (pl.getD p default) buf
      rw [List.getD_eq_getElem pl default hp]
    have hjL2 : ∀ p, p < j → 0 ≤ bytesCmp key (keyAt pl buf p) := by
      intro p hp
      have := hjL p hp
      rwa [hmapD p (by omega)] at this
    have hjR2 : ∀ p, j ≤ p → p < pl.length →
        bytesCmp key (keyAt pl buf p) = -1 := by
      intro p hp hplen
      have := hjR p hp (by simpa using hplen)
      rwa [hmapD p hplen] at this
    obtain ⟨hkslen, hcid, hklo, hkhi⟩ := kid_at buf hshape j hjle0
    set k := ks.getD j default with hk
    have hkmem : k ∈ ks := getDMem ks default (by omega)
    have hdec : ks = ks.take j ++ k :: ks.drop (j + 1) :=
      list_hole ks j (by omega)
    -- the probe lands on slot j
    have hfind : Btree127.searchFind pl (getBE32 (EntryP.pad4 key)) key buf
        (b.nodes.getD cur default).count 0
        (b.nodes.getD cur default).count = j := by
      rw [hcnt]
      exact searchFind_pinned pl key buf hkb hwf j hjle0 hjL2 hjR2
        pl.length 0 pl.length (by omega) hjle0 (by omega) (by omega)
    -- the descent child is the slot's kid
    have hgn : Btree127.getNode b cur = b.nodes.getD cur default := rfl
    have hstep := searchAux_step b (getBE32 (EntryP.pad4 key)) key buf f cur
      (by rw [hgn]; exact hleaf)
    rw [hgn] at hstep
    rw [hfind] at hstep
    have hcidv : (if j = (b.nodes.getD cur default).count
        then (b.nodes.getD cur default).next
        else (pl.getD j default).pivot) = k.cid := by
      rw [hcnt, hcid]
    rw [hcidv] at hstep
    -- the new frame
    have hshape2 : (ks.take j).map kidShape ++
        (k.cid, k.lo, k.hi) :: (ks.drop (j + 1)).map kidShape =
        canonKids buf pl (b.nodes.getD cur default).next lo hi := by
      rw [← hshape]
      conv_rhs => rw [hdec]
      simp only [List.map_append, List.map_cons]
      rfl
    have hFrm : FrmOK buf b.nodes
        ⟨cur, lo, hi, ks.take j, ks.drop (j + 1), k.lo, k.hi⟩ k.cid h := by
      refine ⟨hlt, hleaf, hcnt, h1le, hle, hwf, hshape2, ?_, ?_, hpark k hkmem⟩
      · intro k2 hk2
        rcases List.mem_append.mp hk2 with h2 | h2
        · exact hreps k2 (List.mem_of_mem_take h2)
        · exact hreps k2 (List.mem_of_mem_drop h2)
      · intro k2 hk2
        rcases List.mem_append.mp hk2 with h2 | h2
        · exact hpark k2 (List.mem_of_mem_take h2)
        · exact hpark k2 (List.mem_of_mem_drop h2)
    have hsp2 : SpineOK buf b.nodes
        (⟨cur, lo, hi, ks.take j, ks.drop (j + 1), k.lo, k.hi⟩ :: spine)
        k.cid h k.lo k.hi :=
      ⟨rfl, rfl, hFrm, hsp⟩
    -- key within the slot bounds
    have hlo2 : loOk k.lo key := by
      rw [hklo]
      by_cases hj0 : j = 0
      · rw [if_pos hj0]
        exact hlo
      · rw [if_neg hj0]
        intro l hl
        cases hl
        have := hjL2 (j - 1) (by omega)
        have hswap := bytesCmp_swap key (keyAt pl buf (j - 1))
        show bytesCmp (EntryP.ReadKey (pl.getD (j - 1) default) buf) key ≤ 0
        show bytesCmp (keyAt pl buf (j - 1)) key ≤ 0
        omega
    have hhi2 : hiOk k.hi key := by
      rw [hkhi]
      by_cases hjl : j = pl.length
      · rw [if_pos hjl]
        exact hhi
      · rw [if_neg hjl]
        intro h0 hh0
        cases hh0
        exact hjR2 j (by omega) (by omega)
    obtain ⟨spine2, lid, lo2, hi2, ids2, lvs2, es2, hsearch, hsp3, hrep3,
      hlo3, hhi3, hgi, hgl, hge, hroot⟩ :=
      ih f (⟨cur, lo, hi, ks.take j, ks.drop (j + 1), k.lo, k.hi⟩ :: spine)
        k.cid k.lo k.hi k.ids k.lvs k.es hsp2 (hreps k hkmem) hlo2 hhi2
        (by omega)
    refine ⟨spine2 ++ [⟨cur, lo, hi, ks.take j, ks.drop (j + 1), k.lo, k.hi⟩],
      lid, lo2, hi2, ids2, lvs2, es2, ?_, ?_, hrep3, hlo3, hhi3, ?_, ?_, ?_,
      ?_⟩
    · rw [hstep]
      exact hsearch
    · rw [List.append_assoc, List.singleton_append]
      exact hsp3
    · rw [graftIds_append, hgi, hids]
      show Frm.pid _ :: _ = _
      rw [show Frm.pid ⟨cur, lo, hi, ks.take j, ks.drop (j + 1), k.lo, k.hi⟩
        = cur from rfl]
      conv_rhs => rw [hdec]
      simp [frmIds, List.map_append]
    · rw [graftLvs_append, hgl, hlvs]
      conv_rhs => rw [hdec]
      simp [graftLvs, frmLvs, List.map_append]
    · rw [graftEs_append, hge, hes]
      conv_rhs => rw [hdec]
      simp [graftEs, frmEs, List.map_append]
    · rw [spineRoot_append, hroot]
      rfl

theorem getDset_eq {α : Type} [Inhabited α] (l : List α) (i : Nat) (a : α)
    (hi : i < l.length) : (l.set i a).getD i default = a := by
  rw [List.getD_eq_getElem _ default (by simpa using hi)]
  exact List.getElem_set_self _

theorem getDset_ne {α : Type} [Inhabited α] (l : List α) (i j : Nat) (a : α)
    (hij : i ≠ j) : (l.set i a).getD j default = l.getD j default := by
  by_cases hj : j < l.length
  · rw [List.getD_eq_getElem _ default (by simpa using hj),
      List.getD_eq_getElem _ default hj]
    exact List.getElem_set_ne hij _
  · rw [List.getD_eq_default _ _ (by simpa using Nat.le_of_not_lt hj),
      List.getD_eq_default _ _ (Nat.le_of_not_lt hj)]

theorem getDappend_lt {α : Type} [Inhabited α] (l m : List α) (j : Nat)
    (hj : j < l.length) : (l ++ m).getD j default = l.getD j default := by
  rw [List.getD_eq_getElem _ default
      (by rw [List.length_append]; omega),
    List.getD_eq_getElem _ default hj]
  exact List.getElem_append_left hj

theorem getDappend_self {α : Type} [Inhabited α] (l : List α) (a : α) :
    (l ++ [a]).getD l.length default = a := by
  rw [List.getD_eq_getElem _ default
    (by rw [List.length_append]; simp)]
  exact List.getElem_concat_length l a _ rfl _

theorem graftIds_nodup_down :
    ∀ (spine : List Frm) (x : List Nat),
      (graftIds spine x).Nodup → x.Nodup := by
  intro spine
  induction spine with
  | nil => intro x hx; exact hx
  | cons f rest ih =>
    intro x hx
    have h1 : (frmIds f x).Nodup := ih (frmIds f x) hx
    have h2 : x.Sublist (frmIds f x) := by
      refine List.Sublist.trans ?_ (List.sublist_cons_self _ _)
      exact List.Sublist.trans (List.sublist_append_right _ _)
        (List.sublist_append_left _ _)
    exact h1.sublist h2

/-- Grafting: filling the spine's hole with a represented subtree
represents the whole tree at the root. -/
theorem graft (buf : List Nat) :
    ∀ (spine : List Frm) (ns : List Btree127.BNode) (cur h : Nat)
      (lo hi : Option (List Nat)) (ids lvs : List Nat) (es : List EntryP.T),
      SpineOK buf ns spine cur h lo hi →
      Rep buf ns h cur lo hi ids lvs es →
      (graftIds spine ids).Nodup →
      Rep buf ns (h + spine.length) (spineRoot spine cur) none none
        (graftIds spine ids) (graftLvs spine lvs) (graftEs spine es) := by
  intro spine
  induction spine with
  | nil =>
    intro ns cur h lo hi ids lvs es hsp hr hnd
    obtain ⟨hlo, hhi, -⟩ := hsp
    subst hlo hhi
    exact hr
  | cons f rest ih =>
    intro ns cur h lo hi ids lvs es hsp hr hnd
    obtain ⟨hlo, hhi, hf, hrest⟩ := hsp
    obtain ⟨hlt, hleaf, hcnt, h1le, hle, hwf, hshape, hreps, hpark,
      hcur⟩ := hf
    have hndf : (frmIds f ids).Nodup := graftIds_nodup_down rest _ hnd
    have hrep2 : Rep buf ns (h + 1) f.pid f.loP f.hiP (frmIds f ids)
        (frmLvs f lvs) (frmEs f es) := by
      refine ⟨hlt, hleaf, hcnt, h1le, hle, hwf,
        f.preK ++ (⟨cur, lo, hi, ids, lvs, es⟩ : Kid) :: f.postK,
        ?_, ?_, ?_, ?_, ?_, ?_, ?_⟩
      · show (f.preK ++ (⟨cur, lo, hi, ids, lvs, es⟩ : Kid) ::
          f.postK).map kidShape = _
        rw [List.map_append, List.map_cons]
        subst hlo hhi
        exact hshape
      · intro k hk
        rcases List.mem_append.mp hk with h2 | h2
        · exact hreps k (List.mem_append_left _ h2)
        · rcases List.mem_cons.mp h2 with h3 | h3
          · subst h3
            exact hr
          · exact hreps k (List.mem_append_right _ h3)
      · intro k hk
        rcases List.mem_append.mp hk with h2 | h2
        · exact hpark k (List.mem_append_left _ h2)
        · rcases List.mem_cons.mp h2 with h3 | h3
          · subst h3
            exact hcur
          · exact hpark k (List.mem_append_right _ h3)
      · show frmIds f ids = _
        simp [frmIds, List.map_append]
      · show frmLvs f lvs = _
        simp [frmLvs, List.map_append]
      · show frmEs f es = _
        simp [frmEs, List.map_append]
      · show (frmIds f ids).Nodup
        exact hndf
    have hlen : h + (f :: rest).length = (h + 1) + rest.length := by
      simp only [List.length_cons]
      omega
    rw [hlen]
    exact ih ns f.pid (h + 1) f.loP f.hiP (frmIds f ids) (frmLvs f lvs)
      (frmEs f es) hrest hrep2 hnd

theorem set_append_len {α : Type} (l : List α) (a b : α) :
    (l ++ [a]).set l.length b = l ++ [b] := by
  induction l with
  | nil => rfl
  | cons x xs ih => simp [List.set, ih]

theorem getDappend_ne {α : Type} [Inhabited α] (l m : List α) (j : Nat)
    (hj : j ≠ l.length) (hm : m.length = 1) :
    (l ++ m).getD j default = l.getD j default := by
  by_cases hlt : j < l.length
  · rw [List.getD_eq_getElem _ default
        (by rw [List.length_append]; omega),
      List.getD_eq_getElem _ default hlt]
    exact List.getElem_append_left hlt
  · rw [List.getD_eq_default _ _ (by rw [List.length_append]; omega),
      List.getD_eq_default _ _ (by omega)]

/-- Leaf split: a full leaf is split into a fresh left sibling holding
the 63 smaller entries and the old node keeping the 64 larger ones; the
chain is spliced, both halves point at the old parent, and no other
node's record changes. -/
theorem split_leaf_spec (buf : List Nat) (b : Btree127.T) (nid : Nat)
    (lo hi : Option (List Nat))
    (hlt : nid < b.nodes.length)
    (hleaf : (b.nodes.getD nid default).leaf = true)
    (hlen127 : (b.nodes.getD nid default).payload.length = 127)
    (hwf : ∀ e ∈ (b.nodes.getD nid default).payload, WfE buf e)
    (hsort : List.Pairwise kLt
      ((b.nodes.getD nid default).payload.map (ekey buf)))
    (hbnd : ∀ e ∈ (b.nodes.getD nid default).payload,
      loOk lo (ekey buf e) ∧ hiOk hi (ekey buf e))
    (hatt : ∀ l, lo = some l →
      ((b.nodes.getD nid default).payload.map (ekey buf)).head? = some l)
    (hprevlt : (b.nodes.getD nid default).prev ≠ Btree127.invalidNode →
      (b.nodes.getD nid default).prev < b.nodes.length ∧
      (b.nodes.getD nid default).prev ≠ nid) :
    (Btree127.split b nid).2 = b.nodes.length ∧
    (Btree127.split b nid).1.rootId = b.rootId ∧
    (Btree127.split b nid).1.count = b.count ∧
    (Btree127.split b nid).1.nodes.length = b.nodes.length + 1 ∧
    Rep buf (Btree127.split b nid).1.nodes 0 b.nodes.length lo
      (some (ekey buf ((b.nodes.getD nid default).payload.getD 63 default)))
      [b.nodes.length] [b.nodes.length]
      ((b.nodes.getD nid default).payload.take 63) ∧
    Rep buf (Btree127.split b nid).1.nodes 0 nid
      (some (ekey buf ((b.nodes.getD nid default).payload.getD 63 default)))
      hi [nid] [nid] ((b.nodes.getD nid default).payload.drop 63) ∧
    ((Btree127.split b nid).1.nodes.getD b.nodes.length default).parent =
      (b.nodes.getD nid default).parent ∧
    ((Btree127.split b nid).1.nodes.getD nid default).parent =
      (b.nodes.getD nid default).parent ∧
    ((Btree127.split b nid).1.nodes.getD b.nodes.length default).next =
      nid ∧
    ((Btree127.split b nid).1.nodes.getD b.nodes.length default).prev =
      (b.nodes.getD nid default).prev ∧
    ((Btree127.split b nid).1.nodes.getD nid default).prev =
      b.nodes.length ∧
    ((Btree127.split b nid).1.nodes.getD nid default).next =
      (b.nodes.getD nid default).next ∧
    (∀ i, i ≠ nid → i ≠ (b.nodes.getD nid default).prev →
      i ≠ b.nodes.length →
      (Btree127.split b nid).1.nodes.getD i default =
        b.nodes.getD i default) ∧
    ((b.nodes.getD nid default).prev ≠ Btree127.invalidNode →
      (Btree127.split b nid).1.nodes.getD (b.nodes.getD nid default).prev
          default =
        { b.nodes.getD (b.nodes.getD nid default).prev default with
          next := b.nodes.length }) := by
  have hpair := List.pairwise_iff_getElem.mp hsort
  have hmaplen : ((b.nodes.getD nid default).payload.map
      (ekey buf)).length = 127 := by
    rw [List.length_map, hlen127]
  have htlen : ((b.nodes.getD nid default).payload.take 63).length = 63 := by
    rw [List.length_take]
    omega
  have hdlen : ((b.nodes.getD nid default).payload.drop 63).length = 64 := by
    rw [List.length_drop]
    omega
  have hkey63 : ∀ p (hp : p < 127),
      ekey buf ((b.nodes.getD nid default).payload.getD p default) =
        getElem ((b.nodes.getD nid default).payload.map (ekey buf)) p
          (by rw [hmaplen]; exact hp) := by
    intro p hp
    rw [List.getElem_map,
      List.getD_eq_getElem _ default (by rw [hlen127]; exact hp)]
  -- representation obligations for the two halves
  have hwf_take : ∀ e ∈ (b.nodes.getD nid default).payload.take 63,
      WfE buf e := fun e he => hwf e (List.mem_of_mem_take he)
  have hwf_drop : ∀ e ∈ (b.nodes.getD nid default).payload.drop 63,
      WfE buf e := fun e he => hwf e (List.mem_of_mem_drop he)
  have hsort_take : List.Pairwise kLt
      (((b.nodes.getD nid default).payload.take 63).map (ekey buf)) := by
    rw [List.map_take]
    exact List.Pairwise.sublist (List.take_sublist _ _) hsort
  have hsort_drop : List.Pairwise kLt
      (((b.nodes.getD nid default).payload.drop 63).map (ekey buf)) := by
    rw [List.map_drop]
    exact List.Pairwise.sublist (List.drop_sublist _ _) hsort
  have hbnd_take : ∀ e ∈ (b.nodes.getD nid default).payload.take 63,
      loOk lo (ekey buf e) ∧
      hiOk (some (ekey buf
        ((b.nodes.getD nid default).payload.getD 63 default)))
        (ekey buf e) := by
    intro e he
    refine ⟨(hbnd e (List.mem_of_mem_take he)).1, ?_⟩
    intro h0 hh0
    cases hh0
    obtain ⟨p, hp, hpe⟩ := List.getElem_of_mem he
    rw [htlen] at hp
    have hpe2 : getElem (b.nodes.getD nid default).payload p (by omega) = e := by
      rw [← hpe, List.getElem_take]
    have hcmp := hpair p 63 (by omega) (by omega) (by omega)
    rw [hkey63 63 (by omega)]
    have : ekey buf e = getElem ((b.nodes.getD nid default).payload.map
        (ekey buf)) p (by omega) := by
      rw [List.getElem_map, hpe2]
    rw [this]
    exact hcmp
  have hbnd_drop : ∀ e ∈ (b.nodes.getD nid default).payload.drop 63,
      loOk (some (ekey buf
        ((b.nodes.getD nid default).payload.getD 63 default)))
        (ekey buf e) ∧ hiOk hi (ekey buf e) := by
    intro e he
    refine ⟨?_, (hbnd e (List.mem_of_mem_drop he)).2⟩
    intro l hl
    cases hl
    obtain ⟨p, hp, hpe⟩ := List.getElem_of_mem he
    rw [hdlen] at hp
    have hpe2 : getElem (b.nodes.getD nid default).payload (63 + p) (by omega) = e := by
      rw [← hpe, List.getElem_drop]
    have hekey : ekey buf e = getElem ((b.nodes.getD nid default).payload.map
        (ekey buf)) (63 + p) (by omega) := by
      rw [List.getElem_map, hpe2]
    rw [hkey63 63 (by omega), hekey]
    rcases Nat.eq_zero_or_pos p with hp0 | hp0
    · subst hp0
      simp [bytesCmp_self]
    · have hcmp := hpair 63 (63 + p) (by omega) (by omega) (by omega)
      rw [hcmp]
      omega
  have hatt_take : ∀ l, lo = some l →
      (((b.nodes.getD nid default).payload.take 63).map
        (ekey buf)).head? = some l := by
    intro l hl
    have h0 := hatt l hl
    rw [List.map_take]
    rcases hplc : (b.nodes.getD nid default).payload.map (ekey buf) with
      _ | ⟨x, xs⟩
    · rw [hplc] at h0
      cases h0
    · rw [hplc] at h0
      rw [show (63 : Nat) = 62 + 1 from rfl, List.take_succ_cons]
      simpa using h0
  have hatt_drop : ∀ l,
      some (ekey buf ((b.nodes.getD nid default).payload.getD 63 default)) =
        some l →
      (((b.nodes.getD nid default).payload.drop 63).map
        (ekey buf)).head? = some l := by
    intro l hl
    cases hl
    rw [List.map_drop, List.head?_drop,
      List.getElem?_eq_getElem (by omega : 63 <
        ((b.nodes.getD nid default).payload.map (ekey buf)).length),
      hkey63 63 (by omega)]
  -- the two result records
  by_cases hpv : (b.nodes.getD nid default).prev = Btree127.invalidNode
  · -- no chain predecessor
    have hx : ∀ (f z : Btree127.BNode),
        ((b.nodes ++ [f]).set b.nodes.length z).getD nid default =
          b.nodes.getD nid default := by
      intro f z
      rw [getDset_ne _ _ _ _ (by omega), getDappend_lt _ _ _ hlt]
    have hx2 : ∀ (f : Btree127.BNode),
        (b.nodes ++ [f]).getD nid default = b.nodes.getD nid default := by
      intro f
      rw [getDappend_lt _ _ _ hlt]
    have hns : (Btree127.split b nid).1.nodes =
        (b.nodes ++
          [({ next := nid,
              prev := (b.nodes.getD nid default).prev,
              parent := (b.nodes.getD nid default).parent,
              count := ((b.nodes.getD nid default).payload.take 63).length,
              leaf := true,
              payload := (b.nodes.getD nid default).payload.take 63 } :
            Btree127.BNode)]).set nid
          ({ next := (b.nodes.getD nid default).next,
             prev := b.nodes.length,
             parent := (b.nodes.getD nid default).parent,
             count := ((b.nodes.getD nid default).payload.drop 63).length,
             leaf := (b.nodes.getD nid default).leaf,
             payload := (b.nodes.getD nid default).payload.drop 63 } :
           Btree127.BNode) := by
      simp only [Btree127.split, Btree127.getNode, Btree127.alloc,
        Btree127.setNode, Btree127.payloadSplit, hleaf, hpv, if_true,
        ite_true, ne_eq, not_true_eq_false, ite_false, if_false,
        getDappend_self, hx, set_append_len, hx2]
    have hsnd : (Btree127.split b nid).2 = b.nodes.length := by
      simp only [Btree127.split, Btree127.getNode, Btree127.alloc,
        Btree127.setNode, hleaf, if_true, ite_true]
    have hroot : (Btree127.split b nid).1.rootId = b.rootId := by
      simp only [Btree127.split, Btree127.getNode, Btree127.alloc,
        Btree127.setNode, hleaf, if_true, ite_true, hpv, ne_eq,
        not_true_eq_false, ite_false, if_false]
    have hcnt2 : (Btree127.split b nid).1.count = b.count := by
      simp only [Btree127.split, Btree127.getNode, Btree127.alloc,
        Btree127.setNode, hleaf, if_true, ite_true, hpv, ne_eq,
        not_true_eq_false, ite_false, if_false]
    have hlen2 : (Btree127.split b nid).1.nodes.length =
        b.nodes.length + 1 := by
      rw [hns, List.length_set, List.length_append]
      rfl
    have hgs : (Btree127.split b nid).1.nodes.getD b.nodes.length default =
        ({ next := nid,
           prev := (b.nodes.getD nid default).prev,
           parent := (b.nodes.getD nid default).parent,
           count := ((b.nodes.getD nid default).payload.take 63).length,
           leaf := true,
           payload := (b.nodes.getD nid default).payload.take 63 } :
         Btree127.BNode) := by
      rw [hns, getDset_ne _ _ _ _ (by omega), getDappend_self]
    have hgn : (Btree127.split b nid).1.nodes.getD nid default =
        ({ next := (b.nodes.getD nid default).next,
           prev := b.nodes.length,
           parent := (b.nodes.getD nid default).parent,
           count := ((b.nodes.getD nid default).payload.drop 63).length,
           leaf := (b.nodes.getD nid default).leaf,
           payload := (b.nodes.getD nid default).payload.drop 63 } :
         Btree127.BNode) := by
      rw [hns]
      exact getDset_eq _ _ _ (by
        simp only [List.length_append, List.length_cons, List.length_nil]
        omega)
    have hother : ∀ i, i ≠ nid → i ≠ (b.nodes.getD nid default).prev →
        i ≠ b.nodes.length →
        (Btree127.split b nid).1.nodes.getD i default =
          b.nodes.getD i default := by
      intro i hi1 hi2 hi3
      rw [hns, getDset_ne _ _ _ _ (Ne.symm hi1),
        getDappend_ne _ _ _ hi3 (by simp)]
    refine ⟨hsnd, hroot, hcnt2, hlen2, ?_, ?_, by rw [hgs], by rw [hgn],
      by rw [hgs], by rw [hgs], by rw [hgn], by rw [hgn], hother,
      fun hc => absurd hpv hc⟩
    · refine ⟨by omega, by rw [hgs], by rw [hgs], ?_, ?_,
        by rw [hgs]; exact hwf_take, by rw [hgs]; exact hsort_take,
        by rw [hgs]; exact hbnd_take, by rw [hgs]; exact hatt_take,
        rfl, rfl, by rw [hgs]⟩
      · rw [hgs]
        intro hc
        have := congrArg List.length hc
        rw [htlen] at this
        cases this
      · rw [hgs]
        show ((b.nodes.getD nid default).payload.take 63).length ≤ 126
        omega
    · refine ⟨by omega, by rw [hgn]; exact hleaf, by rw [hgn], ?_, ?_,
        by rw [hgn]; exact hwf_drop, by rw [hgn]; exact hsort_drop,
        by rw [hgn]; exact hbnd_drop, by rw [hgn]; exact hatt_drop,
        rfl, rfl, by rw [hgn]⟩
      · rw [hgn]
        intro hc
        have := congrArg List.length hc
        rw [hdlen] at this
        cases this
      · rw [hgn]
        show ((b.nodes.getD nid default).payload.drop 63).length ≤ 126
        omega
  · -- splice before the old node in the chain
    obtain ⟨hplt2, hpne⟩ := hprevlt hpv
    have hx : ∀ (i : Nat), i < b.nodes.length →
        ∀ (f z : Btree127.BNode),
        ((b.nodes ++ [f]).set b.nodes.length z).getD i default =
          b.nodes.getD i default := by
      intro i hi f z
      rw [getDset_ne _ _ _ _ (by omega), getDappend_lt _ _ _ hi]
    have hxn := hx nid hlt
    have hxp := hx (b.nodes.getD nid default).prev hplt2
    have hx2 : ∀ (f : Btree127.BNode),
        (b.nodes ++ [f]).getD nid default = b.nodes.getD nid default := by
      intro f
      rw [getDappend_lt _ _ _ hlt]
    have hx4 : ∀ (f : Btree127.BNode),
        (b.nodes ++ [f]).getD (b.nodes.getD nid default).prev default =
          b.nodes.getD (b.nodes.getD nid default).prev default := by
      intro f
      rw [getDappend_lt _ _ _ hplt2]
    have hx5 : ∀ (f z : Btree127.BNode),
        ((b.nodes ++ [f]).set (b.nodes.getD nid default).prev z).getD nid
          default = b.nodes.getD nid default := by
      intro f z
      rw [getDset_ne _ _ _ _ hpne, getDappend_lt _ _ _ hlt]
    have hns : (Btree127.split b nid).1.nodes =
        ((b.nodes ++
          [({ next := nid,
              prev := (b.nodes.getD nid default).prev,
              parent := (b.nodes.getD nid default).parent,
              count := ((b.nodes.getD nid default).payload.take 63).length,
              leaf := true,
              payload := (b.nodes.getD nid default).payload.take 63 } :
            Btree127.BNode)]).set (b.nodes.getD nid default).prev
          ({ next := b.nodes.length,
             prev := (b.nodes.getD (b.nodes.getD nid default).prev
               default).prev,
             parent := (b.nodes.getD (b.nodes.getD nid default).prev
               default).parent,
             count := (b.nodes.getD (b.nodes.getD nid default).prev
               default).count,
             leaf := (b.nodes.getD (b.nodes.getD nid default).prev
               default).leaf,
             payload := (b.nodes.getD (b.nodes.getD nid default).prev
               default).payload } :
           Btree127.BNode)).set nid
          ({ next := (b.nodes.getD nid default).next,
             prev := b.nodes.length,
             parent := (b.nodes.getD nid default).parent,
             count := ((b.nodes.getD nid default).payload.drop 63).length,
             leaf := (b.nodes.getD nid default).leaf,
             payload := (b.nodes.getD nid default).payload.drop 63 } :
           Btree127.BNode) := by
      simp only [Btree127.split, Btree127.getNode, Btree127.alloc,
        Btree127.setNode, Btree127.payloadSplit, hleaf, hpv, if_true,
        ite_true, ne_eq, not_true_eq_false, not_false_eq_true, ite_false,
        if_false, getDappend_self, hxn, hxp, set_append_len, hx2, hx4, hx5]
    have hsnd : (Btree127.split b nid).2 = b.nodes.length := by
      simp only [Btree127.split, Btree127.getNode, Btree127.alloc,
        Btree127.setNode, hleaf, if_true, ite_true]
    have hroot : (Btree127.split b nid).1.rootId = b.rootId := by
      simp only [Btree127.split, Btree127.getNode, Btree127.alloc,
        Btree127.setNode, hleaf, if_true, ite_true, hpv, ne_eq,
        not_true_eq_false, not_false_eq_true, ite_false, if_false]
    have hcnt2 : (Btree127.split b nid).1.count = b.count := by
      simp only [Btree127.split, Btree127.getNode, Btree127.alloc,
        Btree127.setNode, hleaf, if_true, ite_true, hpv, ne_eq,
        not_true_eq_false, not_false_eq_true, ite_false, if_false]
    have hlen2 : (Btree127.split b nid).1.nodes.length =
        b.nodes.length + 1 := by
      rw [hns, List.length_set, List.length_set, List.length_append]
      rfl
    have hgs : (Btree127.split b nid).1.nodes.getD b.nodes.length default =
        ({ next := nid,
           prev := (b.nodes.getD nid default).prev,
           parent := (b.nodes.getD nid default).parent,
           count := ((b.nodes.getD nid default).payload.take 63).length,
           leaf := true,
           payload := (b.nodes.getD nid default).payload.take 63 } :
         Btree127.BNode) := by
      rw [hns, getDset_ne _ _ _ _ (by omega),
        getDset_ne _ _ _ _ (by omega), getDappend_self]
    have hgn : (Btree127.split b nid).1.nodes.getD nid default =
        ({ next := (b.nodes.getD nid default).next,
           prev := b.nodes.length,
           parent := (b.nodes.getD nid default).parent,
           count := ((b.nodes.getD nid default).payload.drop 63).length,
           leaf := (b.nodes.getD nid default).leaf,
           payload := (b.nodes.getD nid default).payload.drop 63 } :
         Btree127.BNode) := by
      rw [hns]
      exact getDset_eq _ _ _ (by
        simp only [List.length_set, List.length_append, List.length_cons,
          List.length_nil]
        omega)
    have hgp : (Btree127.split b nid).1.nodes.getD
        (b.nodes.getD nid default).prev default =
        { b.nodes.getD (b.nodes.getD nid default).prev default with
          next := b.nodes.length } := by
      rw [hns, getDset_ne _ _ _ _ (Ne.symm hpne)]
      rw [getDset_eq _ _ _ (by
        simp only [List.length_append, List.length_cons, List.length_nil]
        omega)]
    have hother : ∀ i, i ≠ nid → i ≠ (b.nodes.getD nid default).prev →
        i ≠ b.nodes.length →
        (Btree127.split b nid).1.nodes.getD i default =
          b.nodes.getD i default := by
      intro i hi1 hi2 hi3
      rw [hns, getDset_ne _ _ _ _ (Ne.symm hi1),
        getDset_ne _ _ _ _ (Ne.symm hi2),
        getDappend_ne _ _ _ hi3 (by simp)]
    refine ⟨hsnd, hroot, hcnt2, hlen2, ?_, ?_, by rw [hgs], by rw [hgn],
      by rw [hgs], by rw [hgs], by rw [hgn], by rw [hgn], hother,
      fun _ => hgp⟩
    · refine ⟨by omega, by rw [hgs], by rw [hgs], ?_, ?_,
        by rw [hgs]; exact hwf_take, by rw [hgs]; exact hsort_take,
        by rw [hgs]; exact hbnd_take, by rw [hgs]; exact hatt_take,
        rfl, rfl, by rw [hgs]⟩
      · rw [hgs]
        intro hc
        have := congrArg List.length hc
        rw [htlen] at this
        cases this
      · rw [hgs]
        show ((b.nodes.getD nid default).payload.take 63).length ≤ 126
        omega
    · refine ⟨by omega, by rw [hgn]; exact hleaf, by rw [hgn], ?_, ?_,
        by rw [hgn]; exact hwf_drop, by rw [hgn]; exact hsort_drop,
        by rw [hgn]; exact hbnd_drop, by rw [hgn]; exact hatt_drop,
        rfl, rfl, by rw [hgn]⟩
      · rw [hgn]
        intro hc
        have := congrArg List.length hc
        rw [hdlen] at this
        cases this
      · rw [hgn]
        show ((b.nodes.getD nid default).payload.drop 63).length ≤ 126
        omega

/-- The child-reparenting fold of the inner split: it rewrites exactly
the parent fields of the nodes the entries' pivots name. -/
theorem reparent_foldl (sid : Nat) :
    ∀ (l : List EntryP.T) (b : Btree127.T),
      (l.foldl (fun acc e =>
        Btree127.setNode acc e.pivot
          { Btree127.getNode acc e.pivot with parent := sid }) b).rootId =
        b.rootId ∧
      (l.foldl (fun acc e =>
        Btree127.setNode acc e.pivot
          { Btree127.getNode acc e.pivot with parent := sid }) b).count =
        b.count ∧
      (l.foldl (fun acc e =>
        Btree127.setNode acc e.pivot
          { Btree127.getNode acc e.pivot with parent := sid }) b).nodes.length
        = b.nodes.length ∧
      ∀ i, (l.foldl (fun acc e =>
        Btree127.setNode acc e.pivot
          { Btree127.getNode acc e.pivot with parent := sid }) b).nodes.getD
            i default =
        (if i ∈ l.map EntryP.T.pivot ∧ i < b.nodes.length
         then { b.nodes.getD i default with parent := sid }
         else b.nodes.getD i default) := by
  intro l
  induction l with
  | nil =>
    intro b
    refine ⟨rfl, rfl, rfl, ?_⟩
    intro i
    rw [if_neg (by simp)]
    rfl
  | cons e l ih =>
    intro b
    obtain ⟨ihr, ihc, ihl, ihg⟩ :=
      ih (Btree127.setNode b e.pivot
        { Btree127.getNode b e.pivot with parent := sid })
    have hstep : ∀ i,
        (Btree127.setNode b e.pivot
          { Btree127.getNode b e.pivot with parent := sid }).nodes.getD i
            default =
        (if i = e.pivot ∧ i < b.nodes.length
         then { b.nodes.getD i default with parent := sid }
         else b.nodes.getD i default) := by
      intro i
      show (b.nodes.set e.pivot _).getD i default = _
      by_cases h1 : i = e.pivot
      · by_cases h2 : i < b.nodes.length
        · rw [if_pos ⟨h1, h2⟩, h1, getDset_eq _ _ _ (h1 ▸ h2)]
          rfl
        · rw [if_neg (fun hc => h2 hc.2),
            List.set_eq_of_length_le (by omega)]
      · rw [if_neg (fun hc => h1 hc.1), getDset_ne _ _ _ _ (Ne.symm h1)]
    have hslen : (Btree127.setNode b e.pivot
        { Btree127.getNode b e.pivot with parent := sid }).nodes.length =
        b.nodes.length := by
      show (b.nodes.set _ _).length = _
      rw [List.length_set]
    refine ⟨?_, ?_, ?_, ?_⟩
    · rw [List.foldl_cons, ihr]
      rfl
    · rw [List.foldl_cons, ihc]
      rfl
    · rw [List.foldl_cons, ihl, hslen]
    intro i
    rw [List.foldl_cons, ihg i, hslen, hstep i]
    by_cases h2 : i < b.nodes.length
    · by_cases h1 : i ∈ l.map EntryP.T.pivot
      · have hm1 : i ∈ (e :: l).map EntryP.T.pivot := by
          rw [List.map_cons]
          exact List.mem_cons_of_mem _ h1
        rw [if_pos (And.intro h1 h2), if_pos (And.intro hm1 h2)]
        by_cases h3 : i = e.pivot
        · rw [if_pos (And.intro h3 h2)]
        · rw [if_neg (fun hc => h3 hc.1)]
      · by_cases h3 : i = e.pivot
        · have hm2 : i ∈ (e :: l).map EntryP.T.pivot := by
            rw [List.map_cons, h3]
            exact List.mem_cons_self _ _
          rw [if_neg (fun hc => h1 hc.1), if_pos (And.intro h3 h2),
            if_pos (And.intro hm2 h2)]
        · have hm3 : ¬ (i ∈ (e :: l).map EntryP.T.pivot ∧
              i < b.nodes.length) := by
            intro hc
            rw [List.map_cons] at hc
            rcases List.mem_cons.mp hc.1 with h4 | h4
            · exact h3 h4
            · exact h1 h4
          rw [if_neg (fun hc => h1 hc.1), if_neg (fun hc => h3 hc.1),
            if_neg hm3]
    · rw [if_neg (fun hc => h2 hc.2), if_neg (fun hc => h2 hc.2),
        if_neg (fun hc => h2 hc.2)]

theorem getNode_mk_append (r : Option Nat) (c : Nat)
    (l : List Btree127.BNode) (f : Btree127.BNode) :
    Btree127.getNode ⟨r, c, l ++ [f]⟩ l.length = f := by
  show (l ++ [f]).getD l.length default = f
  exact getDappend_self l f

/-- Inner split, arena level: the slab gains the left-half node at the
fresh id, the reparented children's parent fields move to it, and the
split node keeps the upper half; nothing else changes. -/
theorem split_inner_spec (b : Btree127.T) (nid : Nat)
    (hlt : nid < b.nodes.length)
    (hleaf : (b.nodes.getD nid default).leaf = false)
    (hpl : ∀ p ∈ ((b.nodes.getD nid default).payload.take 63).map EntryP.T.pivot ++ [((b.nodes.getD nid default).payload.getD 63 default).pivot], p < b.nodes.length ∧ p ≠ nid) :
    (Btree127.split b nid).2 = b.nodes.length ∧
    (Btree127.split b nid).1.rootId = b.rootId ∧
    (Btree127.split b nid).1.count = b.count ∧
    (Btree127.split b nid).1.nodes.length = b.nodes.length + 1 ∧
    ∀ i, (Btree127.split b nid).1.nodes.getD i default =
      (if i = nid then { (b.nodes.getD nid default) with payload := (b.nodes.getD nid default).payload.drop (63 + 1), count := ((b.nodes.getD nid default).payload.drop (63 + 1)).length }
       else if i = b.nodes.length then { next := ((b.nodes.getD nid default).payload.getD 63 default).pivot, prev := Btree127.invalidNode, parent := (b.nodes.getD nid default).parent, count := ((b.nodes.getD nid default).payload.take 63).length, leaf := false, payload := (b.nodes.getD nid default).payload.take 63 }
       else if i ∈ ((b.nodes.getD nid default).payload.take 63).map EntryP.T.pivot ++ [((b.nodes.getD nid default).payload.getD 63 default).pivot] then { b.nodes.getD i default with parent := b.nodes.length }
       else b.nodes.getD i default) := by
  have hleafG : (Btree127.getNode b nid).leaf = false := hleaf
  have hgb : Btree127.getNode b nid = b.nodes.getD nid default := rfl
  have hpv_lt : ((b.nodes.getD nid default).payload.getD 63 default).pivot < b.nodes.length := (hpl _ (by simp)).1
  have hpv_ne : ((b.nodes.getD nid default).payload.getD 63 default).pivot ≠ nid := (hpl _ (by simp)).2
  have hnid_np : nid ∉ ((b.nodes.getD nid default).payload.take 63).map EntryP.T.pivot := by
    intro hc
    exact (hpl nid (List.mem_append_left _ hc)).2 rfl
  have hns : Btree127.split b nid = (Btree127.setNode (((b.nodes.getD nid default).payload.take 63).foldl (fun acc e => Btree127.setNode acc e.pivot { Btree127.getNode acc e.pivot with parent := b.nodes.length }) (Btree127.setNode (Btree127.setNode { b with nodes := b.nodes ++ [({ next := Btree127.invalidNode, prev := Btree127.invalidNode, parent := Btree127.invalidNode, count := 0, leaf := false, payload := [] } : Btree127.BNode)] } b.nodes.length { next := ((b.nodes.getD nid default).payload.getD 63 default).pivot, prev := Btree127.invalidNode, parent := (b.nodes.getD nid default).parent, count := ((b.nodes.getD nid default).payload.take 63).length, leaf := false, payload := (b.nodes.getD nid default).payload.take 63 }) ((b.nodes.getD nid default).payload.getD 63 default).pivot { Btree127.getNode (Btree127.setNode { b with nodes := b.nodes ++ [({ next := Btree127.invalidNode, prev := Btree127.invalidNode, parent := Btree127.invalidNode, count := 0, leaf := false, payload := [] } : Btree127.BNode)] } b.nodes.length { next := ((b.nodes.getD nid default).payload.getD 63 default).pivot, prev := Btree127.invalidNode, parent := (b.nodes.getD nid default).parent, count := ((b.nodes.getD nid default).payload.take 63).length, leaf := false, payload := (b.nodes.getD nid default).payload.take 63 }) ((b.nodes.getD nid default).payload.getD 63 default).pivot with parent := b.nodes.length })) nid { Btree127.getNode (((b.nodes.getD nid default).payload.take 63).foldl (fun acc e => Btree127.setNode acc e.pivot { Btree127.getNode acc e.pivot with parent := b.nodes.length }) (Btree127.setNode (Btree127.setNode { b with nodes := b.nodes ++ [({ next := Btree127.invalidNode, prev := Btree127.invalidNode, parent := Btree127.invalidNode, count := 0, leaf := false, payload := [] } : Btree127.BNode)] } b.nodes.length { next := ((b.nodes.getD nid default).payload.getD 63 default).pivot, prev := Btree127.invalidNode, parent := (b.nodes.getD nid default).parent, count := ((b.nodes.getD nid default).payload.take 63).length, leaf := false, payload := (b.nodes.getD nid default).payload.take 63 }) ((b.nodes.getD nid default).payload.getD 63 default).pivot { Btree127.getNode (Btree127.setNode { b with nodes := b.nodes ++ [({ next := Btree127.invalidNode, prev := Btree127.invalidNode, parent := Btree127.invalidNode, count := 0, leaf := false, payload := [] } : Btree127.BNode)] } b.nodes.length { next := ((b.nodes.getD nid default).payload.getD 63 default).pivot, prev := Btree127.invalidNode, parent := (b.nodes.getD nid default).parent, count := ((b.nodes.getD nid default).payload.take 63).length, leaf := false, payload := (b.nodes.getD nid default).payload.take 63 }) ((b.nodes.getD nid default).payload.getD 63 default).pivot with parent := b.nodes.length })) nid with payload := (b.nodes.getD nid default).payload.drop (63 + 1), count := ((b.nodes.getD nid default).payload.drop (63 + 1)).length }, b.nodes.length) := by
    simp only [Btree127.split, Btree127.alloc, Btree127.payloadSplit,
      hleafG, hleaf, Bool.false_eq_true, if_false, ite_false, getNode_mk_append,
      hgb]
  obtain ⟨hfr, hfc, hfl, hfg⟩ := reparent_foldl b.nodes.length ((b.nodes.getD nid default).payload.take 63) (Btree127.setNode (Btree127.setNode { b with nodes := b.nodes ++ [({ next := Btree127.invalidNode, prev := Btree127.invalidNode, parent := Btree127.invalidNode, count := 0, leaf := false, payload := [] } : Btree127.BNode)] } b.nodes.length { next := ((b.nodes.getD nid default).payload.getD 63 default).pivot, prev := Btree127.invalidNode, parent := (b.nodes.getD nid default).parent, count := ((b.nodes.getD nid default).payload.take 63).length, leaf := false, payload := (b.nodes.getD nid default).payload.take 63 }) ((b.nodes.getD nid default).payload.getD 63 default).pivot { Btree127.getNode (Btree127.setNode { b with nodes := b.nodes ++ [({ next := Btree127.invalidNode, prev := Btree127.invalidNode, parent := Btree127.invalidNode, count := 0, leaf := false, payload := [] } : Btree127.BNode)] } b.nodes.length { next := ((b.nodes.getD nid default).payload.getD 63 default).pivot, prev := Btree127.invalidNode, parent := (b.nodes.getD nid default).parent, count := ((b.nodes.getD nid default).payload.take 63).length, leaf := false, payload := (b.nodes.getD nid default).payload.take 63 }) ((b.nodes.getD nid default).payload.getD 63 default).pivot with parent := b.nodes.length })
  have hB2len : (Btree127.setNode { b with nodes := b.nodes ++ [({ next := Btree127.invalidNode, prev := Btree127.invalidNode, parent := Btree127.invalidNode, count := 0, leaf := false, payload := [] } : Btree127.BNode)] } b.nodes.length { next := ((b.nodes.getD nid default).payload.getD 63 default).pivot, prev := Btree127.invalidNode, parent := (b.nodes.getD nid default).parent, count := ((b.nodes.getD nid default).payload.take 63).length, leaf := false, payload := (b.nodes.getD nid default).payload.take 63 }).nodes.length = b.nodes.length + 1 := by
    show ((b.nodes ++ [({ next := Btree127.invalidNode, prev := Btree127.invalidNode, parent := Btree127.invalidNode, count := 0, leaf := false, payload := [] } : Btree127.BNode)]).set b.nodes.length { next := ((b.nodes.getD nid default).payload.getD 63 default).pivot, prev := Btree127.invalidNode, parent := (b.nodes.getD nid default).parent, count := ((b.nodes.getD nid default).payload.take 63).length, leaf := false, payload := (b.nodes.getD nid default).payload.take 63 }).length = _
    rw [List.length_set, List.length_append]
    rfl
  have hB3len : (Btree127.setNode (Btree127.setNode { b with nodes := b.nodes ++ [({ next := Btree127.invalidNode, prev := Btree127.invalidNode, parent := Btree127.invalidNode, count := 0, leaf := false, payload := [] } : Btree127.BNode)] } b.nodes.length { next := ((b.nodes.getD nid default).payload.getD 63 default).pivot, prev := Btree127.invalidNode, parent := (b.nodes.getD nid default).parent, count := ((b.nodes.getD nid default).payload.take 63).length, leaf := false, payload := (b.nodes.getD nid default).payload.take 63 }) ((b.nodes.getD nid default).payload.getD 63 default).pivot { Btree127.getNode (Btree127.setNode { b with nodes := b.nodes ++ [({ next := Btree127.invalidNode, prev := Btree127.invalidNode, parent := Btree127.invalidNode, count := 0, leaf := false, payload := [] } : Btree127.BNode)] } b.nodes.length { next := ((b.nodes.getD nid default).payload.getD 63 default).pivot, prev := Btree127.invalidNode, parent := (b.nodes.getD nid default).parent, count := ((b.nodes.getD nid default).payload.take 63).length, leaf := false, payload := (b.nodes.getD nid default).payload.take 63 }) ((b.nodes.getD nid default).payload.getD 63 default).pivot with parent := b.nodes.length }).nodes.length = b.nodes.length + 1 := by
    show (((Btree127.setNode { b with nodes := b.nodes ++ [({ next := Btree127.invalidNode, prev := Btree127.invalidNode, parent := Btree127.invalidNode, count := 0, leaf := false, payload := [] } : Btree127.BNode)] } b.nodes.length { next := ((b.nodes.getD nid default).payload.getD 63 default).pivot, prev := Btree127.invalidNode, parent := (b.nodes.getD nid default).parent, count := ((b.nodes.getD nid default).payload.take 63).length, leaf := false, payload := (b.nodes.getD nid default).payload.take 63 }).nodes).set ((b.nodes.getD nid default).payload.getD 63 default).pivot _).length = _
    rw [List.length_set, hB2len]
  have hB2getD : ∀ i, i ≠ b.nodes.length →
      ((Btree127.setNode { b with nodes := b.nodes ++ [({ next := Btree127.invalidNode, prev := Btree127.invalidNode, parent := Btree127.invalidNode, count := 0, leaf := false, payload := [] } : Btree127.BNode)] } b.nodes.length { next := ((b.nodes.getD nid default).payload.getD 63 default).pivot, prev := Btree127.invalidNode, parent := (b.nodes.getD nid default).parent, count := ((b.nodes.getD nid default).payload.take 63).length, leaf := false, payload := (b.nodes.getD nid default).payload.take 63 }).nodes.getD i default) = b.nodes.getD i default := by
    intro i hi
    show ((b.nodes ++ [({ next := Btree127.invalidNode, prev := Btree127.invalidNode, parent := Btree127.invalidNode, count := 0, leaf := false, payload := [] } : Btree127.BNode)]).set b.nodes.length { next := ((b.nodes.getD nid default).payload.getD 63 default).pivot, prev := Btree127.invalidNode, parent := (b.nodes.getD nid default).parent, count := ((b.nodes.getD nid default).payload.take 63).length, leaf := false, payload := (b.nodes.getD nid default).payload.take 63 }).getD i default = _
    rw [getDset_ne _ _ _ _ (Ne.symm hi), getDappend_ne _ _ _ hi (by simp)]
  have hB2s : ((Btree127.setNode { b with nodes := b.nodes ++ [({ next := Btree127.invalidNode, prev := Btree127.invalidNode, parent := Btree127.invalidNode, count := 0, leaf := false, payload := [] } : Btree127.BNode)] } b.nodes.length { next := ((b.nodes.getD nid default).payload.getD 63 default).pivot, prev := Btree127.invalidNode, parent := (b.nodes.getD nid default).parent, count := ((b.nodes.getD nid default).payload.take 63).length, leaf := false, payload := (b.nodes.getD nid default).payload.take 63 }).nodes.getD b.nodes.length default) = { next := ((b.nodes.getD nid default).payload.getD 63 default).pivot, prev := Btree127.invalidNode, parent := (b.nodes.getD nid default).parent, count := ((b.nodes.getD nid default).payload.take 63).length, leaf := false, payload := (b.nodes.getD nid default).payload.take 63 } := by
    show ((b.nodes ++ [({ next := Btree127.invalidNode, prev := Btree127.invalidNode, parent := Btree127.invalidNode, count := 0, leaf := false, payload := [] } : Btree127.BNode)]).set b.nodes.length { next := ((b.nodes.getD nid default).payload.getD 63 default).pivot, prev := Btree127.invalidNode, parent := (b.nodes.getD nid default).parent, count := ((b.nodes.getD nid default).payload.take 63).length, leaf := false, payload := (b.nodes.getD nid default).payload.take 63 }).getD b.nodes.length default = _
    rw [set_append_len, getDappend_self]
  have hB3getD : ∀ i, i ≠ ((b.nodes.getD nid default).payload.getD 63 default).pivot →
      ((Btree127.setNode (Btree127.setNode { b with nodes := b.nodes ++ [({ next := Btree127.invalidNode, prev := Btree127.invalidNode, parent := Btree127.invalidNode, count := 0, leaf := false, payload := [] } : Btree127.BNode)] } b.nodes.length { next := ((b.nodes.getD nid default).payload.getD 63 default).pivot, prev := Btree127.invalidNode, parent := (b.nodes.getD nid default).parent, count := ((b.nodes.getD nid default).payload.take 63).length, leaf := false, payload := (b.nodes.getD nid default).payload.take 63 }) ((b.nodes.getD nid default).payload.getD 63 default).pivot { Btree127.getNode (Btree127.setNode { b with nodes := b.nodes ++ [({ next := Btree127.invalidNode, prev := Btree127.invalidNode, parent := Btree127.invalidNode, count := 0, leaf := false, payload := [] } : Btree127.BNode)] } b.nodes.length { next := ((b.nodes.getD nid default).payload.getD 63 default).pivot, prev := Btree127.invalidNode, parent := (b.nodes.getD nid default).parent, count := ((b.nodes.getD nid default).payload.take 63).length, leaf := false, payload := (b.nodes.getD nid default).payload.take 63 }) ((b.nodes.getD nid default).payload.getD 63 default).pivot with parent := b.nodes.length }).nodes.getD i default) = ((Btree127.setNode { b with nodes := b.nodes ++ [({ next := Btree127.invalidNode, prev := Btree127.invalidNode, parent := Btree127.invalidNode, count := 0, leaf := false, payload := [] } : Btree127.BNode)] } b.nodes.length { next := ((b.nodes.getD nid default).payload.getD 63 default).pivot, prev := Btree127.invalidNode, parent := (b.nodes.getD nid default).parent, count := ((b.nodes.getD nid default).payload.take 63).length, leaf := false, payload := (b.nodes.getD nid default).payload.take 63 }).nodes.getD i default) := by
    intro i hi
    show (((Btree127.setNode { b with nodes := b.nodes ++ [({ next := Btree127.invalidNode, prev := Btree127.invalidNode, parent := Btree127.invalidNode, count := 0, leaf := false, payload := [] } : Btree127.BNode)] } b.nodes.length { next := ((b.nodes.getD nid default).payload.getD 63 default).pivot, prev := Btree127.invalidNode, parent := (b.nodes.getD nid default).parent, count := ((b.nodes.getD nid default).payload.take 63).length, leaf := false, payload := (b.nodes.getD nid default).payload.take 63 }).nodes).set ((b.nodes.getD nid default).payload.getD 63 default).pivot _).getD i default = _
    rw [getDset_ne _ _ _ _ (Ne.symm hi)]
  have hB3pv : ((Btree127.setNode (Btree127.setNode { b with nodes := b.nodes ++ [({ next := Btree127.invalidNode, prev := Btree127.invalidNode, parent := Btree127.invalidNode, count := 0, leaf := false, payload := [] } : Btree127.BNode)] } b.nodes.length { next := ((b.nodes.getD nid default).payload.getD 63 default).pivot, prev := Btree127.invalidNode, parent := (b.nodes.getD nid default).parent, count := ((b.nodes.getD nid default).payload.take 63).length, leaf := false, payload := (b.nodes.getD nid default).payload.take 63 }) ((b.nodes.getD nid default).payload.getD 63 default).pivot { Btree127.getNode (Btree127.setNode { b with nodes := b.nodes ++ [({ next := Btree127.invalidNode, prev := Btree127.invalidNode, parent := Btree127.invalidNode, count := 0, leaf := false, payload := [] } : Btree127.BNode)] } b.nodes.length { next := ((b.nodes.getD nid default).payload.getD 63 default).pivot, prev := Btree127.invalidNode, parent := (b.nodes.getD nid default).parent, count := ((b.nodes.getD nid default).payload.take 63).length, leaf := false, payload := (b.nodes.getD nid default).payload.take 63 }) ((b.nodes.getD nid default).payload.getD 63 default).pivot with parent := b.nodes.length }).nodes.getD ((b.nodes.getD nid default).payload.getD 63 default).pivot default) =
      { b.nodes.getD ((b.nodes.getD nid default).payload.getD 63 default).pivot default with parent := b.nodes.length } := by
    show (((Btree127.setNode { b with nodes := b.nodes ++ [({ next := Btree127.invalidNode, prev := Btree127.invalidNode, parent := Btree127.invalidNode, count := 0, leaf := false, payload := [] } : Btree127.BNode)] } b.nodes.length { next := ((b.nodes.getD nid default).payload.getD 63 default).pivot, prev := Btree127.invalidNode, parent := (b.nodes.getD nid default).parent, count := ((b.nodes.getD nid default).payload.take 63).length, leaf := false, payload := (b.nodes.getD nid default).payload.take 63 }).nodes).set ((b.nodes.getD nid default).payload.getD 63 default).pivot ({ Btree127.getNode (Btree127.setNode { b with nodes := b.nodes ++ [({ next := Btree127.invalidNode, prev := Btree127.invalidNode, parent := Btree127.invalidNode, count := 0, leaf := false, payload := [] } : Btree127.BNode)] } b.nodes.length { next := ((b.nodes.getD nid default).payload.getD 63 default).pivot, prev := Btree127.invalidNode, parent := (b.nodes.getD nid default).parent, count := ((b.nodes.getD nid default).payload.take 63).length, leaf := false, payload := (b.nodes.getD nid default).payload.take 63 }) ((b.nodes.getD nid default).payload.getD 63 default).pivot with parent := b.nodes.length } : Btree127.BNode)).getD ((b.nodes.getD nid default).payload.getD 63 default).pivot default = _
    rw [getDset_eq _ _ _ (by rw [hB2len]; omega)]
    show { (Btree127.setNode { b with nodes := b.nodes ++ [({ next := Btree127.invalidNode, prev := Btree127.invalidNode, parent := Btree127.invalidNode, count := 0, leaf := false, payload := [] } : Btree127.BNode)] } b.nodes.length { next := ((b.nodes.getD nid default).payload.getD 63 default).pivot, prev := Btree127.invalidNode, parent := (b.nodes.getD nid default).parent, count := ((b.nodes.getD nid default).payload.take 63).length, leaf := false, payload := (b.nodes.getD nid default).payload.take 63 }).nodes.getD ((b.nodes.getD nid default).payload.getD 63 default).pivot default with parent := b.nodes.length } = _
    rw [hB2getD _ (by omega)]
  have hX : ({ Btree127.getNode (((b.nodes.getD nid default).payload.take 63).foldl (fun acc e => Btree127.setNode acc e.pivot { Btree127.getNode acc e.pivot with parent := b.nodes.length }) (Btree127.setNode (Btree127.setNode { b with nodes := b.nodes ++ [({ next := Btree127.invalidNode, prev := Btree127.invalidNode, parent := Btree127.invalidNode, count := 0, leaf := false, payload := [] } : Btree127.BNode)] } b.nodes.length { next := ((b.nodes.getD nid default).payload.getD 63 default).pivot, prev := Btree127.invalidNode, parent := (b.nodes.getD nid default).parent, count := ((b.nodes.getD nid default).payload.take 63).length, leaf := false, payload := (b.nodes.getD nid default).payload.take 63 }) ((b.nodes.getD nid default).payload.getD 63 default).pivot { Btree127.getNode (Btree127.setNode { b with nodes := b.nodes ++ [({ next := Btree127.invalidNode, prev := Btree127.invalidNode, parent := Btree127.invalidNode, count := 0, leaf := false, payload := [] } : Btree127.BNode)] } b.nodes.length { next := ((b.nodes.getD nid default).payload.getD 63 default).pivot, prev := Btree127.invalidNode, parent := (b.nodes.getD nid default).parent, count := ((b.nodes.getD nid default).payload.take 63).length, leaf := false, payload := (b.nodes.getD nid default).payload.take 63 }) ((b.nodes.getD nid default).payload.getD 63 default).pivot with parent := b.nodes.length })) nid with payload := (b.nodes.getD nid default).payload.drop (63 + 1), count := ((b.nodes.getD nid default).payload.drop (63 + 1)).length } : Btree127.BNode) = { (b.nodes.getD nid default) with payload := (b.nodes.getD nid default).payload.drop (63 + 1), count := ((b.nodes.getD nid default).payload.drop (63 + 1)).length } := by
    show { (((b.nodes.getD nid default).payload.take 63).foldl (fun acc e => Btree127.setNode acc e.pivot { Btree127.getNode acc e.pivot with parent := b.nodes.length }) (Btree127.setNode (Btree127.setNode { b with nodes := b.nodes ++ [({ next := Btree127.invalidNode, prev := Btree127.invalidNode, parent := Btree127.invalidNode, count := 0, leaf := false, payload := [] } : Btree127.BNode)] } b.nodes.length { next := ((b.nodes.getD nid default).payload.getD 63 default).pivot, prev := Btree127.invalidNode, parent := (b.nodes.getD nid default).parent, count := ((b.nodes.getD nid default).payload.take 63).length, leaf := false, payload := (b.nodes.getD nid default).payload.take 63 }) ((b.nodes.getD nid default).payload.getD 63 default).pivot { Btree127.getNode (Btree127.setNode { b with nodes := b.nodes ++ [({ next := Btree127.invalidNode, prev := Btree127.invalidNode, parent := Btree127.invalidNode, count := 0, leaf := false, payload := [] } : Btree127.BNode)] } b.nodes.length { next := ((b.nodes.getD nid default).payload.getD 63 default).pivot, prev := Btree127.invalidNode, parent := (b.nodes.getD nid default).parent, count := ((b.nodes.getD nid default).payload.take 63).length, leaf := false, payload := (b.nodes.getD nid default).payload.take 63 }) ((b.nodes.getD nid default).payload.getD 63 default).pivot with parent := b.nodes.length })).nodes.getD nid default with payload := (b.nodes.getD nid default).payload.drop (63 + 1), count := ((b.nodes.getD nid default).payload.drop (63 + 1)).length } = _
    rw [hfg nid, if_neg (fun hc => hnid_np hc.1), hB3getD nid (Ne.symm hpv_ne), hB2getD nid (by omega)]
  refine ⟨by rw [hns], ?_, ?_, ?_, ?_⟩
  · rw [hns]
    show ((((b.nodes.getD nid default).payload.take 63).foldl (fun acc e => Btree127.setNode acc e.pivot { Btree127.getNode acc e.pivot with parent := b.nodes.length }) (Btree127.setNode (Btree127.setNode { b with nodes := b.nodes ++ [({ next := Btree127.invalidNode, prev := Btree127.invalidNode, parent := Btree127.invalidNode, count := 0, leaf := false, payload := [] } : Btree127.BNode)] } b.nodes.length { next := ((b.nodes.getD nid default).payload.getD 63 default).pivot, prev := Btree127.invalidNode, parent := (b.nodes.getD nid default).parent, count := ((b.nodes.getD nid default).payload.take 63).length, leaf := false, payload := (b.nodes.getD nid default).payload.take 63 }) ((b.nodes.getD nid default).payload.getD 63 default).pivot { Btree127.getNode (Btree127.setNode { b with nodes := b.nodes ++ [({ next := Btree127.invalidNode, prev := Btree127.invalidNode, parent := Btree127.invalidNode, count := 0, leaf := false, payload := [] } : Btree127.BNode)] } b.nodes.length { next := ((b.nodes.getD nid default).payload.getD 63 default).pivot, prev := Btree127.invalidNode, parent := (b.nodes.getD nid default).parent, count := ((b.nodes.getD nid default).payload.take 63).length, leaf := false, payload := (b.nodes.getD nid default).payload.take 63 }) ((b.nodes.getD nid default).payload.getD 63 default).pivot with parent := b.nodes.length }))).rootId = b.rootId
    rw [hfr]
    rfl
  · rw [hns]
    show ((((b.nodes.getD nid default).payload.take 63).foldl (fun acc e => Btree127.setNode acc e.pivot { Btree127.getNode acc e.pivot with parent := b.nodes.length }) (Btree127.setNode (Btree127.setNode { b with nodes := b.nodes ++ [({ next := Btree127.invalidNode, prev := Btree127.invalidNode, parent := Btree127.invalidNode, count := 0, leaf := false, payload := [] } : Btree127.BNode)] } b.nodes.length { next := ((b.nodes.getD nid default).payload.getD 63 default).pivot, prev := Btree127.invalidNode, parent := (b.nodes.getD nid default).parent, count := ((b.nodes.getD nid default).payload.take 63).length, leaf := false, payload := (b.nodes.getD nid default).payload.take 63 }) ((b.nodes.getD nid default).payload.getD 63 default).pivot { Btree127.getNode (Btree127.setNode { b with nodes := b.nodes ++ [({ next := Btree127.invalidNode, prev := Btree127.invalidNode, parent := Btree127.invalidNode, count := 0, leaf := false, payload := [] } : Btree127.BNode)] } b.nodes.length { next := ((b.nodes.getD nid default).payload.getD 63 default).pivot, prev := Btree127.invalidNode, parent := (b.nodes.getD nid default).parent, count := ((b.nodes.getD nid default).payload.take 63).length, leaf := false, payload := (b.nodes.getD nid default).payload.take 63 }) ((b.nodes.getD nid default).payload.getD 63 default).pivot with parent := b.nodes.length }))).count = b.count
    rw [hfc]
    rfl
  · rw [hns]
    show (((((b.nodes.getD nid default).payload.take 63).foldl (fun acc e => Btree127.setNode acc e.pivot { Btree127.getNode acc e.pivot with parent := b.nodes.length }) (Btree127.setNode (Btree127.setNode { b with nodes := b.nodes ++ [({ next := Btree127.invalidNode, prev := Btree127.invalidNode, parent := Btree127.invalidNode, count := 0, leaf := false, payload := [] } : Btree127.BNode)] } b.nodes.length { next := ((b.nodes.getD nid default).payload.getD 63 default).pivot, prev := Btree127.invalidNode, parent := (b.nodes.getD nid default).parent, count := ((b.nodes.getD nid default).payload.take 63).length, leaf := false, payload := (b.nodes.getD nid default).payload.take 63 }) ((b.nodes.getD nid default).payload.getD 63 default).pivot { Btree127.getNode (Btree127.setNode { b with nodes := b.nodes ++ [({ next := Btree127.invalidNode, prev := Btree127.invalidNode, parent := Btree127.invalidNode, count := 0, leaf := false, payload := [] } : Btree127.BNode)] } b.nodes.length { next := ((b.nodes.getD nid default).payload.getD 63 default).pivot, prev := Btree127.invalidNode, parent := (b.nodes.getD nid default).parent, count := ((b.nodes.getD nid default).payload.take 63).length, leaf := false, payload := (b.nodes.getD nid default).payload.take 63 }) ((b.nodes.getD nid default).payload.getD 63 default).pivot with parent := b.nodes.length }))).nodes.set nid { Btree127.getNode (((b.nodes.getD nid default).payload.take 63).foldl (fun acc e => Btree127.setNode acc e.pivot { Btree127.getNode acc e.pivot with parent := b.nodes.length }) (Btree127.setNode (Btree127.setNode { b with nodes := b.nodes ++ [({ next := Btree127.invalidNode, prev := Btree127.invalidNode, parent := Btree127.invalidNode, count := 0, leaf := false, payload := [] } : Btree127.BNode)] } b.nodes.length { next := ((b.nodes.getD nid default).payload.getD 63 default).pivot, prev := Btree127.invalidNode, parent := (b.nodes.getD nid default).parent, count := ((b.nodes.getD nid default).payload.take 63).length, leaf := false, payload := (b.nodes.getD nid default).payload.take 63 }) ((b.nodes.getD nid default).payload.getD 63 default).pivot { Btree127.getNode (Btree127.setNode { b with nodes := b.nodes ++ [({ next := Btree127.invalidNode, prev := Btree127.invalidNode, parent := Btree127.invalidNode, count := 0, leaf := false, payload := [] } : Btree127.BNode)] } b.nodes.length { next := ((b.nodes.getD nid default).payload.getD 63 default).pivot, prev := Btree127.invalidNode, parent := (b.nodes.getD nid default).parent, count := ((b.nodes.getD nid default).payload.take 63).length, leaf := false, payload := (b.nodes.getD nid default).payload.take 63 }) ((b.nodes.getD nid default).payload.getD 63 default).pivot with parent := b.nodes.length })) nid with payload := (b.nodes.getD nid default).payload.drop (63 + 1), count := ((b.nodes.getD nid default).payload.drop (63 + 1)).length }).length = _
    rw [List.length_set, hfl, hB3len]
  · intro i
    rw [hns]
    show (((((b.nodes.getD nid default).payload.take 63).foldl (fun acc e => Btree127.setNode acc e.pivot { Btree127.getNode acc e.pivot with parent := b.nodes.length }) (Btree127.setNode (Btree127.setNode { b with nodes := b.nodes ++ [({ next := Btree127.invalidNode, prev := Btree127.invalidNode, parent := Btree127.invalidNode, count := 0, leaf := false, payload := [] } : Btree127.BNode)] } b.nodes.length { next := ((b.nodes.getD nid default).payload.getD 63 default).pivot, prev := Btree127.invalidNode, parent := (b.nodes.getD nid default).parent, count := ((b.nodes.getD nid default).payload.take 63).length, leaf := false, payload := (b.nodes.getD nid default).payload.take 63 }) ((b.nodes.getD nid default).payload.getD 63 default).pivot { Btree127.getNode (Btree127.setNode { b with nodes := b.nodes ++ [({ next := Btree127.invalidNode, prev := Btree127.invalidNode, parent := Btree127.invalidNode, count := 0, leaf := false, payload := [] } : Btree127.BNode)] } b.nodes.length { next := ((b.nodes.getD nid default).payload.getD 63 default).pivot, prev := Btree127.invalidNode, parent := (b.nodes.getD nid default).parent, count := ((b.nodes.getD nid default).payload.take 63).length, leaf := false, payload := (b.nodes.getD nid default).payload.take 63 }) ((b.nodes.getD nid default).payload.getD 63 default).pivot with parent := b.nodes.length }))).nodes.set nid { Btree127.getNode (((b.nodes.getD nid default).payload.take 63).foldl (fun acc e => Btree127.setNode acc e.pivot { Btree127.getNode acc e.pivot with parent := b.nodes.length }) (Btree127.setNode (Btree127.setNode { b with nodes := b.nodes ++ [({ next := Btree127.invalidNode, prev := Btree127.invalidNode, parent := Btree127.invalidNode, count := 0, leaf := false, payload := [] } : Btree127.BNode)] } b.nodes.length { next := ((b.nodes.getD nid default).payload.getD 63 default).pivot, prev := Btree127.invalidNode, parent := (b.nodes.getD nid default).parent, count := ((b.nodes.getD nid default).payload.take 63).length, leaf := false, payload := (b.nodes.getD nid default).payload.take 63 }) ((b.nodes.getD nid default).payload.getD 63 default).pivot { Btree127.getNode (Btree127.setNode { b with nodes := b.nodes ++ [({ next := Btree127.invalidNode, prev := Btree127.invalidNode, parent := Btree127.invalidNode, count := 0, leaf := false, payload := [] } : Btree127.BNode)] } b.nodes.length { next := ((b.nodes.getD nid default).payload.getD 63 default).pivot, prev := Btree127.invalidNode, parent := (b.nodes.getD nid default).parent, count := ((b.nodes.getD nid default).payload.take 63).length, leaf := false, payload := (b.nodes.getD nid default).payload.take 63 }) ((b.nodes.getD nid default).payload.getD 63 default).pivot with parent := b.nodes.length })) nid with payload := (b.nodes.getD nid default).payload.drop (63 + 1), count := ((b.nodes.getD nid default).payload.drop (63 + 1)).length }).getD i default = _
    by_cases h1 : i = nid
    · rw [h1, getDset_eq _ _ _ (by rw [hfl, hB3len]; omega), hX, if_pos rfl]
    · rw [getDset_ne _ _ _ _ (Ne.symm h1), if_neg h1, hfg i]
      by_cases h2 : i = b.nodes.length
      · rw [if_pos h2]
        rw [if_neg (show ¬ (i ∈ ((b.nodes.getD nid default).payload.take 63).map EntryP.T.pivot ∧ i < (Btree127.setNode (Btree127.setNode { b with nodes := b.nodes ++ [({ next := Btree127.invalidNode, prev := Btree127.invalidNode, parent := Btree127.invalidNode, count := 0, leaf := false, payload := [] } : Btree127.BNode)] } b.nodes.length { next := ((b.nodes.getD nid default).payload.getD 63 default).pivot, prev := Btree127.invalidNode, parent := (b.nodes.getD nid default).parent, count := ((b.nodes.getD nid default).payload.take 63).length, leaf := false, payload := (b.nodes.getD nid default).payload.take 63 }) ((b.nodes.getD nid default).payload.getD 63 default).pivot { Btree127.getNode (Btree127.setNode { b with nodes := b.nodes ++ [({ next := Btree127.invalidNode, prev := Btree127.invalidNode, parent := Btree127.invalidNode, count := 0, leaf := false, payload := [] } : Btree127.BNode)] } b.nodes.length { next := ((b.nodes.getD nid default).payload.getD 63 default).pivot, prev := Btree127.invalidNode, parent := (b.nodes.getD nid default).parent, count := ((b.nodes.getD nid default).payload.take 63).length, leaf := false, payload := (b.nodes.getD nid default).payload.take 63 }) ((b.nodes.getD nid default).payload.getD 63 default).pivot with parent := b.nodes.length }).nodes.length) from
          fun hc => by
            have := (hpl i (List.mem_append_left _ hc.1)).1
            omega)]
        rw [hB3getD i (by omega), h2, hB2s]
      · rw [if_neg h2]
        by_cases h4 : i ∈ ((b.nodes.getD nid default).payload.take 63).map EntryP.T.pivot
        · have hilt : i < b.nodes.length :=
            (hpl i (List.mem_append_left _ h4)).1
          rw [if_pos (And.intro h4 (by rw [hB3len]; omega))]
          have h3 : i ∈ ((b.nodes.getD nid default).payload.take 63).map EntryP.T.pivot ++ [((b.nodes.getD nid default).payload.getD 63 default).pivot] := List.mem_append_left _ h4
          by_cases h5 : i = ((b.nodes.getD nid default).payload.getD 63 default).pivot
          · have h6 : ((Btree127.setNode (Btree127.setNode { b with nodes := b.nodes ++ [({ next := Btree127.invalidNode, prev := Btree127.invalidNode, parent := Btree127.invalidNode, count := 0, leaf := false, payload := [] } : Btree127.BNode)] } b.nodes.length { next := ((b.nodes.getD nid default).payload.getD 63 default).pivot, prev := Btree127.invalidNode, parent := (b.nodes.getD nid default).parent, count := ((b.nodes.getD nid default).payload.take 63).length, leaf := false, payload := (b.nodes.getD nid default).payload.take 63 }) ((b.nodes.getD nid default).payload.getD 63 default).pivot { Btree127.getNode (Btree127.setNode { b with nodes := b.nodes ++ [({ next := Btree127.invalidNode, prev := Btree127.invalidNode, parent := Btree127.invalidNode, count := 0, leaf := false, payload := [] } : Btree127.BNode)] } b.nodes.length { next := ((b.nodes.getD nid default).payload.getD 63 default).pivot, prev := Btree127.invalidNode, parent := (b.nodes.getD nid default).parent, count := ((b.nodes.getD nid default).payload.take 63).length, leaf := false, payload := (b.nodes.getD nid default).payload.take 63 }) ((b.nodes.getD nid default).payload.getD 63 default).pivot with parent := b.nodes.length }).nodes.getD i default) =
                { b.nodes.getD i default with parent := b.nodes.length } := by
              rw [h5]
              exact hB3pv
            rw [h6, if_pos h3]
          · have h6 : ((Btree127.setNode (Btree127.setNode { b with nodes := b.nodes ++ [({ next := Btree127.invalidNode, prev := Btree127.invalidNode, parent := Btree127.invalidNode, count := 0, leaf := false, payload := [] } : Btree127.BNode)] } b.nodes.length { next := ((b.nodes.getD nid default).payload.getD 63 default).pivot, prev := Btree127.invalidNode, parent := (b.nodes.getD nid default).parent, count := ((b.nodes.getD nid default).payload.take 63).length, leaf := false, payload := (b.nodes.getD nid default).payload.take 63 }) ((b.nodes.getD nid default).payload.getD 63 default).pivot { Btree127.getNode (Btree127.setNode { b with nodes := b.nodes ++ [({ next := Btree127.invalidNode, prev := Btree127.invalidNode, parent := Btree127.invalidNode, count := 0, leaf := false, payload := [] } : Btree127.BNode)] } b.nodes.length { next := ((b.nodes.getD nid default).payload.getD 63 default).pivot, prev := Btree127.invalidNode, parent := (b.nodes.getD nid default).parent, count := ((b.nodes.getD nid default).payload.take 63).length, leaf := false, payload := (b.nodes.getD nid default).payload.take 63 }) ((b.nodes.getD nid default).payload.getD 63 default).pivot with parent := b.nodes.length }).nodes.getD i default) =
                b.nodes.getD i default := by
              rw [hB3getD i h5, hB2getD i h2]
            rw [h6, if_pos h3]
        · by_cases h5 : i = ((b.nodes.getD nid default).payload.getD 63 default).pivot
          · have h3 : i ∈ ((b.nodes.getD nid default).payload.take 63).map EntryP.T.pivot ++ [((b.nodes.getD nid default).payload.getD 63 default).pivot] := by
              rw [h5]
              exact List.mem_append_right _ (by simp)
            rw [if_neg (fun hc => h4 hc.1)]
            have h6 : ((Btree127.setNode (Btree127.setNode { b with nodes := b.nodes ++ [({ next := Btree127.invalidNode, prev := Btree127.invalidNode, parent := Btree127.invalidNode, count := 0, leaf := false, payload := [] } : Btree127.BNode)] } b.nodes.length { next := ((b.nodes.getD nid default).payload.getD 63 default).pivot, prev := Btree127.invalidNode, parent := (b.nodes.getD nid default).parent, count := ((b.nodes.getD nid default).payload.take 63).length, leaf := false, payload := (b.nodes.getD nid default).payload.take 63 }) ((b.nodes.getD nid default).payload.getD 63 default).pivot { Btree127.getNode (Btree127.setNode { b with nodes := b.nodes ++ [({ next := Btree127.invalidNode, prev := Btree127.invalidNode, parent := Btree127.invalidNode, count := 0, leaf := false, payload := [] } : Btree127.BNode)] } b.nodes.length { next := ((b.nodes.getD nid default).payload.getD 63 default).pivot, prev := Btree127.invalidNode, parent := (b.nodes.getD nid default).parent, count := ((b.nodes.getD nid default).payload.take 63).length, leaf := false, payload := (b.nodes.getD nid default).payload.take 63 }) ((b.nodes.getD nid default).payload.getD 63 default).pivot with parent := b.nodes.length }).nodes.getD i default) =
                { b.nodes.getD i default with parent := b.nodes.length } := by
              rw [h5]
              exact hB3pv
            rw [h6, if_pos h3]
          · have h3 : i ∉ ((b.nodes.getD nid default).payload.take 63).map EntryP.T.pivot ++ [((b.nodes.getD nid default).payload.getD 63 default).pivot] := by
              intro hc
              rcases List.mem_append.mp hc with h | h
              · exact h4 h
              · exact h5 (by simpa using h)
            rw [if_neg (fun hc => h4 hc.1), hB3getD i h5, hB2getD i h2,
              if_neg h3]

/-- The child ids an inner payload induces, in slot order. -/
theorem canonKids_cids (buf : List Nat) :
    ∀ (payload : List EntryP.T) (rm : Nat) (lo hi : Option (List Nat)),
      (canonKids buf payload rm lo hi).map (fun x => x.1) =
        payload.map EntryP.T.pivot ++ [rm] := by
  intro payload
  induction payload with
  | nil => intro rm lo hi; rfl
  | cons e rest ih =>
    intro rm lo hi
    show e.pivot :: (canonKids buf rest rm (some (ekey buf e)) hi).map
      (fun x => x.1) = _
    rw [ih rm (some (ekey buf e)) hi]
    rfl

/-- In a duplicate-free kid list, a strict descendant of one kid is no
kid's child id. -/
theorem kids_sep :
    ∀ (ks : List Kid), ((ks.map Kid.ids).flatten).Nodup →
      (∀ k ∈ ks, k.cid ∈ k.ids) →
      ∀ k ∈ ks, ∀ i ∈ k.ids, i ≠ k.cid → ∀ k2 ∈ ks, i ≠ k2.cid := by
  intro ks
  induction ks with
  | nil => intro _ _ k hk; simp at hk
  | cons k0 rest ih =>
    intro hnd hcm k hk i hi hne k2 hk2
    rw [List.map_cons, List.flatten_cons, List.nodup_append] at hnd
    obtain ⟨hnd0, hndr, hdisj⟩ := hnd
    rcases List.mem_cons.mp hk with hkc | hkc <;>
      rcases List.mem_cons.mp hk2 with hk2c | hk2c
    · rw [hkc] at hne
      rw [hk2c]
      rw [hkc] at hi
      exact hne
    · intro hc
      rw [hkc] at hi
      rw [hc] at hi
      refine hdisj hi ?_
      rw [List.mem_flatten]
      exact ⟨k2.ids, List.mem_map_of_mem Kid.ids hk2c,
        hcm k2 (List.mem_cons_of_mem _ hk2c)⟩
    · intro hc
      rw [hk2c] at hc
      rw [hc] at hi
      refine hdisj (hcm k0 (by simp)) ?_
      rw [List.mem_flatten]
      exact ⟨k.ids, List.mem_map_of_mem Kid.ids hkc, hi⟩
    · exact ih hndr (fun k3 hk3 => hcm k3 (List.mem_cons_of_mem _ hk3))
        k hkc i hi hne k2 hk2c

/-- Ids of the two halves of a kid list are disjoint. -/
theorem kids_halves_disjoint (ks : List Kid) (j : Nat)
    (hnd : ((ks.map Kid.ids).flatten).Nodup) :
    ∀ i, i ∈ ((ks.take j).map Kid.ids).flatten →
      i ∈ ((ks.drop j).map Kid.ids).flatten → False := by
  intro i h1 h2
  have hsplit : (ks.map Kid.ids).flatten =
      ((ks.take j).map Kid.ids).flatten ++
        ((ks.drop j).map Kid.ids).flatten := by
    conv_lhs => rw [← List.take_append_drop j ks]
    rw [List.map_append, List.flatten_append]
  rw [hsplit, List.nodup_append] at hnd
  exact hnd.2.2 h1 h2

/-- Everything grafted into a spine's hole avoids the spine's own nodes
when the total id list is duplicate-free. -/
theorem graft_disjoint :
    ∀ (spine : List Frm) (x : List Nat), (graftIds spine x).Nodup →
      ∀ i ∈ x, i ∉ spineNodes spine := by
  intro spine
  induction spine with
  | nil => intro x _ i _; simp [spineNodes]
  | cons f rest ih =>
    intro x hnd i hi
    have hfi : i ∈ frmIds f x := by
      simp only [frmIds, List.mem_cons, List.mem_append]
      right
      left
      right
      exact hi
    have hfrm : (frmIds f x).Nodup := graftIds_nodup_down rest _ hnd
    simp only [spineNodes, List.mem_append, not_or]
    refine ⟨?_, ih (frmIds f x) hnd i hfi⟩
    rw [frmIds, List.nodup_cons] at hfrm
    obtain ⟨hpid, htail⟩ := hfrm
    rw [List.nodup_append] at htail
    obtain ⟨hpx, hpost, hdisj2⟩ := htail
    rw [List.nodup_append] at hpx
    obtain ⟨hpren, hxn, hdisj1⟩ := hpx
    simp only [frmNodes, List.mem_cons, List.map_append,
      List.flatten_append, List.mem_append, not_or]
    refine ⟨?_, ?_, ?_⟩
    · intro hc
      refine hpid ?_
      rw [← hc]
      exact List.mem_append_left _ (List.mem_append_right _ hi)
    · intro hc
      exact hdisj1 hc hi
    · intro hc
      exact hdisj2 (List.mem_append_right _ hi) hc

/-- Inner split, subtree level: splitting a full (127-entry) inner node
whose 128 slots carry represented height-`h` subtrees yields two
represented height-`h+1` halves around the median separator, both
pointing at the old parent; records elsewhere keep their payload and
chain fields, and parent pointers change only inside the split subtree. -/
theorem split_inner_rep (buf : List Nat) (b : Btree127.T) (nid h : Nat)
    (lo hi : Option (List Nat)) (ks : List Kid)
    (hlt : nid < b.nodes.length)
    (hleaf : (b.nodes.getD nid default).leaf = false)
    (hcnt : (b.nodes.getD nid default).count = (b.nodes.getD nid default).payload.length)
    (hfull : (b.nodes.getD nid default).payload.length = 127)
    (hwf : ∀ e ∈ (b.nodes.getD nid default).payload, WfE buf e)
    (hshape : KidsShape buf (b.nodes.getD nid default).payload (b.nodes.getD nid default).next lo hi ks)
    (hreps : ∀ k ∈ ks, Rep buf b.nodes h k.cid k.lo k.hi k.ids k.lvs k.es)
    (hpark : ∀ k ∈ ks, (b.nodes.getD k.cid default).parent = nid)
    (hnd : (nid :: (ks.map Kid.ids).flatten).Nodup) :
    (Btree127.split b nid).2 = b.nodes.length ∧
    (Btree127.split b nid).1.rootId = b.rootId ∧
    (Btree127.split b nid).1.count = b.count ∧
    (Btree127.split b nid).1.nodes.length = b.nodes.length + 1 ∧
    Rep buf (Btree127.split b nid).1.nodes (h + 1) b.nodes.length lo (some (ekey buf ((b.nodes.getD nid default).payload.getD 63 default)))
      (b.nodes.length :: ((ks.take 64).map Kid.ids).flatten)
      (((ks.take 64).map Kid.lvs).flatten)
      (((ks.take 64).map Kid.es).flatten) ∧
    Rep buf (Btree127.split b nid).1.nodes (h + 1) nid (some (ekey buf ((b.nodes.getD nid default).payload.getD 63 default))) hi
      (nid :: ((ks.drop 64).map Kid.ids).flatten)
      (((ks.drop 64).map Kid.lvs).flatten)
      (((ks.drop 64).map Kid.es).flatten) ∧
    (ks.map Kid.ids).flatten =
      ((ks.take 64).map Kid.ids).flatten ++
        ((ks.drop 64).map Kid.ids).flatten ∧
    (ks.map Kid.lvs).flatten =
      ((ks.take 64).map Kid.lvs).flatten ++
        ((ks.drop 64).map Kid.lvs).flatten ∧
    (ks.map Kid.es).flatten =
      ((ks.take 64).map Kid.es).flatten ++
        ((ks.drop 64).map Kid.es).flatten ∧
    ((Btree127.split b nid).1.nodes.getD b.nodes.length default).parent = (b.nodes.getD nid default).parent ∧
    ((Btree127.split b nid).1.nodes.getD nid default).parent = (b.nodes.getD nid default).parent ∧
    (∀ i, i ≠ nid → i ≠ b.nodes.length →
      peq ((Btree127.split b nid).1.nodes.getD i default) (b.nodes.getD i default)) ∧
    (∀ i, i ≠ b.nodes.length →
      ((Btree127.split b nid).1.nodes.getD i default).next = (b.nodes.getD i default).next ∧
      ((Btree127.split b nid).1.nodes.getD i default).prev = (b.nodes.getD i default).prev) ∧
    (∀ i, i ∉ nid :: (ks.map Kid.ids).flatten → i ≠ b.nodes.length →
      ((Btree127.split b nid).1.nodes.getD i default).parent = (b.nodes.getD i default).parent) := by
  have hndflat : ((ks.map Kid.ids).flatten).Nodup := (List.nodup_cons.mp hnd).2
  have hnidflat : nid ∉ (ks.map Kid.ids).flatten := (List.nodup_cons.mp hnd).1
  have hcm : ∀ k ∈ ks, k.cid ∈ k.ids := fun k hk =>
    Rep_nid_mem buf h b.nodes k.cid k.lo k.hi k.ids k.lvs k.es (hreps k hk)
  have hkslen : ks.length = 128 := by
    have := congrArg List.length hshape
    rw [List.length_map, canonKids_length, hfull] at this
    exact this
  have hcids : ks.map Kid.cid = (b.nodes.getD nid default).payload.map EntryP.T.pivot ++ [(b.nodes.getD nid default).next] := by
    have h1 := congrArg (List.map (fun x :
      Nat × Option (List Nat) × Option (List Nat) => x.1)) hshape
    rw [List.map_map, canonKids_cids] at h1
    exact h1
  have hLC : ((b.nodes.getD nid default).payload.take 63).map EntryP.T.pivot ++ [((b.nodes.getD nid default).payload.getD 63 default).pivot] =
      (ks.take 64).map Kid.cid := by
    have h1 : (ks.take 64).map Kid.cid = (ks.map Kid.cid).take 64 := by
      rw [List.map_take]
    rw [h1, hcids]
    have h2 : ((b.nodes.getD nid default).payload.map EntryP.T.pivot ++ [(b.nodes.getD nid default).next]).take 64 =
        ((b.nodes.getD nid default).payload.map EntryP.T.pivot).take 64 := by
      rw [List.take_append_of_le_length]
      rw [List.length_map, hfull]
      omega
    rw [h2, ← List.map_take]
    have h3 : (b.nodes.getD nid default).payload.take 64 = (b.nodes.getD nid default).payload.take 63 ++ [(b.nodes.getD nid default).payload.getD 63 default] := by
      rw [List.take_succ, List.getD_eq_getElem _ default (by omega : (63 : Nat) < (b.nodes.getD nid default).payload.length)]
      rw [List.getElem?_eq_getElem (by omega : (63 : Nat) < (b.nodes.getD nid default).payload.length)]
      rfl
    rw [h3, List.map_append]
    rfl
  have hmemLC : ∀ i, i ∈ ((b.nodes.getD nid default).payload.take 63).map EntryP.T.pivot ++ [((b.nodes.getD nid default).payload.getD 63 default).pivot] ↔
      ∃ k ∈ ks.take 64, i = k.cid := by
    intro i
    rw [hLC]
    constructor
    · intro hmem
      obtain ⟨k, hk, hik⟩ := List.mem_map.mp hmem
      exact ⟨k, hk, hik.symm⟩
    · intro ⟨k, hk, hik⟩
      rw [hik]
      exact List.mem_map_of_mem Kid.cid hk
  have hflatsplit : ∀ (f : Kid → List Nat), (ks.map f).flatten =
      ((ks.take 64).map f).flatten ++ ((ks.drop 64).map f).flatten := by
    intro f
    conv_lhs => rw [← List.take_append_drop 64 ks]
    rw [List.map_append, List.flatten_append]
  have hflatsplitE : (ks.map Kid.es).flatten =
      ((ks.take 64).map Kid.es).flatten ++
        ((ks.drop 64).map Kid.es).flatten := by
    conv_lhs => rw [← List.take_append_drop 64 ks]
    rw [List.map_append, List.flatten_append]
  have hidsub : ∀ k ∈ ks, ∀ i ∈ k.ids, i ∈ (ks.map Kid.ids).flatten := by
    intro k hk i hi
    rw [List.mem_flatten]
    exact ⟨k.ids, List.mem_map_of_mem Kid.ids hk, hi⟩
  have hidlt : ∀ k ∈ ks, ∀ i ∈ k.ids, i < b.nodes.length := by
    intro k hk i hi
    exact (Rep_agg buf h b.nodes k.cid k.lo k.hi k.ids k.lvs k.es
      (hreps k hk)).idsLt i hi
  have hpl : ∀ p ∈ ((b.nodes.getD nid default).payload.take 63).map EntryP.T.pivot ++ [((b.nodes.getD nid default).payload.getD 63 default).pivot],
      p < b.nodes.length ∧ p ≠ nid := by
    intro p hp
    obtain ⟨k, hk, hpk⟩ := (hmemLC p).mp hp
    have hkks : k ∈ ks := List.mem_of_mem_take hk
    refine ⟨?_, ?_⟩
    · rw [hpk]
      exact Rep_nid_lt buf h b.nodes k.cid k.lo k.hi k.ids k.lvs k.es
        (hreps k hkks)
    · intro hc
      rw [hc] at hpk
      exact hnidflat (hpk ▸ hidsub k hkks k.cid (hcm k hkks))
  obtain ⟨hs2, hroot, hcount, hlen2, hchar⟩ :=
    split_inner_spec b nid hlt hleaf hpl
  have hnidlen : nid ≠ b.nodes.length := by omega
  have hset_nid : (Btree127.split b nid).1.nodes.getD nid default = { (b.nodes.getD nid default) with payload := (b.nodes.getD nid default).payload.drop (63 + 1), count := ((b.nodes.getD nid default).payload.drop (63 + 1)).length } := by
    rw [hchar nid, if_pos rfl]
  have hset_len : (Btree127.split b nid).1.nodes.getD b.nodes.length default = { next := ((b.nodes.getD nid default).payload.getD 63 default).pivot, prev := Btree127.invalidNode, parent := (b.nodes.getD nid default).parent, count := ((b.nodes.getD nid default).payload.take 63).length, leaf := false, payload := (b.nodes.getD nid default).payload.take 63 } := by
    rw [hchar b.nodes.length, if_neg (Ne.symm hnidlen), if_pos rfl]
  have hset_lc : ∀ i ∈ ((b.nodes.getD nid default).payload.take 63).map EntryP.T.pivot ++ [((b.nodes.getD nid default).payload.getD 63 default).pivot],
      (Btree127.split b nid).1.nodes.getD i default =
        { b.nodes.getD i default with parent := b.nodes.length } := by
    intro i hi
    obtain ⟨hilt, hinid⟩ := hpl i hi
    rw [hchar i, if_neg hinid, if_neg (by omega), if_pos hi]
  have hset_other : ∀ i, i ≠ nid → i ≠ b.nodes.length →
      i ∉ ((b.nodes.getD nid default).payload.take 63).map EntryP.T.pivot ++ [((b.nodes.getD nid default).payload.getD 63 default).pivot] →
      (Btree127.split b nid).1.nodes.getD i default = b.nodes.getD i default := by
    intro i h1 h2 h3
    rw [hchar i, if_neg h1, if_neg h2, if_neg h3]
  have hsep := kids_sep ks hndflat hcm
  have htk63 : ((b.nodes.getD nid default).payload.take 63).length = 63 := by
    rw [List.length_take]
    omega
  have hdk64 : ((b.nodes.getD nid default).payload.drop (63 + 1)).length = 63 := by
    rw [List.length_drop]
    omega
  -- Rep of the left half
  have hrepL : Rep buf (Btree127.split b nid).1.nodes (h + 1) b.nodes.length lo (some (ekey buf ((b.nodes.getD nid default).payload.getD 63 default)))
      (b.nodes.length :: ((ks.take 64).map Kid.ids).flatten)
      (((ks.take 64).map Kid.lvs).flatten)
      (((ks.take 64).map Kid.es).flatten) := by
    refine ⟨by omega, by rw [hset_len], by rw [hset_len],
      by rw [hset_len]; show 1 ≤ ((b.nodes.getD nid default).payload.take 63).length; omega,
      by rw [hset_len]; show ((b.nodes.getD nid default).payload.take 63).length ≤ 126; omega,
      ?_, ks.take 64, ?_, ?_, ?_, rfl, rfl, rfl, ?_⟩
    · rw [hset_len]
      intro e he
      exact hwf e (List.mem_of_mem_take he)
    · show (ks.take 64).map kidShape =
        canonKids buf ((Btree127.split b nid).1.nodes.getD b.nodes.length default).payload
          ((Btree127.split b nid).1.nodes.getD b.nodes.length default).next lo (some (ekey buf ((b.nodes.getD nid default).payload.getD 63 default)))
      rw [hset_len]
      show (ks.take 64).map kidShape =
        canonKids buf ((b.nodes.getD nid default).payload.take 63) ((b.nodes.getD nid default).payload.getD 63 default).pivot lo (some (ekey buf ((b.nodes.getD nid default).payload.getD 63 default)))
      rw [canonKids_take buf (b.nodes.getD nid default).payload (b.nodes.getD nid default).next lo hi 63 (by omega)]
      rw [← hshape, List.map_take]
    · intro k hk
      have hkks : k ∈ ks := List.mem_of_mem_take hk
      refine Rep_frame buf h b.nodes (Btree127.split b nid).1.nodes k.cid k.lo k.hi k.ids k.lvs
        k.es (hreps k hkks) (by omega) ?_ ?_
      · intro i hi
        have hine : i ≠ nid := by
          intro hc
          rw [hc] at hi
          exact hnidflat (hidsub k hkks nid hi)
        have hilt : i < b.nodes.length := hidlt k hkks i hi
        by_cases hlc : i ∈ ((b.nodes.getD nid default).payload.take 63).map EntryP.T.pivot ++ [((b.nodes.getD nid default).payload.getD 63 default).pivot]
        · rw [hset_lc i hlc]
          exact ⟨rfl, rfl, rfl, fun _ => rfl⟩
        · rw [hset_other i hine (by omega) hlc]
          exact ⟨rfl, rfl, rfl, fun _ => rfl⟩
      · intro i hi hicid
        have hine : i ≠ nid := by
          intro hc
          rw [hc] at hi
          exact hnidflat (hidsub k hkks nid hi)
        have hilt : i < b.nodes.length := hidlt k hkks i hi
        have hlc : i ∉ ((b.nodes.getD nid default).payload.take 63).map EntryP.T.pivot ++ [((b.nodes.getD nid default).payload.getD 63 default).pivot] := by
          intro hc
          obtain ⟨k2, hk2, hik2⟩ := (hmemLC i).mp hc
          exact hsep k hkks i hi hicid k2 (List.mem_of_mem_take hk2) hik2
        rw [hset_other i hine (by omega) hlc]
    · intro k hk
      have hkcid : k.cid ∈ ((b.nodes.getD nid default).payload.take 63).map EntryP.T.pivot ++ [((b.nodes.getD nid default).payload.getD 63 default).pivot] :=
        (hmemLC k.cid).mpr ⟨k, hk, rfl⟩
      rw [hset_lc k.cid hkcid]
    · rw [List.nodup_cons]
      refine ⟨?_, ?_⟩
      · intro hc
        rw [List.mem_flatten] at hc
        obtain ⟨l, hl, hml⟩ := hc
        obtain ⟨k, hk, hkl⟩ := List.mem_map.mp hl
        have := hidlt k (List.mem_of_mem_take hk) b.nodes.length
          (hkl ▸ hml)
        omega
      · refine List.Nodup.sublist ?_ hndflat
        rw [hflatsplit Kid.ids]
        exact List.sublist_append_left _ _
  -- Rep of the right half
  have hrepR : Rep buf (Btree127.split b nid).1.nodes (h + 1) nid (some (ekey buf ((b.nodes.getD nid default).payload.getD 63 default))) hi
      (nid :: ((ks.drop 64).map Kid.ids).flatten)
      (((ks.drop 64).map Kid.lvs).flatten)
      (((ks.drop 64).map Kid.es).flatten) := by
    have hdknotlc : ∀ k ∈ ks.drop 64, ∀ i ∈ k.ids,
        i ∉ ((b.nodes.getD nid default).payload.take 63).map EntryP.T.pivot ++ [((b.nodes.getD nid default).payload.getD 63 default).pivot] := by
      intro k hk i hi hc
      obtain ⟨k2, hk2, hik2⟩ := (hmemLC i).mp hc
      refine kids_halves_disjoint ks 64 hndflat i ?_ ?_
      · rw [List.mem_flatten]
        rw [hik2]
        exact ⟨k2.ids, List.mem_map_of_mem Kid.ids hk2,
          hcm k2 (List.mem_of_mem_take hk2)⟩
      · rw [List.mem_flatten]
        exact ⟨k.ids, List.mem_map_of_mem Kid.ids hk, hi⟩
    refine ⟨by omega, by rw [hset_nid]; exact hleaf,
      by rw [hset_nid], by rw [hset_nid]; show 1 ≤ ((b.nodes.getD nid default).payload.drop (63 + 1)).length; omega,
      by rw [hset_nid]; show ((b.nodes.getD nid default).payload.drop (63 + 1)).length ≤ 126; omega,
      ?_, ks.drop 64, ?_, ?_, ?_, rfl, rfl, rfl, ?_⟩
    · rw [hset_nid]
      intro e he
      exact hwf e (List.mem_of_mem_drop he)
    · show (ks.drop 64).map kidShape =
        canonKids buf ((Btree127.split b nid).1.nodes.getD nid default).payload
          ((Btree127.split b nid).1.nodes.getD nid default).next (some (ekey buf ((b.nodes.getD nid default).payload.getD 63 default))) hi
      rw [hset_nid]
      show (ks.drop 64).map kidShape =
        canonKids buf ((b.nodes.getD nid default).payload.drop (63 + 1)) (b.nodes.getD nid default).next (some (ekey buf ((b.nodes.getD nid default).payload.getD 63 default))) hi
      rw [canonKids_drop buf (b.nodes.getD nid default).payload (b.nodes.getD nid default).next lo hi 63 (by omega)]
      rw [← hshape, List.map_drop]
    · intro k hk
      have hkks : k ∈ ks := List.mem_of_mem_drop hk
      refine Rep_frame buf h b.nodes (Btree127.split b nid).1.nodes k.cid k.lo k.hi k.ids k.lvs
        k.es (hreps k hkks) (by omega) ?_ ?_
      · intro i hi
        have hine : i ≠ nid := by
          intro hc
          rw [hc] at hi
          exact hnidflat (hidsub k hkks nid hi)
        have hilt : i < b.nodes.length := hidlt k hkks i hi
        rw [hset_other i hine (by omega) (hdknotlc k hk i hi)]
        exact ⟨rfl, rfl, rfl, fun _ => rfl⟩
      · intro i hi hicid
        have hine : i ≠ nid := by
          intro hc
          rw [hc] at hi
          exact hnidflat (hidsub k hkks nid hi)
        have hilt : i < b.nodes.length := hidlt k hkks i hi
        rw [hset_other i hine (by omega) (hdknotlc k hk i hi)]
    · intro k hk
      have hkks : k ∈ ks := List.mem_of_mem_drop hk
      rw [hset_other k.cid ?_ ?_ (hdknotlc k hk k.cid (hcm k hkks))]
      · exact hpark k hkks
      · intro hc
        exact hnidflat (hc ▸ hidsub k hkks k.cid (hcm k hkks))
      · have := hidlt k hkks k.cid (hcm k hkks)
        omega
    · rw [List.nodup_cons]
      refine ⟨?_, ?_⟩
      · intro hc
        refine hnidflat ?_
        rw [hflatsplit Kid.ids]
        exact List.mem_append_right _ hc
      · refine List.Nodup.sublist ?_ hndflat
        rw [hflatsplit Kid.ids]
        exact List.sublist_append_right _ _
  refine ⟨hs2, hroot, hcount, hlen2, hrepL, hrepR, hflatsplit Kid.ids,
    hflatsplit Kid.lvs, hflatsplitE, by rw [hset_len], by rw [hset_nid],
    ?_, ?_, ?_⟩
  · intro i h1 h2
    by_cases hlc : i ∈ ((b.nodes.getD nid default).payload.take 63).map EntryP.T.pivot ++ [((b.nodes.getD nid default).payload.getD 63 default).pivot]
    · rw [hset_lc i hlc]
      exact ⟨rfl, rfl, rfl, fun _ => rfl⟩
    · rw [hset_other i h1 h2 hlc]
      exact ⟨rfl, rfl, rfl, fun _ => rfl⟩
  · intro i h2
    by_cases h1 : i = nid
    · rw [h1, hset_nid]
      exact ⟨rfl, rfl⟩
    · by_cases hlc : i ∈ ((b.nodes.getD nid default).payload.take 63).map EntryP.T.pivot ++ [((b.nodes.getD nid default).payload.getD 63 default).pivot]
      · rw [hset_lc i hlc]
        exact ⟨rfl, rfl⟩
      · rw [hset_other i h1 h2 hlc]
        exact ⟨rfl, rfl⟩
  · intro i hii h2
    have h1 : i ≠ nid := by
      intro hc
      rw [hc] at hii
      exact hii (List.mem_cons_self _ _)
    have hlc : i ∉ ((b.nodes.getD nid default).payload.take 63).map EntryP.T.pivot ++ [((b.nodes.getD nid default).payload.getD 63 default).pivot] := by
      intro hc
      obtain ⟨k, hk, hik⟩ := (hmemLC i).mp hc
      refine hii (List.mem_cons_of_mem _ ?_)
      rw [hik]
      exact hidsub k (List.mem_of_mem_take hk) k.cid
        (hcm k (List.mem_of_mem_take hk))
    rw [hset_other i h1 h2 hlc]

/-- Separator keys are strictly ascending whenever every slot carries an
aggregated subtree. -/
theorem kids_sorted (buf : List Nat) (ns : List Btree127.BNode)
    (payload : List EntryP.T) (rm : Nat) (lo hi : Option (List Nat))
    (ks : List Kid) (hshape : KidsShape buf payload rm lo hi ks)
    (hAgg : ∀ k ∈ ks, Agg buf ns k.lo k.hi k.ids k.lvs k.es) :
    List.Pairwise kLt (payload.map (ekey buf)) := by
  rw [← List.chain'_iff_pairwise, List.chain'_iff_get]
  intro p hp
  have hplen : p + 1 < payload.length := by
    simp only [List.length_map] at hp
    omega
  obtain ⟨hkslen, hcid, hklo, hkhi⟩ := kid_at buf hshape (p + 1) (by omega)
  have hkmem : ks.getD (p + 1) default ∈ ks := getDMem ks default (by omega)
  have hagg := hAgg _ hkmem
  rw [if_neg (by omega : ¬ p + 1 = 0)] at hklo
  rw [if_neg (by omega : ¬ p + 1 = payload.length)] at hkhi
  have hp1 : p + 1 - 1 = p := by omega
  rw [hp1] at hklo
  obtain ⟨e, he, hek⟩ := Agg_lo_mem buf ns _ _ _ _ _ hagg
    (ekey buf (payload.getD p default)) hklo
  have hbound := (hagg.esBounds e he).2
    (ekey buf (payload.getD (p + 1) default)) hkhi
  rw [hek] at hbound
  have hgoal : kLt (ekey buf (payload.getD p default))
      (ekey buf (payload.getD (p + 1) default)) := hbound
  rw [List.get_eq_getElem, List.get_eq_getElem, List.getElem_map,
    List.getElem_map]
  rw [List.getD_eq_getElem _ default (by omega : p < payload.length),
    List.getD_eq_getElem _ default hplen] at hgoal
  exact hgoal

/-- Separator keys lie strictly inside the node's bounds whenever every
slot carries an aggregated subtree. -/
theorem seps_strict (buf : List Nat) (ns : List Btree127.BNode)
    (payload : List EntryP.T) (rm : Nat) (lo hi : Option (List Nat))
    (ks : List Kid) (hshape : KidsShape buf payload rm lo hi ks)
    (hAgg : ∀ k ∈ ks, Agg buf ns k.lo k.hi k.ids k.lvs k.es) :
    ∀ p, p < payload.length →
      loLt lo (keyAt payload buf p) ∧ hiOk hi (keyAt payload buf p) := by
  have hsorted := kids_sorted buf ns payload rm lo hi ks hshape hAgg
  have hKK : ∀ p q, p < q → q < payload.length →
      kLt (keyAt payload buf p) (keyAt payload buf q) := by
    intro p q hpq hq
    have := List.pairwise_iff_getElem.mp hsorted p q
      (by rw [List.length_map]; omega) (by rw [List.length_map]; omega) hpq
    rw [List.getElem_map, List.getElem_map] at this
    show kLt (ekey buf (payload.getD p default))
      (ekey buf (payload.getD q default))
    rw [List.getD_eq_getElem _ default (by omega : p < payload.length),
      List.getD_eq_getElem _ default hq]
    exact this
  intro p hp
  constructor
  · intro l hl
    obtain ⟨hkslen, hcid0, hklo0, hkhi0⟩ := kid_at buf hshape 0 (by omega)
    rw [if_pos rfl] at hklo0
    rw [if_neg (by omega : ¬ (0 : Nat) = payload.length)] at hkhi0
    have hkmem : ks.getD 0 default ∈ ks := getDMem ks default (by omega)
    have hagg := hAgg _ hkmem
    rw [hl] at hklo0
    obtain ⟨e, he, hek⟩ := Agg_lo_mem buf ns _ _ _ _ _ hagg l hklo0
    have hb0 := (hagg.esBounds e he).2 (ekey buf (payload.getD 0 default))
      hkhi0
    rw [hek] at hb0
    rcases Nat.eq_zero_or_pos p with hp0 | hp0
    · rw [hp0]
      exact hb0
    · exact bytesCmp_trans_lt _ _ _ hb0 (hKK 0 p hp0 hp)
  · intro hv hh
    obtain ⟨hkslen, hcidL, hkloL, hkhiL⟩ :=
      kid_at buf hshape payload.length (by omega)
    rw [if_neg (by omega : ¬ payload.length = 0)] at hkloL
    rw [if_pos rfl] at hkhiL
    have hkmem : ks.getD payload.length default ∈ ks :=
      getDMem ks default (by omega)
    have hagg := hAgg _ hkmem
    obtain ⟨e, he, hek⟩ := Agg_lo_mem buf ns _ _ _ _ _ hagg
      (ekey buf (payload.getD (payload.length - 1) default)) hkloL
    have hbL := (hagg.esBounds e he).2 hv (by rw [hkhiL, hh])
    rw [hek] at hbL
    rcases Nat.lt_or_ge p (payload.length - 1) with hpl | hpl
    · exact bytesCmp_trans_lt _ _ _ (hKK p (payload.length - 1) hpl
        (by omega)) hbL
    · have : p = payload.length - 1 := by omega
      rw [this]
      exact hbL

theorem getD_append_len {α : Type} [Inhabited α] :
    ∀ (l : List α) (x : α) (r : List α),
      (l ++ x :: r).getD l.length default = x := by
  intro l
  induction l with
  | nil => intro x r; rfl
  | cons a as ih => intro x r; exact ih x r

theorem take_append_len {α : Type} (l : List α) (x : α) (r : List α) :
    (l ++ x :: r).take l.length = l :=
  List.take_left l (x :: r)

theorem drop_append_len {α : Type} (l : List α) (x : α) (r : List α) :
    (l ++ x :: r).drop (l.length + 1) = r := by
  rw [show l.length + 1 = l.length + 1 from rfl, ← List.drop_drop,
    List.drop_left]
  rfl

/-- A frame's id list is, as a multiset, the hole plus the frame's own
nodes. -/
theorem frmIds_perm (f : Frm) (x : List Nat) :
    (frmIds f x).Perm (x ++ frmNodes f) := by
  show (f.pid :: ((f.preK.map Kid.ids).flatten ++ x ++
      (f.postK.map Kid.ids).flatten)).Perm _
  have h1 : ((f.preK.map Kid.ids).flatten ++ x ++
      (f.postK.map Kid.ids).flatten).Perm
      (x ++ ((f.preK.map Kid.ids).flatten ++
        (f.postK.map Kid.ids).flatten)) := by
    refine List.Perm.trans (List.Perm.append_right _ List.perm_append_comm) ?_
    rw [List.append_assoc]
  refine List.Perm.trans (List.Perm.cons _ h1) ?_
  have h2 : frmNodes f = f.pid :: ((f.preK.map Kid.ids).flatten ++
      (f.postK.map Kid.ids).flatten) := by
    show f.pid :: ((f.preK ++ f.postK).map Kid.ids).flatten = _
    rw [List.map_append, List.flatten_append]
  rw [h2]
  exact List.perm_middle.symm

/-- A grafted id list is, as a multiset, the hole plus the spine's
nodes. -/
theorem graftIds_perm :
    ∀ (spine : List Frm) (x : List Nat),
      (graftIds spine x).Perm (x ++ spineNodes spine) := by
  intro spine
  induction spine with
  | nil => intro x; simp [graftIds, spineNodes]
  | cons f rest ih =>
    intro x
    refine List.Perm.trans (ih (frmIds f x)) ?_
    refine List.Perm.trans (List.Perm.append_right _ (frmIds_perm f x)) ?_
    rw [List.append_assoc]
    exact List.Perm.refl _

/-- Replacing a spine hole by a permuted copy with one fresh id keeps
the grafted id list duplicate-free. -/
theorem graftIds_nodup_grow (spine : List Frm) (x y : List Nat) (a : Nat)
    (hperm : y.Perm (a :: x))
    (hold : (graftIds spine x).Nodup)
    (ha : a ∉ graftIds spine x) :
    (graftIds spine y).Nodup := by
  have h1 : (graftIds spine y).Perm (y ++ spineNodes spine) :=
    graftIds_perm spine y
  have h2 : (y ++ spineNodes spine).Perm ((a :: x) ++ spineNodes spine) :=
    List.Perm.append_right _ hperm
  have h3 : (graftIds spine y).Perm (a :: (x ++ spineNodes spine)) :=
    List.Perm.trans h1 h2
  rw [h3.nodup_iff, List.nodup_cons]
  have h4 := (graftIds_perm spine x).nodup_iff
  have h5 := (graftIds_perm spine x).mem_iff (a := a)
  refine ⟨?_, h4.mp hold⟩
  intro hc
  exact ha (h5.mpr hc)

/-- The probe window a two-kid hole pins: everything left of the hole
compares below `x`, everything right above. -/
theorem hole_pins (buf : List Nat) (payload : List EntryP.T) (rm : Nat)
    (loP hiP holeLo holeHi : Option (List Nat)) (c : Nat)
    (preK postK : List Kid)
    (hshape : preK.map kidShape ++ (c, holeLo, holeHi) ::
      postK.map kidShape = canonKids buf payload rm loP hiP)
    (hsorted : List.Pairwise kLt (payload.map (ekey buf)))
    (x : List Nat) (hlo : loLt holeLo x) (hhi : hiOk holeHi x) :
    (∀ p, p < preK.length → bytesCmp x (keyAt payload buf p) = 1) ∧
    (∀ p, preK.length ≤ p → p < payload.length →
      bytesCmp x (keyAt payload buf p) = -1) ∧
    preK.length ≤ payload.length := by
  have hlen : preK.length + 1 + postK.length = payload.length + 1 := by
    have := congrArg List.length hshape
    rw [List.length_append, List.length_cons, List.length_map,
      List.length_map, canonKids_length] at this
    omega
  have hjle : preK.length ≤ payload.length := by omega
  have hslot : (c, holeLo, holeHi) =
      (canonKids buf payload rm loP hiP).getD preK.length default := by
    rw [← hshape]
    have := getD_append_len (preK.map kidShape) (c, holeLo, holeHi)
      (postK.map kidShape)
    rw [List.length_map] at this
    exact this.symm
  rw [canonKids_getD buf payload rm loP hiP preK.length hjle] at hslot
  have hLo : holeLo = (if preK.length = 0 then loP
      else some (ekey buf (payload.getD (preK.length - 1) default))) :=
    congrArg (fun y => y.2.1) hslot
  have hHi : holeHi = (if preK.length = payload.length then hiP
      else some (ekey buf (payload.getD preK.length default))) :=
    congrArg (fun y => y.2.2) hslot
  have hKK : ∀ p q, p < q → q < payload.length →
      kLt (keyAt payload buf p) (keyAt payload buf q) := by
    intro p q hpq hq
    have := List.pairwise_iff_getElem.mp hsorted p q
      (by rw [List.length_map]; omega) (by rw [List.length_map]; omega) hpq
    rw [List.getElem_map, List.getElem_map] at this
    show kLt (ekey buf (payload.getD p default))
      (ekey buf (payload.getD q default))
    rw [List.getD_eq_getElem _ default (by omega : p < payload.length),
      List.getD_eq_getElem _ default hq]
    exact this
  refine ⟨?_, ?_, hjle⟩
  · intro p hp
    have hj0 : ¬ preK.length = 0 := by omega
    rw [if_neg hj0] at hLo
    have hstep : bytesCmp (keyAt payload buf (preK.length - 1)) x = -1 :=
      hlo _ hLo
    have hswap := bytesCmp_swap x (keyAt payload buf (preK.length - 1))
    rcases Nat.lt_or_ge p (preK.length - 1) with hpl | hpl
    · have htr := bytesCmp_trans_lt _ _ _
        (hKK p (preK.length - 1) hpl (by omega)) hstep
      have := bytesCmp_swap x (keyAt payload buf p)
      omega
    · have : p = preK.length - 1 := by omega
      rw [this]
      omega
  · intro p hp hplen
    have hjl : ¬ preK.length = payload.length := by omega
    rw [if_neg hjl] at hHi
    have hstep : bytesCmp x (keyAt payload buf preK.length) = -1 :=
      hhi _ hHi
    rcases Nat.lt_or_ge preK.length p with hpl | hpl
    · exact bytesCmp_trans_lt _ _ _ hstep (hKK preK.length p hpl hplen)
    · have : p = preK.length := by omega
      rw [this]
      exact hstep

theorem insertIdx_eq {α : Type} (a : α) :
    ∀ (j : Nat) (l : List α), j ≤ l.length →
      l.insertIdx j a = l.take j ++ a :: l.drop j := by
  intro j
  induction j with
  | zero => intro l _; rfl
  | succ j ih =>
    intro l hl
    cases l with
    | nil => simp at hl
    | cons x xs =>
      show x :: xs.insertIdx j a = _
      rw [ih xs (by simpa using hl)]
      rfl

/-- One ascent iteration's insert: the separator entry lands exactly in
the hole's slot, and the parent's slots become the old ones with the
hole replaced by the two split halves. -/
theorem hole_insert (buf key : List Nat) (hkb : ∀ x ∈ key, x < 256)
    (b : Btree127.T) (h pid sid nid : Nat)
    (loP hiP holeLo holeHi : Option (List Nat)) (preK postK : List Kid)
    (ent : EntryP.T) (idsL lvsL idsR lvsR : List Nat)
    (esL esR : List EntryP.T)
    (hfrm : FrmOK buf b.nodes (Frm.mk pid loP hiP preK postK holeLo holeHi) nid h)
    (hsid : Rep buf b.nodes h sid holeLo (some (ekey buf ent)) idsL lvsL esL)
    (hnidr : Rep buf b.nodes h nid (some (ekey buf ent)) holeHi idsR lvsR esR)
    (hsidpar : (b.nodes.getD sid default).parent = pid)
    (hpv : ent.pivot = sid)
    (hwfent : WfE buf ent)
    (hlok : loLt holeLo key) (hhik : hiOk holeHi key)
    (hloe : loLt holeLo (ekey buf ent)) (hhie : hiOk holeHi (ekey buf ent))
    (hfnd : (frmIds (Frm.mk pid loP hiP preK postK holeLo holeHi) (idsL ++ idsR)).Nodup) :
    Btree127.insertEntry (Btree127.getNode b pid) key ent buf = ({ (Btree127.getNode b pid) with payload := (Btree127.getNode b pid).payload.insertIdx preK.length ent, count := (Btree127.getNode b pid).count + 1 }, true) ∧
    preK.length ≤ (Btree127.getNode b pid).payload.length ∧
    KidsShape buf ((Btree127.getNode b pid).payload.insertIdx preK.length ent) (Btree127.getNode b pid).next loP hiP
      (preK ++ (Kid.mk sid holeLo (some (ekey buf ent)) idsL lvsL esL) :: (Kid.mk nid (some (ekey buf ent)) holeHi idsR lvsR esR) :: postK) ∧
    (∀ e ∈ (Btree127.getNode b pid).payload.insertIdx preK.length ent, WfE buf e) ∧
    (∀ k ∈ (preK ++ (Kid.mk sid holeLo (some (ekey buf ent)) idsL lvsL esL) :: (Kid.mk nid (some (ekey buf ent)) holeHi idsR lvsR esR) :: postK),
      Rep buf (Btree127.setNode b pid { (Btree127.getNode b pid) with payload := (Btree127.getNode b pid).payload.insertIdx preK.length ent, count := (Btree127.getNode b pid).count + 1 }).nodes h k.cid k.lo k.hi k.ids k.lvs k.es) ∧
    (∀ k ∈ (preK ++ (Kid.mk sid holeLo (some (ekey buf ent)) idsL lvsL esL) :: (Kid.mk nid (some (ekey buf ent)) holeHi idsR lvsR esR) :: postK), ((Btree127.setNode b pid { (Btree127.getNode b pid) with payload := (Btree127.getNode b pid).payload.insertIdx preK.length ent, count := (Btree127.getNode b pid).count + 1 }).nodes.getD k.cid default).parent = pid) ∧
    ((preK ++ (Kid.mk sid holeLo (some (ekey buf ent)) idsL lvsL esL) :: (Kid.mk nid (some (ekey buf ent)) holeHi idsR lvsR esR) :: postK).map Kid.ids).flatten =
      (preK.map Kid.ids).flatten ++ (idsL ++ idsR) ++
        (postK.map Kid.ids).flatten ∧
    ((preK ++ (Kid.mk sid holeLo (some (ekey buf ent)) idsL lvsL esL) :: (Kid.mk nid (some (ekey buf ent)) holeHi idsR lvsR esR) :: postK).map Kid.lvs).flatten =
      (preK.map Kid.lvs).flatten ++ (lvsL ++ lvsR) ++
        (postK.map Kid.lvs).flatten ∧
    ((preK ++ (Kid.mk sid holeLo (some (ekey buf ent)) idsL lvsL esL) :: (Kid.mk nid (some (ekey buf ent)) holeHi idsR lvsR esR) :: postK).map Kid.es).flatten =
      (preK.map Kid.es).flatten ++ (esL ++ esR) ++
        (postK.map Kid.es).flatten := by
  obtain ⟨hplt, hpleaf, hpcnt, hp1le, hple, hpwf, hpshape, hpreps, hppark,
    hpcur⟩ := hfrm
  have hAhole : Agg buf b.nodes holeLo holeHi (idsL ++ idsR) (lvsL ++ lvsR)
      (esL ++ esR) :=
    Agg_append buf b.nodes holeLo holeHi (ekey buf ent) idsL lvsL esL idsR
      lvsR esR (Rep_agg buf h b.nodes sid holeLo (some (ekey buf ent)) idsL
        lvsL esL hsid)
      (Rep_agg buf h b.nodes nid (some (ekey buf ent)) holeHi idsR lvsR esR
        hnidr)
  have hshapeH : KidsShape buf (b.nodes.getD pid default).payload
      (b.nodes.getD pid default).next loP hiP (preK ++ (Kid.mk nid holeLo holeHi (idsL ++ idsR) (lvsL ++ lvsR) (esL ++ esR)) :: postK) := by
    show (preK ++ (Kid.mk nid holeLo holeHi (idsL ++ idsR) (lvsL ++ lvsR) (esL ++ esR)) :: postK).map kidShape = _
    rw [List.map_append, List.map_cons]
    exact hpshape
  have hAggsH : ∀ k ∈ preK ++ (Kid.mk nid holeLo holeHi (idsL ++ idsR) (lvsL ++ lvsR) (esL ++ esR)) :: postK,
      Agg buf b.nodes k.lo k.hi k.ids k.lvs k.es := by
    intro k hk
    rcases List.mem_append.mp hk with h2 | h2
    · exact Rep_agg buf h b.nodes k.cid k.lo k.hi k.ids k.lvs k.es
        (hpreps k (List.mem_append_left _ h2))
    · rcases List.mem_cons.mp h2 with h3 | h3
      · rw [h3]
        exact hAhole
      · exact Rep_agg buf h b.nodes k.cid k.lo k.hi k.ids k.lvs k.es
          (hpreps k (List.mem_append_right _ h3))
  have hsorted := kids_sorted buf b.nodes (b.nodes.getD pid default).payload
    (b.nodes.getD pid default).next loP hiP (preK ++ (Kid.mk nid holeLo holeHi (idsL ++ idsR) (lvsL ++ lvsR) (esL ++ esR)) :: postK)
    hshapeH hAggsH
  obtain ⟨hKL, hKR, hjle⟩ := hole_pins buf
    (b.nodes.getD pid default).payload (b.nodes.getD pid default).next loP
    hiP holeLo holeHi nid preK postK hpshape hsorted key hlok hhik
  obtain ⟨hEL, hER, -⟩ := hole_pins buf
    (b.nodes.getD pid default).payload (b.nodes.getD pid default).next loP
    hiP holeLo holeHi nid preK postK hpshape hsorted (ekey buf ent) hloe
    hhie
  have hcg : (Btree127.getNode b pid).count = (Btree127.getNode b pid).payload.length := hpcnt
  have hfind : Btree127.insFind (Btree127.getNode b pid).payload (getBE32 ent.pfx) key buf
      (Btree127.getNode b pid).count 0 (Btree127.getNode b pid).count = Sum.inl preK.length := by
    rw [hwfent.1, hcg]
    exact insFind_pinned (Btree127.getNode b pid).payload key (ekey buf ent) buf hkb hwfent.2
      hpwf preK.length hjle
      (fun p hp => ⟨hKL p hp, hEL p hp⟩)
      (fun p hp hplen => ⟨hKR p hp hplen, hER p hp hplen⟩)
      (Btree127.getNode b pid).payload.length 0 (Btree127.getNode b pid).payload.length (by omega) hjle (by omega)
      (by omega)
  have hres : Btree127.insertEntry (Btree127.getNode b pid) key ent buf = ({ (Btree127.getNode b pid) with payload := (Btree127.getNode b pid).payload.insertIdx preK.length ent, count := (Btree127.getNode b pid).count + 1 }, true) := by
    rw [Btree127.insertEntry, hfind]
  have hslotL : (canonKids buf (b.nodes.getD pid default).payload
      (b.nodes.getD pid default).next loP hiP).take preK.length =
      preK.map kidShape := by
    rw [← hpshape]
    have := take_append_len (preK.map kidShape)
      ((nid, holeLo, holeHi) : Nat × Option (List Nat) × Option (List Nat))
      (postK.map kidShape)
    rw [List.length_map] at this
    exact this
  have hslotM : (canonKids buf (b.nodes.getD pid default).payload
      (b.nodes.getD pid default).next loP hiP).getD preK.length default =
      (nid, holeLo, holeHi) := by
    rw [← hpshape]
    have := getD_append_len (preK.map kidShape)
      ((nid, holeLo, holeHi) : Nat × Option (List Nat) × Option (List Nat))
      (postK.map kidShape)
    rw [List.length_map] at this
    exact this
  have hslotR : (canonKids buf (b.nodes.getD pid default).payload
      (b.nodes.getD pid default).next loP hiP).drop (preK.length + 1) =
      postK.map kidShape := by
    rw [← hpshape]
    have := drop_append_len (preK.map kidShape)
      ((nid, holeLo, holeHi) : Nat × Option (List Nat) × Option (List Nat))
      (postK.map kidShape)
    rw [List.length_map] at this
    exact this
  have hshape2 : KidsShape buf ((Btree127.getNode b pid).payload.insertIdx preK.length ent)
      (Btree127.getNode b pid).next loP hiP (preK ++ (Kid.mk sid holeLo (some (ekey buf ent)) idsL lvsL esL) :: (Kid.mk nid (some (ekey buf ent)) holeHi idsR lvsR esR) :: postK) := by
    show (preK ++ (Kid.mk sid holeLo (some (ekey buf ent)) idsL lvsL esL) :: (Kid.mk nid (some (ekey buf ent)) holeHi idsR lvsR esR) :: postK).map kidShape = _
    rw [show (Btree127.getNode b pid) = b.nodes.getD pid default from rfl]
    rw [canonKids_insert buf (b.nodes.getD pid default).payload
      (b.nodes.getD pid default).next loP hiP preK.length ent hjle]
    rw [hslotL, hslotM, hslotR, List.map_append, List.map_cons,
      List.map_cons]
    rw [hpv]
    rfl
  have hwf2 : ∀ e ∈ (Btree127.getNode b pid).payload.insertIdx preK.length ent, WfE buf e := by
    rw [show (Btree127.getNode b pid) = b.nodes.getD pid default from rfl]
    rw [insertIdx_eq ent preK.length (b.nodes.getD pid default).payload hjle]
    intro e he
    rcases List.mem_append.mp he with h2 | h2
    · exact hpwf e (List.mem_of_mem_take h2)
    · rcases List.mem_cons.mp h2 with h3 | h3
      · rw [h3]
        exact hwfent
      · exact hpwf e (List.mem_of_mem_drop h3)
  have hpidtail : pid ∉ (preK.map Kid.ids).flatten ++ (idsL ++ idsR) ++
      (postK.map Kid.ids).flatten := (List.nodup_cons.mp hfnd).1
  have hktail : ∀ k ∈ (preK ++ (Kid.mk sid holeLo (some (ekey buf ent)) idsL lvsL esL) :: (Kid.mk nid (some (ekey buf ent)) holeHi idsR lvsR esR) :: postK), ∀ i ∈ k.ids,
      i ∈ (preK.map Kid.ids).flatten ++ (idsL ++ idsR) ++
        (postK.map Kid.ids).flatten := by
    intro k hk i hi
    rcases List.mem_append.mp hk with h2 | h2
    · refine List.mem_append_left _ (List.mem_append_left _ ?_)
      rw [List.mem_flatten]
      exact ⟨k.ids, List.mem_map_of_mem Kid.ids h2, hi⟩
    · rcases List.mem_cons.mp h2 with h3 | h3
      · refine List.mem_append_left _ (List.mem_append_right _ ?_)
        refine List.mem_append_left _ ?_
        rw [h3] at hi
        exact hi
      · rcases List.mem_cons.mp h3 with h4 | h4
        · refine List.mem_append_left _ (List.mem_append_right _ ?_)
          refine List.mem_append_right _ ?_
          rw [h4] at hi
          exact hi
        · refine List.mem_append_right _ ?_
          rw [List.mem_flatten]
          exact ⟨k.ids, List.mem_map_of_mem Kid.ids h4, hi⟩
  have hrepsb : ∀ k ∈ (preK ++ (Kid.mk sid holeLo (some (ekey buf ent)) idsL lvsL esL) :: (Kid.mk nid (some (ekey buf ent)) holeHi idsR lvsR esR) :: postK),
      Rep buf b.nodes h k.cid k.lo k.hi k.ids k.lvs k.es := by
    intro k hk
    rcases List.mem_append.mp hk with h2 | h2
    · exact hpreps k (List.mem_append_left _ h2)
    · rcases List.mem_cons.mp h2 with h3 | h3
      · rw [h3]
        exact hsid
      · rcases List.mem_cons.mp h3 with h4 | h4
        · rw [h4]
          exact hnidr
        · exact hpreps k (List.mem_append_right _ h4)
  have hparsb : ∀ k ∈ (preK ++ (Kid.mk sid holeLo (some (ekey buf ent)) idsL lvsL esL) :: (Kid.mk nid (some (ekey buf ent)) holeHi idsR lvsR esR) :: postK), (b.nodes.getD k.cid default).parent = pid := by
    intro k hk
    rcases List.mem_append.mp hk with h2 | h2
    · exact hppark k (List.mem_append_left _ h2)
    · rcases List.mem_cons.mp h2 with h3 | h3
      · rw [h3]
        exact hsidpar
      · rcases List.mem_cons.mp h3 with h4 | h4
        · rw [h4]
          exact hpcur
        · exact hppark k (List.mem_append_right _ h4)
  have hset : ∀ i, i ≠ pid →
      (Btree127.setNode b pid { (Btree127.getNode b pid) with payload := (Btree127.getNode b pid).payload.insertIdx preK.length ent, count := (Btree127.getNode b pid).count + 1 }).nodes.getD i default = b.nodes.getD i default := by
    intro i hi
    show (b.nodes.set pid { (Btree127.getNode b pid) with payload := (Btree127.getNode b pid).payload.insertIdx preK.length ent, count := (Btree127.getNode b pid).count + 1 }).getD i default = _
    exact getDset_ne b.nodes pid i { (Btree127.getNode b pid) with payload := (Btree127.getNode b pid).payload.insertIdx preK.length ent, count := (Btree127.getNode b pid).count + 1 } (Ne.symm hi)
  refine ⟨hres, hjle, hshape2, hwf2, ?_, ?_, ?_, ?_, ?_⟩
  · intro k hk
    have hbslen : (Btree127.setNode b pid { (Btree127.getNode b pid) with payload := (Btree127.getNode b pid).payload.insertIdx preK.length ent, count := (Btree127.getNode b pid).count + 1 }).nodes.length = b.nodes.length := by
      show (b.nodes.set pid { (Btree127.getNode b pid) with payload := (Btree127.getNode b pid).payload.insertIdx preK.length ent, count := (Btree127.getNode b pid).count + 1 }).length = _
      rw [List.length_set]
    refine Rep_frame buf h b.nodes (Btree127.setNode b pid { (Btree127.getNode b pid) with payload := (Btree127.getNode b pid).payload.insertIdx preK.length ent, count := (Btree127.getNode b pid).count + 1 }).nodes k.cid k.lo k.hi k.ids k.lvs
      k.es (hrepsb k hk) (by omega) ?_ ?_
    · intro i hi
      have hip : i ≠ pid := by
        intro hc
        rw [hc] at hi
        exact hpidtail (hktail k hk pid hi)
      rw [hset i hip]
      exact ⟨rfl, rfl, rfl, fun _ => rfl⟩
    · intro i hi _
      have hip : i ≠ pid := by
        intro hc
        rw [hc] at hi
        exact hpidtail (hktail k hk pid hi)
      rw [hset i hip]
  · intro k hk
    have hcp : k.cid ≠ pid := by
      intro hc
      have := hktail k hk k.cid (Rep_nid_mem buf h b.nodes k.cid k.lo k.hi
        k.ids k.lvs k.es (hrepsb k hk))
      rw [hc] at this
      exact hpidtail this
    rw [hset k.cid hcp]
    exact hparsb k hk
  · simp [List.map_append, List.flatten_append, List.append_assoc]
  · simp [List.map_append, List.flatten_append, List.append_assoc]
  · simp [List.map_append, List.flatten_append, List.append_assoc]

theorem getD_append_len2 {α : Type} [Inhabited α] (l : List α) (x y : α)
    (r : List α) : (l ++ x :: y :: r).getD (l.length + 1) default = y := by
  have h1 : l ++ x :: y :: r = (l ++ [x]) ++ y :: r := by
    simp [List.append_assoc]
  have h2 := getD_append_len (l ++ [x]) y r
  rw [List.length_append] at h2
  rw [h1]
  exact h2

/-- The top of a valid spine is parentless. -/
theorem spineRoot_parent (buf : List Nat) (ns : List Btree127.BNode) :
    ∀ (spine : List Frm) (cur h : Nat) (lo hi : Option (List Nat)),
      SpineOK buf ns spine cur h lo hi →
      (ns.getD (spineRoot spine cur) default).parent =
        Btree127.invalidNode := by
  intro spine
  induction spine with
  | nil => intro cur h lo hi hsp; exact hsp.2.2
  | cons f rest ih =>
    intro cur h lo hi hsp
    exact ih f.pid (h + 1) f.loP f.hiP hsp.2.2.2

/-- Refilling a frame's hole with a permuted copy plus one fresh id. -/
theorem frmIds_grow (f : Frm) (x y : List Nat) (a : Nat)
    (hperm : y.Perm (a :: x)) :
    (frmIds f y).Perm (a :: frmIds f x) := by
  refine List.Perm.trans (frmIds_perm f y) ?_
  refine List.Perm.trans (List.Perm.append_right _ hperm) ?_
  show (a :: (x ++ frmNodes f)).Perm _
  exact List.Perm.cons a (frmIds_perm f x).symm

/-- Refilling a spine's hole with a permuted copy plus one fresh id. -/
theorem graftIds_grow_perm :
    ∀ (spine : List Frm) (x y : List Nat) (a : Nat), y.Perm (a :: x) →
      (graftIds spine y).Perm (a :: graftIds spine x) := by
  intro spine
  induction spine with
  | nil => intro x y a hperm; exact hperm
  | cons f rest ih =>
    intro x y a hperm
    exact ih (frmIds f x) (frmIds f y) a (frmIds_grow f x y a hperm)

/-- Ordered insertion into a duplicate-free sorted key list: the
abstraction of one btree insert. -/
def oIns (k : List Nat) : List (List Nat) → List (List Nat)
  | [] => [k]
  | a :: rest =>
    if bytesCmp k a = -1 then k :: a :: rest
    else if bytesCmp k a = 0 then a :: rest
    else a :: oIns k rest

end BT

end Wosl
